import Mathlib

/-!
# XfstCompiler: flag-diacritic validator, stack algebra, tables and variables

A shallow embedding of `libhfst/src/parsers/XfstCompiler.cc`.

* `std::map<std::string, V>` is an association list read through `StrMap.get`
  (what `operator[]` returns: the bound value, or the default-constructed one)
  and written through `StrMap.set`.
* `std::stack<HfstTransducer*>` is a list whose head is the top.
* The transducer engine (`HfstTransducer`) lives outside this file: it is a
  record of functions over an arbitrary carrier type.
-/

namespace Xfst

/-! ## String-keyed maps -/

/-- A `std::map<std::string, V>` as an association list; the first pair with a
given key is the binding of that key. -/
abbrev StrMap (V : Type) := List (String × V)

/-- The value `m[k]` evaluates to: the bound value, or `dflt` (the
default-constructed value `operator[]` yields for an absent key). -/
def StrMap.get {V : Type} (m : StrMap V) (k : String) (dflt : V) : V :=
  match m with
  | [] => dflt
  | (k', v) :: rest => if k' = k then v else StrMap.get rest k dflt

/-- The assignment `m[k] = v`. -/
def StrMap.set {V : Type} (m : StrMap V) (k : String) (v : V) : StrMap V :=
  match m with
  | [] => [(k, v)]
  | (k', v') :: rest => if k' = k then (k, v) :: rest else (k', v') :: StrMap.set rest k v

/-- The test `m.find(k) != m.end()`. -/
def StrMap.contains {V : Type} (m : StrMap V) (k : String) : Bool :=
  match m with
  | [] => false
  | (k', _) :: rest => if k' = k then true else StrMap.contains rest k

/-- The value `m.find(k)` points to, `none` for `m.end()`. -/
def StrMap.find? {V : Type} (m : StrMap V) (k : String) : Option V :=
  match m with
  | [] => none
  | (k', v) :: rest => if k' = k then some v else StrMap.find? rest k

/-! ## Flag diacritics -/

/-- The four static accessors of `FdOperation` that `is_valid_string` calls.
Their bodies are not part of `XfstCompiler.cc`, so the validator takes them as
a record of functions on symbols. -/
structure FdOperation where
  /-- `FdOperation::is_diacritic` -/
  is_diacritic : String → Bool
  /-- `FdOperation::get_operator` -/
  get_operator : String → String
  /-- `FdOperation::get_feature` -/
  get_feature : String → String
  /-- `FdOperation::get_value` -/
  get_value : String → String

/-- The characters of a flag-diacritic body up to the first dot. -/
def fdBeforeDot : List Char → List Char
  | [] => []
  | c :: cs => if c = '.' then [] else c :: fdBeforeDot cs

/-- The characters of a flag-diacritic body after the first dot (empty when
there is no dot). -/
def fdAfterDot : List Char → List Char
  | [] => []
  | c :: cs => if c = '.' then cs else fdAfterDot cs

/-- Whether a character list ends with `@` and has no other `@` in it. -/
def fdClosed : List Char → Bool
  | [] => false
  | [c] => c = '@'
  | c :: cs => c ≠ '@' && fdClosed cs

/-- The body of a flag diacritic: everything before the closing `@`. -/
def fdBody : List Char → List Char
  | [] => []
  | [_] => []
  | c :: cs => c :: fdBody cs

/-- Modelled from the spec: `FdOperation` is declared outside the sources at
hand. Flag diacritics are inline symbols of the form `OP.FEATURE.VALUE`
between two `@` signs, with operator `P`, `N`, `R`, `D`, `C` or `U`; the value
(and its dot) may be missing, and then the value is empty. -/
def fdOperation : FdOperation where
  is_diacritic := fun s =>
    match s.data with
    | '@' :: op :: '.' :: rest =>
      (op = 'P' || op = 'N' || op = 'R' || op = 'D' || op = 'C' || op = 'U')
        && fdClosed rest && 2 ≤ rest.length
    | _ => false
  get_operator := fun s =>
    match s.data with
    | _ :: op :: _ => String.mk [op]
    | _ => ""
  get_feature := fun s =>
    match s.data with
    | _ :: _ :: _ :: rest => String.mk (fdBeforeDot (fdBody rest))
    | _ => ""
  get_value := fun s =>
    match s.data with
    | _ :: _ :: _ :: rest => String.mk (fdAfterDot (fdBody rest))
    | _ => ""

/-- The two local variables of `is_valid_string`: `values` maps a feature to
its latest value, `negative_values` is the set of features that have been
negatively set. -/
structure FdState where
  values : StrMap String
  negative_values : List String

/-- The outcome of one iteration of the loop of `is_valid_string`. -/
inductive FdStep where
  /-- the iteration ends normally, the loop goes on in this state -/
  | next (st : FdState)
  /-- `return false` -/
  | invalid
  /-- `assert(opstr.size() == 1)` fails -/
  | assertion
  /-- `throw "Error in is_valid_string"` -/
  | thrown

/-- The body of the `for` loop of `is_valid_string`, on one symbol. -/
def fd_step (fd : FdOperation) (st : FdState) (sym : String) : FdStep :=
  if fd.is_diacritic sym then
    match (fd.get_operator sym).data with
    | [op] =>
      let feat := fd.get_feature sym
      let val := fd.get_value sym
      let is_negatively_set : Bool := decide (feat ∈ st.negative_values)
      if op = 'P' then
        FdStep.next { st with values := st.values.set feat val }
      else if op = 'N' then
        FdStep.next { values := st.values.set feat val,
                      negative_values := feat :: st.negative_values }
      else if op = 'R' then
        if val = "" then
          if st.values.get feat "" = "" then FdStep.invalid
          else
            if is_negatively_set || decide (st.values.get feat "" ≠ val) then FdStep.invalid
            else FdStep.next st
        else FdStep.next st
      else if op = 'D' then
        if val = "" then
          if st.values.get feat "" ≠ "" then FdStep.invalid else FdStep.next st
        else
          if (!is_negatively_set) && decide (st.values.get feat "" = val) then FdStep.invalid
          else FdStep.next st
      else if op = 'C' then
        FdStep.next { st with values := st.values.set feat "" }
      else if op = 'U' then
        if decide (st.values.get feat "" = "")
            || ((!is_negatively_set) && decide (st.values.get feat "" = val))
            || (is_negatively_set && decide (st.values.get feat "" ≠ val)) then
          FdStep.next { st with values := st.values.set feat val }
        else FdStep.invalid
      else FdStep.thrown
    | _ => FdStep.assertion
  else FdStep.next st

/-- The `for` loop of `is_valid_string` from a given state of its two local
variables: `some b` when the function returns `b`, `none` when it leaves
through the assertion or the `throw`. -/
def is_valid_string_from (fd : FdOperation) : FdState → List String → Option Bool
  | _, [] => some true
  | st, sym :: rest =>
    match fd_step fd st sym with
    | FdStep.next st' => is_valid_string_from fd st' rest
    | FdStep.invalid => some false
    | FdStep.assertion => none
    | FdStep.thrown => none

/-- The function `is_valid_string`: both local variables start empty. -/
def is_valid_string (fd : FdOperation) (sv : List String) : Option Bool :=
  is_valid_string_from fd { values := [], negative_values := [] } sv

/-- The state of the two local variables after the loop has gone through all
of `sv` without returning, `none` when it returned `false` or left abnormally
on the way. -/
def fd_state_after (fd : FdOperation) : FdState → List String → Option FdState
  | st, [] => some st
  | st, sym :: rest =>
    match fd_step fd st sym with
    | FdStep.next st' => fd_state_after fd st' rest
    | _ => none

/-! ## The transducer engine -/

/-- The `hfst::ImplementationType` values the compiler names. -/
inductive ImplementationType where
  | SFST_TYPE
  | TROPICAL_OPENFST_TYPE
  | LOG_OPENFST_TYPE
  | FOMA_TYPE
  | HFST_OL_TYPE
  | HFST_OLW_TYPE
  deriving DecidableEq, Repr

/-- The exceptions of the engine that the compiler names in a `catch`, and
`OtherException` for any exception it catches nowhere. -/
inductive HfstException where
  | FunctionNotImplementedException
  | TransducersAreNotAutomataException
  | FlagDiacriticsAreNotIdentitiesException
  | TransducerIsCyclicException
  | OtherException
  deriving DecidableEq, Repr

/-- The enumerators `apply_unary_operation` switches on; none of them reaches
the `default:` label of that switch. -/
inductive UnaryOperation where
  | DETERMINIZE_NET
  | EPSILON_REMOVE_NET
  | INVERT_NET
  | LOWER_SIDE_NET
  | UPPER_SIDE_NET
  | ZERO_PLUS_NET
  | ONE_PLUS_NET
  | OPTIONAL_NET
  | REVERSE_NET
  | MINIMIZE_NET
  | PRUNE_NET_
  deriving DecidableEq, Repr

/-- The enumerators the two binary dispatchers switch on. -/
inductive BinaryOperation where
  | IGNORE_NET
  | INTERSECT_NET
  | COMPOSE_NET
  | CONCATENATE_NET
  | MINUS_NET
  | UNION_NET
  | SHUFFLE_NET
  | CROSSPRODUCT_NET
  deriving DecidableEq, Repr

/-- The enumerators of `Level`. -/
inductive Level where
  | UPPER_LEVEL
  | LOWER_LEVEL
  | BOTH_LEVELS
  deriving DecidableEq, Repr

/-- A `float` path weight, kept as the number that encodes it. -/
structure Weight where
  bits : Nat
  deriving DecidableEq, Repr

/-- The comparison `a < b` of two `float` weights, from their encodings in
the IEEE 754 single format: false when one of them is not a number, and the
two zeros are equal. -/
def Weight.lt (a b : Weight) : Bool :=
  let nan := fun (w : Nat) => decide ((w / 2 ^ 23) % 256 = 255) && decide (w % 2 ^ 23 ≠ 0)
  let key : Nat → Int := fun w =>
    if (w / 2 ^ 31) % 2 = 1 then - Int.ofNat (w % 2 ^ 31) else Int.ofNat (w % 2 ^ 31)
  !nan (a.bits % 2 ^ 32) && !nan (b.bits % 2 ^ 32)
    && decide (key (a.bits % 2 ^ 32) < key (b.bits % 2 ^ 32))

/-- The comparison `<` of two `std::string` values from their characters. A
`std::string` is compared byte by byte; for texts in UTF-8 that is the order
of the code points. -/
def chars_lt : List Char → List Char → Bool
  | _, [] => false
  | [], _ :: _ => true
  | a :: as, b :: bs =>
    if a.toNat < b.toNat then true
    else if b.toNat < a.toNat then false
    else chars_lt as bs

/-- The comparison `a < b` of two `std::string` values. -/
def string_lt (a b : String) : Bool :=
  chars_lt a.data b.data

/-- The comparison `<` of two `StringVector` values: the first position
where they differ decides, and a proper beginning is smaller. -/
def strings_lt : List String → List String → Bool
  | _, [] => false
  | [], _ :: _ => true
  | a :: as, b :: bs =>
    if string_lt a b then true
    else if string_lt b a then false
    else strings_lt as bs

/-- The call `l.insert(x)` on a `std::set` with the comparison `lt`, the set
being the list of its elements in the order its iterator visits them: `x`
goes before the first element that is greater, and is left out when an
element is neither smaller nor greater than it. -/
def set_insert_by {α : Type} (lt : α → α → Bool) (x : α) : List α → List α
  | [] => [x]
  | y :: ys =>
    if lt x y then x :: y :: ys
    else if lt y x then y :: set_insert_by lt x ys
    else y :: ys

/-- A `HfstTwoLevelPaths` value, in the order its iterator visits it. -/
abbrev HfstTwoLevelPaths := List (Weight × List (String × String))

/-- The member functions of `HfstTransducer` that the modelled commands call,
over a carrier `T` of transducer values. A member function that works on its
receiver in place returns the new value of the receiver; one that can raise
returns in `Except`, and a raise leaves the receiver as it was. -/
structure Engine (T : Type) where
  get_type : T → ImplementationType
  optimize : T → T
  determinize : T → Except HfstException T
  remove_epsilons : T → Except HfstException T
  invert : T → Except HfstException T
  output_project : T → Except HfstException T
  input_project : T → Except HfstException T
  repeat_star : T → Except HfstException T
  repeat_plus : T → Except HfstException T
  optionalize : T → Except HfstException T
  reverse : T → Except HfstException T
  minimize : T → Except HfstException T
  prune : T → Except HfstException T
  insert_freely : T → T → Except HfstException T
  subtract : T → T → Except HfstException T
  cross_product : T → T → Except HfstException T
  intersect : T → T → Except HfstException T
  compose : T → T → Except HfstException T
  concatenate : T → T → Except HfstException T
  disjunct : T → T → Except HfstException T
  shuffle : T → T → Except HfstException T
  /-- `a->harmonize_flag_diacritics(b)` changes both: the new `a` and `b`. -/
  harmonize_flag_diacritics : T → T → T × T
  has_flag_diacritics : T → Bool
  /-- `a->compare(b, false)` -/
  compare : T → T → Bool
  set_name : T → String → T
  number_of_states : T → Nat
  number_of_arcs : T → Nat
  /-- `get_alphabet()`, in the order the set is iterated. -/
  get_alphabet : T → List String
  /-- the (input, output) symbols of the transitions of an
  `HfstIterableTransducer` copy, state by state, in iteration order -/
  transitions : T → List (List (String × String))
  /-- `extract_paths(results, number, cycles)`: the paths added to `results` -/
  extract_paths : T → Nat → Int → Except HfstException HfstTwoLevelPaths
  /-- `extract_paths_fd(results, number, cycles)` -/
  extract_paths_fd : T → Nat → Int → Except HfstException HfstTwoLevelPaths
  /-- the text `oss << std::fixed << w` writes for a weight once
  `oss->precision(get_precision())` has run; the first argument is the text
  of the variable `precision` -/
  weight_text : String → Weight → String
  /-- `get_name()` -/
  get_name : T → String
  /-- the regular-expression compiler behind `xre_.define(name, xre)`: the
  network a regular expression compiles to under the definitions and lists
  `xre_` holds, `none` when it does not compile -/
  xre_compile : StrMap T → StrMap (List String) → String → Option T
  /-- `xre_.get_positions_of_symbol_in_xre(symbol, xre, positions)`: the
  positions it puts in `positions`, `none` when it returns `false` -/
  get_positions_of_symbol_in_xre : String → String → Option (List Nat)
  /-- whether `xre_.define_function(name, arguments, xre)` accepts the
  definition -/
  xre_define_function : String → Nat → String → Bool
  /-- the helper `strstrip` -/
  strstrip : String → String
  /-- `get_input_symbols()` of an `HfstIterableTransducer` -/
  get_input_symbols : T → List String
  /-- `tokenize_one_level` of a tokenizer that knows the given multicharacter
  symbols -/
  tokenize_one_level : List String → String → List String
  /-- `is_lookup_infinitely_ambiguous(path, obey_flags)` of an
  `HfstIterableTransducer` -/
  is_lookup_infinitely_ambiguous : T → List String → Bool → Bool
  /-- `is_lookup_infinitely_ambiguous(path)` of an optimized-lookup network,
  which ignores the path -/
  ol_is_lookup_infinitely_ambiguous : T → Bool
  /-- the helper `string_to_float` -/
  string_to_float : String → Weight
  /-- the value that an uninitialised local `size_t` holds, which
  `string_to_size_t` returns for a text of white space -/
  uninitialised_size_t : Nat
  /-- the function `hfst::size_t_to_uint`, declared outside the file -/
  size_t_to_uint : Nat → Nat
  /-- `lookup(path, results, &cutoff, max_weight, -1, obey_flags)` of an
  `HfstIterableTransducer`: the paths added to `results` -/
  lookup_path : T → List String → Nat → Option Weight → Bool → HfstTwoLevelPaths
  /-- `lookup_fd(token, cutoff)`, in the order the result is iterated -/
  lookup_fd : T → String → Nat → List (Weight × List String)
  /-- `lookup(token, cutoff)`, in the order the result is iterated -/
  lookup : T → String → Nat → List (Weight × List String)
  /-- the empty network `HfstTransducer(type)` -/
  empty : ImplementationType → T
  /-- `find_replacements(input_side)` of an `HfstIterableTransducer`: for
  every start state the end states and paths of its replacements, in
  iteration order; an error is a thrown `const char *` -/
  find_replacements : T → Bool → Except String (List (Nat × List (Nat × List (String × String))))
  /-- `insert_transducer(start, end, repl)` of an `HfstIterableTransducer` -/
  insert_transducer : T → Nat → Nat → T → T
  /-- the constructor `HfstTransducer(fsm, type)` -/
  of_iterable : T → ImplementationType → T
  /-- `substitute(old_symbol, new_symbol)` -/
  substitute : T → String → String → T

/-- The constant `hfst::internal_epsilon`. -/
def internal_epsilon : String := "@_EPSILON_SYMBOL_@"

/-- The constant `hfst::internal_unknown`. -/
def internal_unknown : String := "@_UNKNOWN_SYMBOL_@"

/-- The constant `hfst::internal_identity`. -/
def internal_identity : String := "@_IDENTITY_SYMBOL_@"

/-! ## Session state -/

/-- The members of `XfstCompiler` that the modelled commands read or write.
A transducer pointer is modelled by the value it points to: every pointer the
compiler stores is to a copy of its own. `output_` and `error_` hold the text
written to the two streams, one entry for each statement that writes, oldest
first. Every `std::ostream * oss` argument is taken to be the output stream. -/
structure XfstCompiler (T : Type) where
  /-- `stack_`, top first -/
  stack_ : List T
  definitions_ : StrMap T
  original_definitions_ : StrMap String
  variables_ : StrMap String
  /-- the definitions held by the regular-expression compiler `xre_` -/
  xre_definitions_ : StrMap T
  /-- `lists_`; a `std::set<string>` is a list without repetitions -/
  lists_ : StrMap (List String)
  /-- the lists held by the regular-expression compiler `xre_` -/
  xre_lists_ : StrMap (List String)
  /-- the flag-harmonization switch of `xre_` -/
  xre_flag_harmonization_ : Bool
  /-- `latest_regex_compiled`, `none` for `NULL` -/
  latest_regex_compiled : Option T
  function_arguments_ : StrMap Nat := []
  function_definitions_ : StrMap String := []
  original_function_definitions_ : StrMap String := []
  /-- the functions held by the regular-expression compiler `xre_`: the
  number of arguments and the converted body -/
  xre_functions_ : StrMap (Nat × String) := []
  format_ : ImplementationType
  verbose_ : Bool
  verbose_prompt_ : Bool
  read_interactive_text_from_stdin_ : Bool
  fail_flag_ : Bool
  output_ : List String
  error_ : List String

/-- The variable table the constructors build. -/
def initial_variables : StrMap String :=
  [("assert", "OFF"), ("att-epsilon", "@0@ | @_EPSILON_SYMBOL_@"),
   ("char-encoding", "UTF-8"),
   ("copyright-owner", "Copyleft (c) University of Helsinki"),
   ("directory", "OFF"), ("encode-weights", "OFF"), ("flag-is-epsilon", "OFF"),
   ("harmonize-flags", "OFF"), ("hopcroft-min", "ON"),
   ("lexc-minimize-flags", "OFF"), ("lexc-rename-flags", "OFF"),
   ("lexc-with-flags", "OFF"), ("lookup-cycle-cutoff", "5"),
   ("maximum-weight", "OFF"), ("minimal", "ON"), ("name-nets", "OFF"),
   ("obey-flags", "ON"), ("precision", "5"), ("print-foma-sigma", "OFF"),
   ("print-pairs", "OFF"), ("print-sigma", "OFF"), ("print-space", "OFF"),
   ("print-weight", "OFF"), ("print-words-cycle-cutoff", "5"),
   ("quit-on-fail", "OFF"), ("quote-special", "OFF"), ("random-seed", "ON"),
   ("recode-cp1252", "NEVER"), ("recursive-define", "OFF"), ("retokenize", "ON"),
   ("show-flags", "OFF"), ("sort-arcs", "MAYBE"), ("use-timer", "OFF"),
   ("verbose", "OFF"), ("xerox-composition", "ON")]

/-- The constructor `XfstCompiler::XfstCompiler(ImplementationType impl)`; the
default constructor is the case `impl = TROPICAL_OPENFST_TYPE`. Its closing
`prompt()` writes nothing, both verbosity members being false. -/
def XfstCompiler.init (T : Type) (impl : ImplementationType) : XfstCompiler T where
  stack_ := []
  definitions_ := []
  original_definitions_ := []
  variables_ := initial_variables
  xre_definitions_ := []
  lists_ := []
  xre_lists_ := []
  xre_flag_harmonization_ := false
  latest_regex_compiled := none
  format_ := impl
  verbose_ := false
  verbose_prompt_ := false
  read_interactive_text_from_stdin_ := false
  fail_flag_ := false
  output_ := []
  error_ := []

/-- The expression `variables_[name]`. Every name the compiler reads this way
is one the constructor binds, and no command removes a variable, so the empty
entry `operator[]` would add for an absent name is left out. -/
def XfstCompiler.var {T : Type} (s : XfstCompiler T) (name : String) : String :=
  s.variables_.get name ""

/-- The macro `ERROR(x)`: one line on the error stream. -/
def XfstCompiler.ERROR {T : Type} (s : XfstCompiler T) (x : String) : XfstCompiler T :=
  { s with error_ := s.error_ ++ [x ++ "\n"] }

/-- The macro `OUTPUT(x)`: one line on the output stream. -/
def XfstCompiler.OUTPUT {T : Type} (s : XfstCompiler T) (x : String) : XfstCompiler T :=
  { s with output_ := s.output_ ++ [x ++ "\n"] }

/-- The macro `OUTPUT_LINE(x)`, and any `*oss << x`: text on the output stream
without a line end. -/
def XfstCompiler.OUTPUT_LINE {T : Type} (s : XfstCompiler T) (x : String) : XfstCompiler T :=
  { s with output_ := s.output_ ++ [x] }

/-- The macro `EMPTY_STACK`. -/
def XfstCompiler.EMPTY_STACK {T : Type} (s : XfstCompiler T) : XfstCompiler T :=
  s.ERROR "Empty stack."

/-- The function `XfstCompiler::xfst_fail`. -/
def XfstCompiler.xfst_fail {T : Type} (s : XfstCompiler T) : XfstCompiler T :=
  if s.var "quit-on-fail" = "ON" then { s with fail_flag_ := true } else s

/-- The function `XfstCompiler::xfst_lesser_fail`. -/
def XfstCompiler.xfst_lesser_fail {T : Type} (s : XfstCompiler T) : XfstCompiler T :=
  if s.var "quit-on-fail" = "ON" ∧ s.read_interactive_text_from_stdin_ = false then
    { s with fail_flag_ := true }
  else s

/-- The function `XfstCompiler::prompt`. -/
def XfstCompiler.prompt {T : Type} (s : XfstCompiler T) : XfstCompiler T :=
  if s.verbose_prompt_ && s.verbose_ then
    s.OUTPUT_LINE ("hfst[" ++ toString s.stack_.length ++ "]: ")
  else s

/-- The function `XfstCompiler::top(bool silent)`: the session afterwards and
the pointer returned, `none` for `NULL`. -/
def XfstCompiler.top {T : Type} (E : Engine T) (s : XfstCompiler T) (silent : Bool) :
    XfstCompiler T × Option T :=
  match s.stack_ with
  | [] =>
    let s1 := if !silent then s.EMPTY_STACK else s
    let s2 := s1.xfst_lesser_fail
    let s3 := if !silent then s2.prompt else s2
    (s3, none)
  | retval :: _ =>
    if E.get_type retval = ImplementationType.HFST_OL_TYPE
        ∨ E.get_type retval = ImplementationType.HFST_OLW_TYPE then
      if !silent then
        ((s.ERROR "Operation not supported for optimized lookup format. Consider 'remove-optimization' to convert into ordinary format.").prompt, none)
      else (s, none)
    else (s, some retval)

/-- The function `XfstCompiler::pop`. -/
def XfstCompiler.pop {T : Type} (s : XfstCompiler T) : XfstCompiler T :=
  match s.stack_ with
  | [] => (s.OUTPUT "Stack is empty.").prompt
  | _ :: rest => ({ s with stack_ := rest }).prompt

/-- The function `is_special_symbol`. -/
def is_special_symbol (s : String) : Bool :=
  s = internal_epsilon || s = internal_unknown || s = internal_identity

/-- The loop of `print_alphabet` over the alphabet: the text written and the
final `sigma_count`, from the running `first_symbol` and `sigma_count`. -/
def print_alphabet_loop (foma : Bool) (unknown identity : Bool) :
    List String → Bool → Nat → List String × Nat
  | [], _, sigma_count => ([], sigma_count)
  | sym :: rest, first_symbol, sigma_count =>
    if !is_special_symbol sym then
      let sep := if !first_symbol || unknown || identity then [", "] else []
      let txt := if sym = "?" then "\"?\""
                 else if sym = "@" ∧ foma = true then "\"@\""
                 else sym
      let r := print_alphabet_loop foma unknown identity rest false (sigma_count + 1)
      (sep ++ [txt] ++ r.1, r.2)
    else print_alphabet_loop foma unknown identity rest first_symbol sigma_count

/-- The function `XfstCompiler::print_alphabet`. -/
def XfstCompiler.print_alphabet {T : Type} (s : XfstCompiler T) (alpha : List String)
    (unknown identity : Bool) : XfstCompiler T :=
  let foma : Bool := decide (s.var "print-foma-sigma" = "ON")
  let s1 := s.OUTPUT_LINE "Sigma: "
  let s2 :=
    if foma then
      let a := if unknown then s1.OUTPUT_LINE "?" else s1
      if identity then
        (if unknown then a.OUTPUT_LINE ", " else a).OUTPUT_LINE "@"
      else a
    else
      if unknown || identity then s1.OUTPUT_LINE "?" else s1
  let r := print_alphabet_loop foma unknown identity alpha true 0
  let s3 := { s2 with output_ := s2.output_ ++ r.1 }
  (s3.OUTPUT_LINE "\n").OUTPUT ("Size: " ++ toString r.2 ++ ".")

/-- The scan of `is_unknown_or_identity_used_in_transducer` over the
transitions of one state: the flags `unknown` and `identity` afterwards, and
whether the function returned from inside the loop. Both `istr` and `ostr`
are read with `get_input_symbol`. -/
def unknown_or_identity_scan : List (String × String) → Bool → Bool → Bool × Bool × Bool
  | [], unknown, identity => (unknown, identity, false)
  | tr :: rest, unknown, identity =>
    let istr := tr.1
    let ostr := tr.1
    let unknown1 := if istr = internal_unknown ∨ ostr = internal_unknown then true else unknown
    let identity1 :=
      if istr = internal_unknown ∨ ostr = internal_unknown then identity
      else if istr = internal_identity ∨ ostr = internal_identity then true
      else identity
    if unknown1 = true ∧ identity1 = true then (unknown1, identity1, true)
    else unknown_or_identity_scan rest unknown1 identity1

/-- The function `is_unknown_or_identity_used_in_transducer`, as the values it
leaves in its two reference arguments. -/
def is_unknown_or_identity_used_in_transducer : List (List (String × String)) → Bool → Bool →
    Bool × Bool
  | [], unknown, identity => (unknown, identity)
  | st :: rest, unknown, identity =>
    let r := unknown_or_identity_scan st unknown identity
    if r.2.2 then (r.1, r.2.1)
    else is_unknown_or_identity_used_in_transducer rest r.1 r.2.1

/-- The function `XfstCompiler::print_sigma(std::ostream * oss, bool prompt)`. -/
def XfstCompiler.print_sigma {T : Type} (E : Engine T) (s : XfstCompiler T) (prompt : Bool) :
    XfstCompiler T :=
  match s.top E false with
  | (s1, none) => s1.xfst_lesser_fail
  | (s1, some t) =>
    let alpha := E.get_alphabet t
    let ui := is_unknown_or_identity_used_in_transducer (E.transitions t) false false
    let s2 := s1.print_alphabet alpha ui.1 ui.2
    if prompt then s2.prompt else s2

/-- The function `XfstCompiler::print_transducer_info`. -/
def XfstCompiler.print_transducer_info {T : Type} (E : Engine T) (s : XfstCompiler T) :
    XfstCompiler T :=
  if s.verbose_ then
    match s.stack_ with
    | [] => s
    | top :: _ =>
      if E.get_type top ≠ s.format_ then s
      else
        let s1 := s.OUTPUT ("? bytes. " ++ toString (E.number_of_states top) ++ " states, "
          ++ toString (E.number_of_arcs top) ++ " arcs, ? paths")
        if s1.variables_.contains "print-sigma" ∧ s1.variables_.get "print-sigma" "" = "ON" then
          s1.print_sigma E false
        else s1
  else s

/-! ## Printing paths -/

/-- The function `XfstCompiler::get_print_symbol`. -/
def XfstCompiler.get_print_symbol {T : Type} (fd : FdOperation) (s : XfstCompiler T)
    (symbol : String) : String :=
  if s.var "show-flags" = "OFF" ∧ fd.is_diacritic symbol = true then ""
  else if internal_epsilon = symbol then ""
  else if internal_unknown = symbol ∨ internal_identity = symbol then "?"
  else symbol

/-- The inner loop of `print_paths(const HfstTwoLevelPaths &, ...)` over the
symbol pairs of one path, from the running `something_printed`: the text
written. -/
def XfstCompiler.print_pair_path {T : Type} (fd : FdOperation) (s : XfstCompiler T) :
    List (String × String) → Bool → List String
  | [], _ => []
  | p :: rest, something_printed =>
    let print_symbol := s.get_print_symbol fd p.1
    let space :=
      if s.var "print-space" = "ON" ∧ something_printed = true ∧ print_symbol ≠ "" then [" "]
      else []
    let something_printed1 := if print_symbol ≠ "" then true else something_printed
    let print_symbol2 := s.get_print_symbol fd p.2
    let out := if print_symbol2 ≠ "" ∧ p.1 ≠ p.2 then [":" ++ print_symbol2] else []
    space ++ [print_symbol] ++ out ++ s.print_pair_path fd rest something_printed1

/-- The outer loop of `print_paths(const HfstTwoLevelPaths &, ...)` from the
running `n` and `retval`: the text written and the final `retval`, or `none`
when `is_valid_string` leaves abnormally on some path. -/
def XfstCompiler.print_paths_loop {T : Type} (fd : FdOperation) (E : Engine T)
    (s : XfstCompiler T) : HfstTwoLevelPaths → Int → Bool → Option (List String × Bool)
  | [], _, retval => some ([], retval)
  | it :: rest, n, retval =>
    if n = 0 then some ([], retval)
    else
      let path := it.2
      let valid : Option Bool :=
        if s.var "obey-flags" = "ON" then is_valid_string fd (path.map Prod.fst) else some true
      match valid with
      | none => none
      | some false => s.print_paths_loop fd E rest n retval
      | some true =>
        let line := s.print_pair_path fd path false
        let weight :=
          if s.var "print-weight" = "ON" then ["\t" ++ E.weight_text (s.var "precision") it.1]
          else []
        match s.print_paths_loop fd E rest (n - 1) true with
        | none => none
        | some r => some (line ++ weight ++ ["\n"] ++ r.1, r.2)

/-- The function `XfstCompiler::print_paths(const HfstTwoLevelPaths &, oss, n)`:
the session afterwards and the value returned, or `OtherException` for what
`is_valid_string` throws. -/
def XfstCompiler.print_paths {T : Type} (fd : FdOperation) (E : Engine T) (s : XfstCompiler T)
    (paths : HfstTwoLevelPaths) (n : Int) : Except HfstException (XfstCompiler T × Bool) :=
  match s.print_paths_loop fd E paths n false with
  | none => Except.error HfstException.OtherException
  | some r => Except.ok ({ s with output_ := s.output_ ++ r.1 }, r.2)

/-- The value of a leading run of decimal digits, from the value read so far. -/
def read_digits : List Char → Nat → Nat
  | [], acc => acc
  | c :: cs, acc => if c.isDigit then read_digits cs (10 * acc + (c.toNat - 48)) else acc

/-- Whether `isspace` holds of a character: the blank and the five control
characters from the tabulator to the carriage return. -/
def isspace (c : Char) : Bool :=
  c = ' ' || (9 ≤ c.toNat && c.toNat ≤ 13)

/-- The function `string_to_size_t`: the read `iss >> size` of a `size_t` of
64 bits from the text. Leading white space is skipped; when nothing is left,
the read does not start and the local `size` is returned as it was, which is
the argument `uninitialised`. Otherwise a sign and a run of decimal digits are
read: without a digit the value is 0, a value that does not fit is the
largest `size_t`, and a value after a minus sign is negated modulo `2 ^ 64`.
What follows the digits is not read. -/
def string_to_size_t (uninitialised : Nat) (str : String) : Nat :=
  match str.data.dropWhile isspace with
  | [] => uninitialised
  | c :: cs =>
    let negative : Bool := decide (c = '-')
    let digits := if c = '-' ∨ c = '+' then cs else c :: cs
    match digits with
    | [] => 0
    | d :: ds =>
      if d.isDigit then
        let value := read_digits (d :: ds) 0
        if 2 ^ 64 ≤ value then 2 ^ 64 - 1
        else if negative then (2 ^ 64 - value) % 2 ^ 64
        else value
      else 0

/-- The conversion of an `unsigned int` to the `int` that the initialisation
`int cutoff = ...` stores. -/
def uint_to_int (u : Nat) : Int :=
  if u % 2 ^ 32 < 2 ^ 31 then Int.ofNat (u % 2 ^ 32) else Int.ofNat (u % 2 ^ 32) - 2 ^ 32

/-! ## Commands -/

/-- The `switch` of `apply_unary_operation`: the engine primitive run on
`result`. -/
def unary_switch {T : Type} (E : Engine T) (operation : UnaryOperation) (result : T) :
    Except HfstException T :=
  match operation with
  | UnaryOperation.DETERMINIZE_NET => E.determinize result
  | UnaryOperation.EPSILON_REMOVE_NET => E.remove_epsilons result
  | UnaryOperation.INVERT_NET => E.invert result
  | UnaryOperation.LOWER_SIDE_NET => E.output_project result
  | UnaryOperation.UPPER_SIDE_NET => E.input_project result
  | UnaryOperation.ZERO_PLUS_NET => E.repeat_star result
  | UnaryOperation.ONE_PLUS_NET => E.repeat_plus result
  | UnaryOperation.OPTIONAL_NET => E.optionalize result
  | UnaryOperation.REVERSE_NET => E.reverse result
  | UnaryOperation.MINIMIZE_NET => E.minimize result
  | UnaryOperation.PRUNE_NET_ => E.prune result

/-- The function `XfstCompiler::apply_unary_operation`. An exception other
than `FunctionNotImplementedException` leaves the function. -/
def XfstCompiler.apply_unary_operation {T : Type} (E : Engine T) (s : XfstCompiler T)
    (operation : UnaryOperation) : Except HfstException (XfstCompiler T) :=
  match s.top E false with
  | (s1, none) => Except.ok s1.xfst_lesser_fail
  | (s1, some result) =>
    let s2 := s1.pop
    match unary_switch E operation result with
    | Except.ok result1 =>
      let result2 :=
        if operation ≠ UnaryOperation.MINIMIZE_NET ∧ operation ≠ UnaryOperation.DETERMINIZE_NET
            ∧ operation ≠ UnaryOperation.EPSILON_REMOVE_NET then
          E.optimize result1
        else result1
      let s3 := { s2 with stack_ := result2 :: s2.stack_ }
      Except.ok (s3.print_transducer_info E).prompt
    | Except.error HfstException.FunctionNotImplementedException =>
      let s3 := (s2.ERROR "function not available").xfst_fail
      Except.ok ({ s3 with stack_ := result :: s3.stack_ }).prompt
    | Except.error e => Except.error e

/-- The function `XfstCompiler::apply_binary_operation`. -/
def XfstCompiler.apply_binary_operation {T : Type} (E : Engine T) (s : XfstCompiler T)
    (operation : BinaryOperation) : Except HfstException (XfstCompiler T) :=
  match s.stack_ with
  | result :: another :: rest =>
    let s0 := { s with stack_ := rest }
    let finish := fun (s1 : XfstCompiler T) (result1 : T) =>
      ((({ s1 with stack_ := E.optimize result1 :: s1.stack_ }).print_transducer_info E).prompt)
    match operation with
    | BinaryOperation.IGNORE_NET =>
      match E.insert_freely result another with
      | Except.ok result1 => Except.ok (finish s0 result1)
      | Except.error e => Except.error e
    | BinaryOperation.MINUS_NET =>
      match E.subtract result another with
      | Except.ok result1 => Except.ok (finish s0 result1)
      | Except.error e => Except.error e
    | BinaryOperation.CROSSPRODUCT_NET =>
      match E.cross_product result another with
      | Except.ok result1 => Except.ok (finish s0 result1)
      | Except.error HfstException.TransducersAreNotAutomataException =>
        let s1 := (s0.ERROR "transducers are not automata").xfst_fail
        Except.ok ({ s1 with stack_ := result :: another :: s1.stack_ }).prompt
      | Except.error e => Except.error e
    | _ =>
      Except.ok (finish (s0.ERROR "ERROR: unknown binary operation").xfst_fail result)
  | _ =>
    Except.ok (s.ERROR "Not enough networks on stack. Operation requires at least 2.").xfst_lesser_fail

/-- How the `while` loop of `apply_binary_operation_iteratively` is left. -/
inductive FoldExit (T : Type) where
  /-- by its condition or by `break`: the session and the running `result` -/
  | done (s : XfstCompiler T) (result : T)
  /-- by the `return` of the `catch` block: the session as returned -/
  | returned (s : XfstCompiler T)

/-- The `while (!stack_.empty())` loop of `apply_binary_operation_iteratively`.
The stack is the list argument; the member `stack_` of the session argument
is not read, and is set on the way out. -/
def fold_loop {T : Type} (E : Engine T) (operation : BinaryOperation) :
    XfstCompiler T → T → List T → Except HfstException (FoldExit T)
  | s, result, [] => Except.ok (FoldExit.done { s with stack_ := [] } result)
  | s, result, t :: rest =>
    if E.get_type t ≠ E.get_type result then
      Except.ok (FoldExit.done
        (({ s with stack_ := t :: rest }).ERROR "Stack contains transducers whose type differs.").xfst_lesser_fail
        result)
    else
      match operation with
      | BinaryOperation.INTERSECT_NET =>
        match E.intersect result t with
        | Except.ok result1 => fold_loop E operation s result1 rest
        | Except.error e => Except.error e
      | BinaryOperation.IGNORE_NET =>
        match E.insert_freely result t with
        | Except.ok result1 => fold_loop E operation s result1 rest
        | Except.error e => Except.error e
      | BinaryOperation.COMPOSE_NET =>
        let both := E.has_flag_diacritics result && E.has_flag_diacritics t
        let off : Bool := decide (s.var "harmonize-flags" = "OFF")
        let s1 :=
          if both && off && s.verbose_ then
            s.ERROR "Both composition arguments contain flag diacritics. Set harmonize-flags ON to harmonize them."
          else s
        let rt := if both && !off then E.harmonize_flag_diacritics result t else (result, t)
        match E.compose rt.1 rt.2 with
        | Except.ok result1 => fold_loop E operation s1 result1 rest
        | Except.error HfstException.FlagDiacriticsAreNotIdentitiesException =>
          let s2 := ((({ s1 with stack_ := rt.2 :: rest }).ERROR
            "Error: flag diacritics must be identities in composition if flag-is-epsilon is ON.").ERROR
            "I.e. only FLAG:FLAG is allowed, not FLAG1:FLAG2, FLAG:bar or foo:FLAG").ERROR
            "Apply twosided flag-diacritics (tfd) before composition."
          Except.ok (FoldExit.returned s2.xfst_lesser_fail.prompt)
        | Except.error e => Except.error e
      | BinaryOperation.CONCATENATE_NET =>
        match E.concatenate result t with
        | Except.ok result1 => fold_loop E operation s result1 rest
        | Except.error e => Except.error e
      | BinaryOperation.UNION_NET =>
        match E.disjunct result t with
        | Except.ok result1 => fold_loop E operation s result1 rest
        | Except.error e => Except.error e
      | BinaryOperation.SHUFFLE_NET =>
        match E.shuffle result t with
        | Except.ok result1 => fold_loop E operation s result1 rest
        | Except.error e => Except.error e
      | _ => fold_loop E operation (s.ERROR "ERROR: unknown binary operation") result rest

/-- The function `XfstCompiler::apply_binary_operation_iteratively`. -/
def XfstCompiler.apply_binary_operation_iteratively {T : Type} (E : Engine T)
    (s : XfstCompiler T) (operation : BinaryOperation) : Except HfstException (XfstCompiler T) :=
  match s.stack_ with
  | result :: t :: rest =>
    match fold_loop E operation s result (t :: rest) with
    | Except.ok (FoldExit.done s1 result1) =>
      Except.ok ((({ s1 with stack_ := E.optimize result1 :: s1.stack_ }).print_transducer_info E).prompt)
    | Except.ok (FoldExit.returned s1) => Except.ok s1
    | Except.error e => Except.error e
  | _ =>
    Except.ok (s.ERROR "Not enough networks on stack. Operation requires at least 2.").xfst_lesser_fail

/-- The value the `switch` inside the loop of
`apply_binary_operation_iteratively` leaves in `result` for the operands
`result` and `t`: the engine primitive of the operation with `result` as the
receiver and `t` as the argument; for `COMPOSE_NET` on both operands as
harmonized when both carry flag diacritics and `harmonize-flags` is not `OFF`
(`off` is the test `variables_["harmonize-flags"] == "OFF"`); `result` itself
for an operation the switch does not know. -/
def fold_switch {T : Type} (E : Engine T) (off : Bool) (operation : BinaryOperation)
    (result t : T) : Except HfstException T :=
  match operation with
  | BinaryOperation.INTERSECT_NET => E.intersect result t
  | BinaryOperation.IGNORE_NET => E.insert_freely result t
  | BinaryOperation.COMPOSE_NET =>
    let rt :=
      if (E.has_flag_diacritics result && E.has_flag_diacritics t) && !off then
        E.harmonize_flag_diacritics result t
      else (result, t)
    E.compose rt.1 rt.2
  | BinaryOperation.CONCATENATE_NET => E.concatenate result t
  | BinaryOperation.UNION_NET => E.disjunct result t
  | BinaryOperation.SHUFFLE_NET => E.shuffle result t
  | _ => Except.ok result

/-- The function `XfstCompiler::print_bool`. -/
def XfstCompiler.print_bool {T : Type} (s : XfstCompiler T) (value : Bool) : XfstCompiler T :=
  let printval : Nat := if value then 1 else 0
  s.OUTPUT (toString printval ++ ", (1 = TRUE, 0 = FALSE)")

/-- The macro `MAYBE_ASSERT(assertion, value)`. -/
def XfstCompiler.MAYBE_ASSERT {T : Type} (s : XfstCompiler T) (assertion value : Bool) :
    XfstCompiler T :=
  if value = false ∧ ((s.var "assert" = "ON" ∨ assertion = true) ∧ s.var "quit-on-fail" = "ON") then
    { s with fail_flag_ := true }
  else s

/-- The function `XfstCompiler::test_eq`. -/
def XfstCompiler.test_eq {T : Type} (E : Engine T) (s : XfstCompiler T) (assertion : Bool) :
    XfstCompiler T :=
  match s.stack_ with
  | first :: second :: rest =>
    let result := E.compare first second
    let s1 := ({ s with stack_ := rest }).print_bool result
    let s2 := { s1 with stack_ := first :: second :: s1.stack_ }
    s2.MAYBE_ASSERT assertion result
  | _ =>
    ((s.ERROR "Not enough networks on stack.").ERROR "Operation requires at least 2.").xfst_lesser_fail

/-- The function `XfstCompiler::define(const char * name)`: define a network
from the top of the stack. -/
def XfstCompiler.define {T : Type} (E : Engine T) (s : XfstCompiler T) (name : String) :
    XfstCompiler T :=
  match s.top E false with
  | (s1, none) => s1.xfst_lesser_fail
  | (s1, some top) =>
    let was_defined := s1.xre_definitions_.contains name
    let s2 := { s1 with xre_definitions_ := s1.xre_definitions_.set name top }
    let s3 := { s2 with stack_ := s2.stack_.tail }
    let nu := if s3.var "name-nets" = "ON" then E.set_name top name else top
    let s4 := { s3 with definitions_ := s3.definitions_.set name nu }
    let s5 :=
      if s4.verbose_ then
        s4.OUTPUT ((if was_defined then "Redefined" else "Defined") ++ " '" ++ name ++ "'")
      else s4
    ({ s5 with original_definitions_ :=
        s5.original_definitions_.set name "<net taken from stack>" }).prompt

/-- The function `XfstCompiler::print_words(name, number, oss, level)`; `name`
is `none` for `NULL`. An exception of a projection, of the second extraction
or of the printing leaves the function. -/
def XfstCompiler.print_words {T : Type} (fd : FdOperation) (E : Engine T) (s : XfstCompiler T)
    (name : Option String) (number : Nat) (level : Level) :
    Except HfstException (XfstCompiler T) :=
  let found : XfstCompiler T × Option T :=
    match name with
    | none => s.top E false
    | some nm =>
      match s.definitions_.find? nm with
      | none => ((s.OUTPUT ("no such definition '" ++ nm ++ "'")).prompt, none)
      | some t => (s, some t)
  match found with
  | (s1, none) => Except.ok s1
  | (s1, some temp0) =>
    let projected : Except HfstException T :=
      match level with
      | Level.UPPER_LEVEL => E.input_project temp0
      | Level.LOWER_LEVEL => E.output_project temp0
      | Level.BOTH_LEVELS => Except.ok temp0
    match projected with
    | Except.error e => Except.error e
    | Except.ok temp =>
      let extract := fun (cycles : Int) =>
        if s1.var "obey-flags" = "OFF" then E.extract_paths temp number cycles
        else E.extract_paths_fd temp number cycles
      let print := fun (s2 : XfstCompiler T) (results : HfstTwoLevelPaths) =>
        match s2.print_paths fd E results (-1) with
        | Except.ok r => Except.ok r.1.prompt
        | Except.error e => Except.error e
      match extract (-1) with
      | Except.ok results => print s1 results
      | Except.error HfstException.TransducerIsCyclicException =>
        let cutoff := uint_to_int (E.size_t_to_uint
          (string_to_size_t E.uninitialised_size_t (s1.var "print-words-cycle-cutoff")))
        let s2 := s1.ERROR ("warning: transducer is cyclic, limiting the number of cycles to "
          ++ toString cutoff)
        match extract cutoff with
        | Except.ok results => print s2 results
        | Except.error e => Except.error e
      | Except.error e => Except.error e

/-! ## Definitions, lists and variables -/

/-- The call `m.erase(m.find(k))`, and `m.erase(k)`. -/
def StrMap.erase {V : Type} (m : StrMap V) (k : String) : StrMap V :=
  match m with
  | [] => []
  | (k', v) :: rest => if k' = k then StrMap.erase rest k else (k', v) :: StrMap.erase rest k

/-- The call `l.insert(x)` on a `std::set<string>`, the set being the list of
its elements in the order its iterator visits them. -/
def set_insert (l : List String) (x : String) : List String :=
  set_insert_by string_lt x l

/-- The tokens the `strtok(..., " ")` loops visit: the maximal runs of
characters other than the space, from the characters left and the token being
read. -/
def strtok_loop : List Char → List Char → List String
  | [], cur => if cur = [] then [] else [String.mk cur]
  | c :: cs, cur =>
    if c = ' ' then
      if cur = [] then strtok_loop cs [] else String.mk cur :: strtok_loop cs []
    else strtok_loop cs (cur ++ [c])

/-- The tokens of a text under `strtok(p, " ")`. -/
def strtok (text : String) : List String :=
  strtok_loop text.data []

/-- The macro `MAYBE_QUIT`. -/
def XfstCompiler.MAYBE_QUIT {T : Type} (s : XfstCompiler T) : XfstCompiler T :=
  if s.var "quit-on-fail" = "ON" then { s with fail_flag_ := true } else s

/-- The macro `IF_NULL_PROMPT_AND_RETURN_THIS(x)` when `x` is `NULL`: what it
does to the session before it returns. -/
def XfstCompiler.IF_NULL_PROMPT_AND_RETURN_THIS {T : Type} (s : XfstCompiler T) :
    XfstCompiler T :=
  (if s.var "quit-on-fail" = "ON" then { s with fail_flag_ := true } else s).prompt

/-- The first byte of a C string as a `char`: zero for the empty string, the
lead byte of the encoding of its first character otherwise, below zero when
that byte is above 127. -/
def first_char (str : String) : Int :=
  match str.data with
  | [] => 0
  | c :: _ =>
    let n := c.toNat
    let b := if n < 128 then n else if n < 2048 then 192 + n / 64
             else if n < 65536 then 224 + n / 4096 else 240 + n / 262144
    if b < 128 then Int.ofNat b else Int.ofNat b - 256

/-- The string the loop of `define_list(name, start, end)` builds for the
`char` value `c` from the two bytes `c` and zero: the empty string for the
value zero, one byte otherwise; a byte above 127 is kept as the character of
that code. -/
def char_string (c : Int) : String :=
  if c % 256 = 0 then "" else String.mk [Char.ofNat (c % 256).toNat]

/-- The function `XfstCompiler::define_list(name, start, end)`: the list of
the characters from `*start` up to, and without, `*end`. `strlen` counts
bytes. -/
def XfstCompiler.define_list_range {T : Type} (s : XfstCompiler T) (name start end_ : String) :
    XfstCompiler T :=
  let s1 :=
    if start.utf8ByteSize > 1 ∨ end_.utf8ByteSize > 1 then
      s.ERROR ("unsupported unicode range " ++ start ++ "-" ++ end_)
    else s
  let first := first_char start
  let l := (List.range (first_char end_ - first).toNat).foldl
    (fun l i => set_insert l (char_string (first + Int.ofNat i))) []
  { s1 with lists_ := s1.lists_.set name l }

/-- The function `XfstCompiler::define_list(name, values)`. -/
def XfstCompiler.define_list {T : Type} (s : XfstCompiler T) (name values : String) :
    XfstCompiler T :=
  if s.definitions_.contains name then
    ((s.ERROR ("Error: '" ++ name ++ "' has already been defined as a transducer variable.\n"
      ++ "It cannot have an incompatible definition as a list.\n"
      ++ "Please undefine the definition first.")).MAYBE_QUIT).prompt
  else
    let l := (strtok values).foldl set_insert []
    ({ s with lists_ := s.lists_.set name l, xre_lists_ := s.xre_lists_.set name l }).prompt

/-- The function `XfstCompiler::define(const char* name, const char* xre)`:
define a network from the regular expression compiled last. The call
`xre_.define(name, xre)` compiles `xre` and, when that succeeds, binds `name`
to the result in `xre_`. -/
def XfstCompiler.define_xre {T : Type} (E : Engine T) (s : XfstCompiler T) (name xre : String) :
    XfstCompiler T :=
  if s.lists_.contains name then
    ((s.ERROR ("Error: '" ++ name ++ "' has already been defined as a list variable.\n"
      ++ "It cannot have an incompatible definition as a transducer.\n"
      ++ "Please undefine the variable first.")).MAYBE_QUIT).prompt
  else
    match s.latest_regex_compiled with
    | some latest =>
      let was_defined := s.xre_definitions_.contains name
      let s1 :=
        match E.xre_compile s.xre_definitions_ s.xre_lists_ xre with
        | some compiled => { s with xre_definitions_ := s.xre_definitions_.set name compiled }
        | none => (s.ERROR ("Could not define variable '" ++ name ++ "'")).xfst_fail
      let nu := if s1.var "name-nets" = "ON" then E.set_name latest name else latest
      let s2 := { s1 with definitions_ := s1.definitions_.set name nu }
      let s3 :=
        if s2.verbose_ then
          s2.OUTPUT ((if was_defined then "Redefined" else "Defined") ++ " '" ++ name ++ "'")
        else s2
      ({ s3 with original_definitions_ := s3.original_definitions_.set name xre }).prompt
    | none => ((s.ERROR ("Could not define variable '" ++ name ++ "'")).xfst_fail).prompt

/-- The loop of `undefine` over the names of its argument. -/
def XfstCompiler.undefine_loop {T : Type} (s : XfstCompiler T) : List String → XfstCompiler T
  | [] => s
  | name :: rest =>
    let s1 :=
      if s.definitions_.contains name then
        { s with definitions_ := s.definitions_.erase name,
                 xre_definitions_ := s.xre_definitions_.erase name }
      else s
    s1.undefine_loop rest

/-- The function `XfstCompiler::undefine`. -/
def XfstCompiler.undefine {T : Type} (s : XfstCompiler T) (name_list : String) : XfstCompiler T :=
  (s.undefine_loop (strtok name_list)).prompt

/-- The function `XfstCompiler::unlist`. -/
def XfstCompiler.unlist {T : Type} (s : XfstCompiler T) (name : String) : XfstCompiler T :=
  (if s.lists_.contains name then { s with lists_ := s.lists_.erase name } else s).prompt

/-- The function `XfstCompiler::add_loaded_definition`, which
`load_definitions` calls on every network it reads. -/
def XfstCompiler.add_loaded_definition {T : Type} (E : Engine T) (s : XfstCompiler T) (t : T) :
    XfstCompiler T :=
  let def_name := E.get_name t
  if def_name = "" then
    s.ERROR "warning: loaded transducer definition has no name, skipping it"
  else
    let s1 :=
      if s.definitions_.contains def_name then
        let s0 := s.ERROR ("warning: a definition named '" ++ def_name
          ++ "' already exists, overwriting it")
        { s0 with definitions_ := s0.definitions_.erase def_name }
      else s
    { s1 with definitions_ := s1.definitions_.set def_name t }

/-- The function `XfstCompiler::set(const char* name, const char* text)`. The
calls that pass the value on to the global switches of the engine leave the
session as it is. -/
def XfstCompiler.set {T : Type} (s : XfstCompiler T) (name text : String) : XfstCompiler T :=
  if s.variables_.contains name = false then
    if name = "compose-flag-as-special" then
      let s1 := s.ERROR "variable compose-flag-as-special not found, using flag-is-epsilon instead"
      let s2 := { s1 with variables_ := s1.variables_.set "flag-is-epsilon" text }
      let s3 := if s2.verbose_ then s2.OUTPUT ("variable flag-is-epsilon = " ++ text) else s2
      s3.prompt
    else (s.ERROR ("no such variable: '" ++ name ++ "'")).prompt
  else
    let s1 := { s with variables_ := s.variables_.set name text }
    let s2 :=
      if name = "harmonize-flags" then
        if text = "ON" then { s1 with xre_flag_harmonization_ := true }
        else if text = "OFF" then { s1 with xre_flag_harmonization_ := false }
        else s1
      else s1
    let s3 := if s2.verbose_ then s2.OUTPUT ("variable " ++ name ++ " = " ++ text) else s2
    s3.prompt

/-- The function `XfstCompiler::set(const char* name, unsigned int number)`. -/
def XfstCompiler.set_number {T : Type} (s : XfstCompiler T) (name : String) (number : Nat) :
    XfstCompiler T :=
  if s.variables_.contains name = false then
    (s.ERROR ("no such variable: '" ++ name ++ "'")).prompt
  else
    ({ s with variables_ := s.variables_.set name (toString (number % 2 ^ 32)) }).prompt

/-- The function `XfstCompiler::compose_net`. -/
def XfstCompiler.compose_net {T : Type} (E : Engine T) (s : XfstCompiler T) :
    Except HfstException (XfstCompiler T) :=
  s.apply_binary_operation_iteratively E BinaryOperation.COMPOSE_NET

/-! ## Function prototypes -/

/-- The first loop of `extract_function_arguments`: the text after the first
opening parenthesis, `none` when the end of the string comes first. -/
def skip_function_name : List Char → Option (List Char)
  | [] => none
  | c :: cs => if c = '(' then some cs else skip_function_name cs

/-- The second loop of `extract_function_arguments`, from the characters
left, the running `arg` and `args`: the value returned and `args`
afterwards. -/
def scan_arguments : List Char → List Char → List String → Bool × List String
  | [], _, args => (false, args)
  | c :: cs, arg, args =>
    if c = ')' then (true, args ++ [String.mk arg])
    else if c = ' ' then scan_arguments cs arg args
    else if c = ',' then scan_arguments cs [] (args ++ [String.mk arg])
    else scan_arguments cs (arg ++ [c]) args

/-- The function `extract_function_arguments`: the value returned and the
vector `args` afterwards. The characters compared are ASCII, so the scan over
characters and the scan over bytes agree. -/
def extract_function_arguments (prototype : String) (args : List String) :
    Bool × List String :=
  match skip_function_name prototype.data with
  | none => (false, args)
  | some rest => scan_arguments rest [] args

/-- The text strictly between the first opening parenthesis of a prototype
and the first closing parenthesis after it, `none` when there is no opening
parenthesis or no closing one after it. -/
def between_parentheses (prototype : List Char) : Option (List Char) :=
  let after := (prototype.dropWhile (fun c => c ≠ '(')).drop 1
  if '(' ∈ prototype ∧ ')' ∈ after then some (after.takeWhile (fun c => c ≠ ')')) else none

/-- The argument names a text between parentheses spells: the text with
every space removed, split at each comma. -/
def argument_names (text : List Char) : List String :=
  ((text.filter (fun c => c ≠ ' ')).splitOn ',').map String.mk

/-! ## Lookup -/

/-- A `HfstOneLevelPaths` value, in the order its iterator visits it. -/
abbrev HfstOneLevelPaths := List (Weight × List String)

/-- The comparison `<` of two pairs of a weight and a path, as of
`std::pair<float, StringVector>`. -/
def path_lt (a b : Weight × List String) : Bool :=
  a.1.lt b.1 || (!b.1.lt a.1 && strings_lt a.2 b.2)

/-- The loop of `extract_output_paths` from the paths left and the running
`retval`. The tests `hfst::is_epsilon` and `hfst::is_unknown` compare with
the internal epsilon and unknown symbols. -/
def extract_output_paths_loop : HfstTwoLevelPaths → HfstOneLevelPaths → HfstOneLevelPaths
  | [], retval => retval
  | it :: rest, retval =>
    let new_path := (it.2.filter
      (fun p => decide (p.2 ≠ "@0@") && decide (p.2 ≠ internal_epsilon))).map
      (fun p => if p.2 = internal_unknown then "?" else p.2)
    extract_output_paths_loop rest (set_insert_by path_lt (it.1, new_path) retval)

/-- The function `extract_output_paths`: the set returned, in the order its
iterator visits it. -/
def extract_output_paths (paths : HfstTwoLevelPaths) : HfstOneLevelPaths :=
  extract_output_paths_loop paths []

/-- The inner loop of `print_paths(const HfstOneLevelPaths &, ...)` over the
symbols of one path, from the running `something_printed`: the text
written. -/
def XfstCompiler.print_path {T : Type} (fd : FdOperation) (s : XfstCompiler T) :
    List String → Bool → List String
  | [], _ => []
  | p :: rest, something_printed =>
    let print_symbol := s.get_print_symbol fd p
    let space :=
      if s.var "print-space" = "ON" ∧ something_printed = true ∧ print_symbol ≠ "" then [" "]
      else []
    let something_printed1 := if print_symbol ≠ "" then true else something_printed
    space ++ [print_symbol] ++ s.print_path fd rest something_printed1

/-- The text `print_paths(const HfstOneLevelPaths &, ...)` writes for one
path it does not skip. -/
def XfstCompiler.print_path_line {T : Type} (fd : FdOperation) (E : Engine T)
    (s : XfstCompiler T) (it : Weight × List String) : List String :=
  s.print_path fd it.2 false
    ++ (if s.var "print-weight" = "ON" then ["\t" ++ E.weight_text (s.var "precision") it.1]
        else [])
    ++ ["\n"]

/-- The outer loop of `print_paths(const HfstOneLevelPaths &, ...)` from the
running `n` and `retval`: the text written and the final `retval`, or `none`
when `is_valid_string` leaves abnormally on some path. -/
def XfstCompiler.print_paths_one_loop {T : Type} (fd : FdOperation) (E : Engine T)
    (s : XfstCompiler T) : HfstOneLevelPaths → Int → Bool → Option (List String × Bool)
  | [], _, retval => some ([], retval)
  | it :: rest, n, retval =>
    if n = 0 then some ([], retval)
    else
      let valid : Option Bool :=
        if s.var "obey-flags" = "ON" then is_valid_string fd it.2 else some true
      match valid with
      | none => none
      | some false => s.print_paths_one_loop fd E rest n retval
      | some true =>
        match s.print_paths_one_loop fd E rest (n - 1) true with
        | none => none
        | some r => some (s.print_path_line fd E it ++ r.1, r.2)

/-- The function `XfstCompiler::print_paths(const HfstOneLevelPaths &, oss,
n)`: the session afterwards and the value returned, or `OtherException` for
what `is_valid_string` throws. -/
def XfstCompiler.print_paths_one {T : Type} (fd : FdOperation) (E : Engine T)
    (s : XfstCompiler T) (paths : HfstOneLevelPaths) (n : Int) :
    Except HfstException (XfstCompiler T × Bool) :=
  match s.print_paths_one_loop fd E paths n false with
  | none => Except.error HfstException.OtherException
  | some r => Except.ok ({ s with output_ := s.output_ ++ r.1 }, r.2)

/-- The end of both `lookup` functions: write `???` when nothing was
printed. -/
def XfstCompiler.lookup_end {T : Type} (r : XfstCompiler T × Bool) : XfstCompiler T :=
  if r.2 = false then r.1.OUTPUT "???" else r.1

/-- The end of `lookup(char* line, HfstIterableTransducer * t)`: print the
results, as output paths when `print-pairs` is `OFF`. -/
def XfstCompiler.lookup_print {T : Type} (fd : FdOperation) (E : Engine T)
    (s : XfstCompiler T) (results : HfstTwoLevelPaths) : Except HfstException (XfstCompiler T) :=
  let printed :=
    if s.var "print-pairs" = "OFF" then s.print_paths_one fd E (extract_output_paths results) (-1)
    else s.print_paths fd E results (-1)
  match printed with
  | Except.ok r => Except.ok (XfstCompiler.lookup_end r)
  | Except.error e => Except.error e

/-- The function `XfstCompiler::lookup(char* line, HfstIterableTransducer *
t)`. The cutoff `-1` is the largest `size_t`. -/
def XfstCompiler.lookup {T : Type} (fd : FdOperation) (E : Engine T) (s : XfstCompiler T)
    (line : String) (t : T) : Except HfstException (XfstCompiler T) :=
  let token := E.strstrip line
  let lookup_path := E.tokenize_one_level (E.get_input_symbols t) token
  let obey : Bool := decide (s.var "obey-flags" = "ON")
  let ambiguous := E.is_lookup_infinitely_ambiguous t lookup_path obey
  let cutoff : Nat :=
    if ambiguous then string_to_size_t E.uninitialised_size_t (s.var "lookup-cycle-cutoff")
    else 2 ^ 64 - 1
  let s1 :=
    if ambiguous && s.verbose_ then
      s.ERROR ("warning: lookup is infinitely ambiguous, limiting the number of cycles to "
        ++ toString cutoff)
    else s
  let max_weight : Option Weight :=
    if s1.var "maximum-weight" = "OFF" then none
    else some (E.string_to_float (s1.var "maximum-weight"))
  let results := E.lookup_path t lookup_path cutoff max_weight obey
  s1.lookup_print fd E results

/-- The function `XfstCompiler::lookup(char* line, const HfstTransducer * t,
size_t cutoff)`. -/
def XfstCompiler.lookup_cutoff {T : Type} (fd : FdOperation) (E : Engine T)
    (s : XfstCompiler T) (line : String) (t : T) (cutoff : Nat) :
    Except HfstException (XfstCompiler T) :=
  let token := E.strstrip line
  let paths :=
    if s.var "obey-flags" = "ON" then E.lookup_fd t token cutoff else E.lookup t token cutoff
  match s.print_paths_one fd E paths (-1) with
  | Except.ok r => Except.ok (XfstCompiler.lookup_end r)
  | Except.error e => Except.error e

/-- The function `XfstCompiler::apply_down_line`. -/
def XfstCompiler.apply_down_line {T : Type} (fd : FdOperation) (E : Engine T)
    (s : XfstCompiler T) (line : String) : Except HfstException (XfstCompiler T) :=
  match s.stack_ with
  | [] => Except.ok ((s.EMPTY_STACK).xfst_lesser_fail).prompt
  | t :: _ =>
    if E.get_type t ≠ ImplementationType.HFST_OL_TYPE
        ∧ E.get_type t ≠ ImplementationType.HFST_OLW_TYPE then
      s.lookup fd E line t
    else
      let ol_cutoff := string_to_size_t E.uninitialised_size_t (s.var "lookup-cycle-cutoff")
      let s1 :=
        if E.ol_is_lookup_infinitely_ambiguous t && s.verbose_ then
          s.ERROR ("warning: transducer is infinitely ambiguous, limiting number of cycles to "
            ++ toString ol_cutoff)
        else s
      s1.lookup_cutoff fd E line t ol_cutoff

/-! ## Compile-replace -/

/-- The function `to_regexp`. -/
def to_regexp (path : List (String × String)) (input_side retokenize : Bool) : String :=
  let body := path.foldl (fun (pathstr : String) (it : String × String) =>
    let symbol := if input_side then it.1 else it.2
    if symbol ≠ "^]" ∧ symbol ≠ "^[" then
      if symbol ≠ internal_epsilon then
        if !retokenize then pathstr ++ symbol ++ " " else pathstr ++ symbol
      else pathstr
    else
      if !retokenize then pathstr ++ "\"@EPSILON_MARKER@\"" ++ " "
      else pathstr ++ "\"@EPSILON_MARKER@\"") "["
  let pathstr := body ++ "]"
  if pathstr = "[]" then "[0]" else pathstr

/-- The function `to_literal_regexp`. -/
def to_literal_regexp (path : List (String × String)) (input_side : Bool) : String :=
  let body := path.foldl (fun (pathstr : String) (it : String × String) =>
    let symbol := if input_side then it.1 else it.2
    if symbol ≠ internal_epsilon then pathstr ++ "\"" ++ symbol ++ "\" " else pathstr) "["
  let pathstr := body ++ "]"
  if pathstr = "[]" then "[0]" else pathstr

/-- The regular expression `cross_product_regexp` that `compile_replace_net`
builds for one replacement path. -/
def cross_product_regexp (level : Level) (retokenize : Bool) (path : List (String × String)) :
    String :=
  let regexp := to_regexp path (decide (level = Level.UPPER_LEVEL)) retokenize
  let literal_regexp := to_literal_regexp path (decide (level ≠ Level.UPPER_LEVEL))
  if level = Level.UPPER_LEVEL then "[ " ++ regexp ++ " ] .x. [ " ++ literal_regexp ++ " ]"
  else "[ " ++ literal_regexp ++ " ] .x. [ " ++ regexp ++ " ]"

/-- The function `is_well_formed_for_compile_replace`, with
`contains_regexps` inlined: the value returned and the definitions of `xre_`
afterwards. A regular expression that does not compile gives a null pointer,
which the function dereferences: that is the outcome `OtherException`. -/
def is_well_formed_for_compile_replace {T : Type} (E : Engine T) (defs : StrMap T)
    (lists : StrMap (List String)) (t : T) : Except HfstException (Bool × StrMap T) :=
  match E.xre_compile defs lists "[? - \"^[\" - \"^]\"]* ;" with
  | none => Except.error HfstException.OtherException
  | some not_bracket_star =>
    let defs1 := defs.set "TempNotBracketStar" not_bracket_star
    match E.xre_compile defs1 lists
      "TempNotBracketStar \"^[\" TempNotBracketStar  [ \"^]\" TempNotBracketStar \"^[\"  TempNotBracketStar ]*  \"^]\" TempNotBracketStar ;" with
    | none => Except.error HfstException.OtherException
    | some well_formed =>
      let defs2 := defs1.erase "TempNotBracketStar"
      match E.subtract t well_formed with
      | Except.error e => Except.error e
      | Except.ok tc1 =>
        match E.xre_compile defs2 lists "$[ \"^[\" | \"^]\" ] ;" with
        | none => Except.error HfstException.OtherException
        | some brackets =>
          match E.intersect tc1 brackets with
          | Except.error e => Except.error e
          | Except.ok tc2 => Except.ok (E.compare (E.empty (E.get_type tc2)) tc2, defs2)

/-- The replacements of a replacement map in the order the two nested loops
of `compile_replace_net` visit them: start state, end state, path. -/
def replacement_list (m : List (Nat × List (Nat × List (String × String)))) :
    List (Nat × Nat × List (String × String)) :=
  m.flatMap (fun it => it.2.map (fun rit => (it.1, rit.1, rit.2)))

/-- The two nested loops of `compile_replace_net` from the replacements left
and the running `fsm`: the final `fsm`, or the regular expression that did
not compile. -/
def insert_replacements {T : Type} (E : Engine T) (defs : StrMap T)
    (lists : StrMap (List String)) (level : Level) (retokenize : Bool) :
    List (Nat × Nat × List (String × String)) → T → Except String T
  | [], fsm => Except.ok fsm
  | (start_state, end_state, path) :: rest, fsm =>
    match E.xre_compile defs lists (cross_product_regexp level retokenize path) with
    | none => Except.error (cross_product_regexp level retokenize path)
    | some replacement =>
      insert_replacements E defs lists level retokenize rest
        (E.insert_transducer fsm start_state end_state (E.optimize replacement))

/-- The function `XfstCompiler::compile_replace_net`. A failed `assert` is
the outcome `OtherException`. -/
def XfstCompiler.compile_replace_net {T : Type} (E : Engine T) (s : XfstCompiler T)
    (level : Level) : Except HfstException (XfstCompiler T) :=
  if level = Level.BOTH_LEVELS then Except.error HfstException.OtherException
  else
    match s.top E false with
    | (s1, none) => Except.ok s1.xfst_lesser_fail
    | (s1, some tmp) =>
      let projected :=
        if level = Level.UPPER_LEVEL then E.input_project tmp else E.output_project tmp
      match projected with
      | Except.error e => Except.error e
      | Except.ok tmp_cp =>
        match is_well_formed_for_compile_replace E s1.xre_definitions_ s1.xre_lists_ tmp_cp with
        | Except.error e => Except.error e
        | Except.ok (false, defs) =>
          let s2 := { s1 with xre_definitions_ := defs }
          let s3 := if s2.verbose_ then s2.ERROR "Network is not well-formed." else s2
          Except.ok (s3.xfst_lesser_fail).prompt
        | Except.ok (true, defs) =>
          let s2 := { s1 with xre_definitions_ := defs }
          let s3 := if s2.verbose_ then s2.ERROR "Network is well-formed." else s2
          let retokenize : Bool := decide (s3.var "retokenize" = "ON")
          let inserted : Except String T × XfstCompiler T :=
            match E.find_replacements tmp (decide (level = Level.UPPER_LEVEL)) with
            | Except.error msg =>
              (Except.ok tmp, s3.ERROR ("compile_replace threw an error: '" ++ msg ++ "'"))
            | Except.ok replacement_map =>
              (insert_replacements E s3.xre_definitions_ s3.xre_lists_ level retokenize
                (replacement_list replacement_map) tmp, s3)
          match inserted with
          | (Except.error regexp, s4) =>
            Except.ok (((s4.ERROR ("Could not compile regular expression in compile-replace: "
              ++ regexp ++ ".")).xfst_lesser_fail).prompt)
          | (Except.ok fsm, s4) =>
            let result := E.of_iterable fsm s4.format_
            let marker_regexp :=
              if level = Level.UPPER_LEVEL then
                "[?:?|0:?|?:0]* [\"^[\":? | \"^]\":? | \"^[\":0 | \"^]\":0] [?:?|0:?|?:0]*"
              else "[?:?|0:?|?:0]* [?:\"^[\" | ?:\"^]\" | 0:\"^[\" | 0:\"^]\"] [?:?|0:?|?:0]*"
            match E.xre_compile s4.xre_definitions_ s4.xre_lists_ marker_regexp with
            | none => Except.error HfstException.OtherException
            | some cr =>
              match E.subtract result (E.optimize cr) with
              | Except.error e => Except.error e
              | Except.ok result1 =>
                let result2 := E.substitute (E.optimize result1) "@EPSILON_MARKER@"
                  internal_epsilon
                Except.ok ({ s4 with stack_ := result2 :: s4.stack_.tail }).prompt

/-! ## Written paths -/

/-- Whether `print_paths` writes a path it visits: with `obey-flags` being
`ON` the path must be a valid string. -/
def XfstCompiler.passes_filter {T : Type} (fd : FdOperation) (s : XfstCompiler T)
    (path : List String) : Bool :=
  if s.var "obey-flags" = "ON" then is_valid_string fd path == some true else true

/-- The paths that `print_paths` is to write: those passing the filter, at
most `n` of them when `n` is not negative. -/
def XfstCompiler.written_paths {T : Type} (fd : FdOperation) (s : XfstCompiler T)
    (paths : HfstOneLevelPaths) (n : Int) : HfstOneLevelPaths :=
  if n < 0 then paths.filter (fun it => s.passes_filter fd it.2)
  else (paths.filter (fun it => s.passes_filter fd it.2)).take n.toNat

/-- The non-empty images of the symbols of a path under `get_print_symbol`,
in order. -/
def XfstCompiler.printed_symbols {T : Type} (fd : FdOperation) (s : XfstCompiler T)
    (path : List String) : List String :=
  (path.map (s.get_print_symbol fd)).filter (fun x => decide (x ≠ ""))

/-- The pairs paths that the two-level `print_paths` is to write: those whose
input side passes the filter, at most `n` of them when `n` is not
negative. -/
def XfstCompiler.written_pair_paths {T : Type} (fd : FdOperation) (s : XfstCompiler T)
    (paths : HfstTwoLevelPaths) (n : Int) : HfstTwoLevelPaths :=
  if n < 0 then paths.filter (fun it => s.passes_filter fd (it.2.map Prod.fst))
  else (paths.filter (fun it => s.passes_filter fd (it.2.map Prod.fst))).take n.toNat

/-- The text the two-level `print_paths` writes for one path it does not
skip. -/
def XfstCompiler.print_pair_path_line {T : Type} (fd : FdOperation) (E : Engine T)
    (s : XfstCompiler T) (it : Weight × List (String × String)) : List String :=
  s.print_pair_path fd it.2 false
    ++ (if s.var "print-weight" = "ON" then ["\t" ++ E.weight_text (s.var "precision") it.1]
        else [])
    ++ ["\n"]

/-- The lines that a lookup is to write for the results of the engine: the
output paths when `print-pairs` is `OFF`, the pair paths otherwise, in both
cases those that pass the filter. -/
def XfstCompiler.lookup_lines {T : Type} (fd : FdOperation) (E : Engine T)
    (s : XfstCompiler T) (results : HfstTwoLevelPaths) : List (List String) :=
  if s.var "print-pairs" = "OFF" then
    (s.written_paths fd (extract_output_paths results) (-1)).map (s.print_path_line fd E)
  else (s.written_pair_paths fd results (-1)).map (s.print_pair_path_line fd E)

/-- The characters of a sequence of writes to a stream. -/
def stream_text (writes : List String) : List Char :=
  writes.flatMap String.data

/-! ## Function definitions -/

/-- The loop of `extract_function_name`, from the characters left and the
running `name`: the value returned and `name` afterwards. -/
def extract_function_name_loop : List Char → List Char → Bool × List Char
  | [], name => (false, name)
  | c :: cs, name =>
    if c = '(' then (true, name ++ [c]) else extract_function_name_loop cs (name ++ [c])

/-- The function `extract_function_name`: the value returned and `name`
afterwards. The name kept ends with the opening parenthesis. -/
def extract_function_name (prototype name : String) : Bool × String :=
  let r := extract_function_name_loop prototype.data name.data
  (r.1, String.mk r.2)

/-- The loop `go through retval` of `convert_argument_symbols`, from the
elements of `retval` left, the index `i` of the first of them, the number of
elements the skipping loop still passes over, and `arg_positions`: what is
appended to `new_retval`. A `std::string` is the list of its elements. -/
def replace_positions (arg_length : Nat) (substituting_argument : List Char) :
    List Char → Nat → Nat → List Nat → List Char
  | [], _, _, _ => []
  | _ :: cs, i, skip + 1, arg_positions =>
    replace_positions arg_length substituting_argument cs (i + 1) skip arg_positions
  | c :: cs, i, 0, arg_positions =>
    if i ∈ arg_positions then
      substituting_argument
        ++ replace_positions arg_length substituting_argument cs (i + 1) (arg_length - 1)
            (arg_positions.filter (fun j => j ≠ i))
    else c :: replace_positions arg_length substituting_argument cs (i + 1) 0 arg_positions

/-- The text `substituting_argument` of `convert_argument_symbols` for the
argument number `arg_number`. -/
def substituting_argument (function_name : String) (user_friendly_argument_names : Bool)
    (arg_number : Nat) : String :=
  if user_friendly_argument_names then "ARGUMENT" ++ toString arg_number
  else "\"@" ++ function_name ++ toString arg_number ++ "@\""

/-- The loop of `convert_argument_symbols` over the arguments, from the
arguments left, the running `retval` and `arg_number`; the first argument is
`xre_.get_positions_of_symbol_in_xre`. -/
def convert_argument_symbols_loop (get_positions : String → String → Option (List Nat))
    (function_name : String) (user_friendly_argument_names : Bool) :
    List String → String → Nat → String
  | [], retval, _ => retval
  | arg :: rest, retval, arg_number =>
    match get_positions arg retval with
    | none => ""
    | some arg_positions =>
      let new_retval := String.mk (replace_positions arg.data.length
        (substituting_argument function_name user_friendly_argument_names arg_number).data
        retval.data 0 0 arg_positions)
      convert_argument_symbols_loop get_positions function_name user_friendly_argument_names
        rest new_retval (arg_number + 1)

/-- The function `convert_argument_symbols`. -/
def convert_argument_symbols (get_positions : String → String → Option (List Nat))
    (arguments : List String) (xre function_name : String)
    (user_friendly_argument_names : Bool) : String :=
  convert_argument_symbols_loop get_positions function_name user_friendly_argument_names
    arguments xre 1

/-- Modelled from the spec: whether the literal symbol starts the text, for
the position oracle of the regular-expression compiler. -/
def starts_with : List Char → List Char → Bool
  | [], _ => true
  | _ :: _, [] => false
  | a :: as, b :: bs => a = b && starts_with as bs

/-- Modelled from the spec: `get_positions_of_symbol_in_xre` belongs to the
regular-expression compiler, outside the sources at hand. It locates every
occurrence of the literal symbol inside the body expression, scanning left to
right, never inside a quoted symbol and never re-matching a position already
taken by an occurrence. The arguments are the symbol, the text left, the
index of its first element, whether the scan is inside double quotes, and
the number of elements of the last occurrence still to pass. -/
def symbol_positions (symbol : List Char) : List Char → Nat → Bool → Nat → List Nat
  | [], _, _, _ => []
  | _ :: cs, i, quoted, skip + 1 => symbol_positions symbol cs (i + 1) quoted skip
  | c :: cs, i, quoted, 0 =>
    if c = '"' then symbol_positions symbol cs (i + 1) (!quoted) 0
    else if !quoted && symbol ≠ [] && starts_with symbol (c :: cs) then
      i :: symbol_positions symbol cs (i + 1) quoted (symbol.length - 1)
    else symbol_positions symbol cs (i + 1) quoted 0

/-- The function `XfstCompiler::define_function`. The call
`xre_.define_function(name, n, xre)` binds `name` in `xre_` when it accepts
the definition. -/
def XfstCompiler.define_function {T : Type} (E : Engine T) (s : XfstCompiler T)
    (prototype xre : String) : XfstCompiler T :=
  let rn := extract_function_name prototype ""
  if rn.1 = false then
    ((s.ERROR ("Error extracting function name from prototype '" ++ prototype ++ "'")).xfst_fail).prompt
  else
    let name := rn.2
    let ra := extract_function_arguments prototype []
    if ra.1 = false then
      ((s.ERROR ("Error extracting function arguments from prototype '" ++ prototype
        ++ "'")).xfst_fail).prompt
    else
      let arguments := ra.2
      let xre_converted :=
        convert_argument_symbols E.get_positions_of_symbol_in_xre arguments xre name false
      if xre_converted = "" then
        ((s.ERROR ("Error parsing function definition '" ++ xre ++ "'")).xfst_fail).prompt
      else
        let was_defined := s.xre_functions_.contains name
        if E.xre_define_function name arguments.length xre_converted = false then
          ((s.ERROR "Error when defining function").xfst_fail).prompt
        else
          let s1 := { s with xre_functions_ :=
            s.xre_functions_.set name (arguments.length, xre_converted) }
          let s2 :=
            if s1.verbose_ then
              s1.OUTPUT ((if was_defined then "Redefined" else "Defined") ++ " function '"
                ++ name ++ "@" ++ toString arguments.length ++ ")")
            else s1
          ({ s2 with
              function_arguments_ := s2.function_arguments_.set name arguments.length,
              function_definitions_ := s2.function_definitions_.set name
                (convert_argument_symbols E.get_positions_of_symbol_in_xre arguments xre ""
                  true),
              original_function_definitions_ :=
                s2.original_function_definitions_.set prototype xre }).prompt

/-- A body seen as a sequence of items: `none` is an occurrence of the
argument symbol, `some c` a character outside every occurrence. The text of
the body for the argument symbol `arg`. -/
def items_text (arg : List Char) : List (Option Char) → List Char
  | [] => []
  | none :: rest => arg ++ items_text arg rest
  | some c :: rest => c :: items_text arg rest

/-- The start offsets of the occurrences in a body given as items, the body
starting at offset `i`. -/
def items_positions (arg_length : Nat) : List (Option Char) → Nat → List Nat
  | [], _ => []
  | none :: rest, i => i :: items_positions arg_length rest (i + arg_length)
  | some _ :: rest, i => items_positions arg_length rest (i + 1)

/-- The body given as items with every occurrence replaced by `marker` and
every other character kept. -/
def items_rewritten (marker : List Char) : List (Option Char) → List Char
  | [] => []
  | none :: rest => marker ++ items_rewritten marker rest
  | some c :: rest => c :: items_rewritten marker rest

/-! ## Stack order -/

/-- The first loop of `turn`: the queue `tmp` afterwards, front first. -/
def turn_fill {T : Type} : List T → List T → List T
  | [], tmp => tmp
  | t :: stack, tmp => turn_fill stack (tmp ++ [t])

/-- The second loop of `turn`: the stack afterwards. -/
def turn_drain {T : Type} : List T → List T → List T
  | [], stack => stack
  | t :: tmp, stack => turn_drain tmp (t :: stack)

/-- The function `XfstCompiler::turn`. -/
def XfstCompiler.turn {T : Type} (E : Engine T) (s : XfstCompiler T) : XfstCompiler T :=
  (({ s with stack_ := turn_drain (turn_fill s.stack_ []) [] }).print_transducer_info E).prompt

/-- The loop of `rotate`: the stack `tmp` afterwards, top first. -/
def rotate_fill {T : Type} : List T → List T → List T
  | [], tmp => tmp
  | t :: stack, tmp => rotate_fill stack (t :: tmp)

/-- The function `XfstCompiler::rotate`. -/
def XfstCompiler.rotate {T : Type} (E : Engine T) (s : XfstCompiler T) : XfstCompiler T :=
  match s.stack_ with
  | [] => s.prompt
  | t :: rest =>
    (({ s with stack_ := rotate_fill (t :: rest) [] }).print_transducer_info E).prompt

/-! ## Path bookkeeping of `inspect_net` -/

/-- The loop shared by `append_state_to_paths` and `return_to_level`: erase
`shortest_path` from the first occurrence of `state` to its end. -/
def erase_from_state : List Nat → Nat → List Nat
  | [], _ => []
  | x :: xs, state => if x = state then [] else x :: erase_from_state xs state

/-- The function `append_state_to_paths`: `whole_path` and `shortest_path`
afterwards. -/
def append_state_to_paths (whole_path shortest_path : List Nat) (state : Nat) :
    List Nat × List Nat :=
  (whole_path ++ [state], erase_from_state shortest_path state ++ [state])

/-- The function `return_to_level`: the value returned, `whole_path` and
`shortest_path` afterwards. -/
def return_to_level (whole_path shortest_path : List Nat) (level : Nat) :
    Bool × List Nat × List Nat :=
  if whole_path.length < level ∨ level = 0 then (false, whole_path, shortest_path)
  else
    let whole_path1 := whole_path.take level
    let state := whole_path1.getLastD 0
    (true, whole_path1, erase_from_state shortest_path state ++ [state])

/-- A step of the bookkeeping of `inspect_net`. -/
inductive PathStep where
  | append (state : Nat)
  | back (level : Nat)
  deriving DecidableEq, Repr

/-- The two vectors after a sequence of `append_state_to_paths` and
`return_to_level` calls; a `return_to_level` that returns `false` leaves
them as they are. -/
def run_path_steps : List PathStep → List Nat × List Nat → List Nat × List Nat
  | [], paths => paths
  | PathStep.append state :: rest, paths =>
    run_path_steps rest (append_state_to_paths paths.1 paths.2 state)
  | PathStep.back level :: rest, paths =>
    run_path_steps rest (return_to_level paths.1 paths.2 level).2

/-! ## Substitution -/

/-- The text `subst_regex` that `substitute_symbol` builds. -/
def subst_regex (list target : String) : String :=
  let liststr := if list = "\"NOTHING\"" then "" else list
  "`[ [TempXfstTransducerName] , " ++ ("\"" ++ target ++ "\" , " ++ liststr ++ " ]")

/-- The function `XfstCompiler::substitute_symbol`. -/
def XfstCompiler.substitute_symbol {T : Type} (E : Engine T) (s : XfstCompiler T)
    (list target : String) : XfstCompiler T :=
  match s.top E false with
  | (s1, none) => s1.xfst_lesser_fail
  | (s1, some top) =>
    if target ∉ E.get_alphabet top then
      ((s1.ERROR ("no occurrences of symbol '" ++ target ++ "', cannot substitute")).MAYBE_QUIT).prompt
    else
      let s2 := { s1 with stack_ := s1.stack_.tail }
      let defs := s2.xre_definitions_.set "TempXfstTransducerName" top
      let substituted := E.xre_compile defs s2.xre_lists_ (subst_regex list target)
      let s3 := { s2 with xre_definitions_ := defs.erase "TempXfstTransducerName" }
      match substituted with
      | some sub =>
        (({ s3 with stack_ := E.optimize sub :: s3.stack_ }).print_transducer_info E).prompt
      | none => ({ s3.ERROR "fatal error in substitution" with fail_flag_ := true }).prompt

/-- Whether `substitute_symbol` reaches its substitution and the compiler
fails on the regular expression built for it. -/
def XfstCompiler.substitution_fails {T : Type} (E : Engine T) (s : XfstCompiler T)
    (list target : String) : Bool :=
  match s.top E false with
  | (_, none) => false
  | (s1, some top) =>
    decide (target ∈ E.get_alphabet top)
      && (E.xre_compile (s1.xre_definitions_.set "TempXfstTransducerName" top) s1.xre_lists_
            (subst_regex list target)).isNone

/-! ## Commands as data -/

/-- How an operation may change the fail flag: the variables stay as they
are, and the flag stays as it is or, with `quit-on-fail` being `ON`, is
set. -/
def XfstCompiler.fail_step {T : Type} (s s' : XfstCompiler T) : Prop :=
  s'.variables_ = s.variables_
    ∧ (s'.fail_flag_ = s.fail_flag_ ∨ (s.var "quit-on-fail" = "ON" ∧ s'.fail_flag_ = true))

/-- The operations of the session that are embedded here, with their
arguments. -/
inductive Command (T : Type) where
  | apply_unary_operation (operation : UnaryOperation)
  | apply_binary_operation (operation : BinaryOperation)
  | apply_binary_operation_iteratively (operation : BinaryOperation)
  | compose_net
  | test_eq (assertion : Bool)
  | define (name : String)
  | define_xre (name xre : String)
  | define_list (name values : String)
  | define_list_range (name start end_ : String)
  | undefine (name_list : String)
  | unlist (name : String)
  | add_loaded_definition (t : T)
  | set (name text : String)
  | set_number (name : String) (number : Nat)
  | print_words (name : Option String) (number : Nat) (level : Level)
  | print_sigma (prompt : Bool)
  | print_transducer_info
  | pop
  | prompt
  | xfst_fail
  | xfst_lesser_fail
  | substitute_symbol (list target : String)
  | define_function (prototype xre : String)
  | turn
  | rotate
  | apply_down_line (line : String)
  | compile_replace_net (level : Level)

/-- One operation on a session. -/
def Command.run {T : Type} (fd : FdOperation) (E : Engine T) (c : Command T)
    (s : XfstCompiler T) : Except HfstException (XfstCompiler T) :=
  match c with
  | Command.apply_unary_operation op => s.apply_unary_operation E op
  | Command.apply_binary_operation op => s.apply_binary_operation E op
  | Command.apply_binary_operation_iteratively op => s.apply_binary_operation_iteratively E op
  | Command.compose_net => s.compose_net E
  | Command.test_eq assertion => Except.ok (s.test_eq E assertion)
  | Command.define name => Except.ok (s.define E name)
  | Command.define_xre name xre => Except.ok (s.define_xre E name xre)
  | Command.define_list name values => Except.ok (s.define_list name values)
  | Command.define_list_range name start e => Except.ok (s.define_list_range name start e)
  | Command.undefine name_list => Except.ok (s.undefine name_list)
  | Command.unlist name => Except.ok (s.unlist name)
  | Command.add_loaded_definition t => Except.ok (s.add_loaded_definition E t)
  | Command.set name text => Except.ok (s.set name text)
  | Command.set_number name number => Except.ok (s.set_number name number)
  | Command.print_words name number level => s.print_words fd E name number level
  | Command.print_sigma p => Except.ok (s.print_sigma E p)
  | Command.print_transducer_info => Except.ok (s.print_transducer_info E)
  | Command.pop => Except.ok s.pop
  | Command.prompt => Except.ok s.prompt
  | Command.xfst_fail => Except.ok s.xfst_fail
  | Command.xfst_lesser_fail => Except.ok s.xfst_lesser_fail
  | Command.substitute_symbol list target => Except.ok (s.substitute_symbol E list target)
  | Command.define_function p xre => Except.ok (s.define_function E p xre)
  | Command.turn => Except.ok (s.turn E)
  | Command.rotate => Except.ok (s.rotate E)
  | Command.apply_down_line line => s.apply_down_line fd E line
  | Command.compile_replace_net level => s.compile_replace_net E level

/-- Whether the operation is a `substitute_symbol` that, run on the session,
reaches its substitution with the compiler failing on it. -/
def Command.fatal_substitution {T : Type} (E : Engine T) : Command T → XfstCompiler T → Bool
  | Command.substitute_symbol list target, s => s.substitution_fails E list target
  | _, _ => false

/-- A sequence of operations, in order; an operation that raises ends the
run. -/
def Command.run_all {T : Type} (fd : FdOperation) (E : Engine T) :
    List (Command T) → XfstCompiler T → Except HfstException (XfstCompiler T)
  | [], s => Except.ok s
  | c :: cs, s =>
    match c.run fd E s with
    | Except.ok s1 => Command.run_all fd E cs s1
    | Except.error e => Except.error e

/-! ## Operations and the fail flag -/

/-- A statement of a member function of `XfstCompiler`, by what it does to
the member `fail_flag_`. After the two constructors, which set it to `false`,
the file assigns the member in the macros `IF_NULL_PROMPT_AND_RETURN_THIS`,
`MAYBE_ASSERT` and `MAYBE_QUIT`, in `xfst_fail`, in `xfst_lesser_fail` and in
the branch `fatal error in substitution` of `substitute_symbol`, and nowhere
else; `get_fail_flag` reads it. Every other statement is an `other`: it may
change every member but that one. -/
inductive FlagStatement (T : Type) where
  /-- a call of `xfst_fail` -/
  | xfst_fail
  /-- a call of `xfst_lesser_fail` -/
  | xfst_lesser_fail
  /-- the macro `MAYBE_QUIT` -/
  | MAYBE_QUIT
  /-- the macro `MAYBE_ASSERT(assertion, value)` -/
  | MAYBE_ASSERT (assertion value : Bool)
  /-- the macro `IF_NULL_PROMPT_AND_RETURN_THIS(x)` with `x` being `NULL` -/
  | IF_NULL_PROMPT_AND_RETURN_THIS
  /-- the assignment `this->fail_flag_ = true` of `substitute_symbol` -/
  | fatal_assignment
  /-- a statement without an assignment to `fail_flag_`, as what it does to
  the session -/
  | other (f : XfstCompiler T → XfstCompiler T)

/-- The session after a statement. -/
def FlagStatement.run {T : Type} : FlagStatement T → XfstCompiler T → XfstCompiler T
  | FlagStatement.xfst_fail, s => s.xfst_fail
  | FlagStatement.xfst_lesser_fail, s => s.xfst_lesser_fail
  | FlagStatement.MAYBE_QUIT, s => s.MAYBE_QUIT
  | FlagStatement.MAYBE_ASSERT assertion value, s => s.MAYBE_ASSERT assertion value
  | FlagStatement.IF_NULL_PROMPT_AND_RETURN_THIS, s => s.IF_NULL_PROMPT_AND_RETURN_THIS
  | FlagStatement.fatal_assignment, s => { s with fail_flag_ := true }
  | FlagStatement.other f, s => { f s with fail_flag_ := s.fail_flag_ }

/-- Whether the statement is the assignment of `substitute_symbol`. -/
def FlagStatement.is_fatal_assignment {T : Type} : FlagStatement T → Bool
  | FlagStatement.fatal_assignment => true
  | _ => false

/-- A member function of `XfstCompiler` that ends, as the statements it runs:
it returns, or leaves by an exception, or runs a statement and goes on as the
session after that statement calls for. -/
inductive Operation (T : Type) where
  | done
  | raise (e : HfstException)
  | step (statement : FlagStatement T) (next : XfstCompiler T → Operation T)

/-- The session an operation returns, or the exception it leaves by. -/
def Operation.run {T : Type} :
    Operation T → XfstCompiler T → Except HfstException (XfstCompiler T)
  | Operation.done, s => Except.ok s
  | Operation.raise e, _ => Except.error e
  | Operation.step statement next, s => (next (statement.run s)).run (statement.run s)

/-- A sequence of operations, in order; an operation that raises ends the
run. -/
def Operation.run_all {T : Type} :
    List (Operation T) → XfstCompiler T → Except HfstException (XfstCompiler T)
  | [], s => Except.ok s
  | op :: ops, s =>
    match op.run s with
    | Except.ok s1 => Operation.run_all ops s1
    | Except.error e => Except.error e

/-- Whether, in the run of an operation from a session, `quit-on-fail` is
not `ON` before any statement and the assignment of `substitute_symbol` is
not among the statements run. -/
def Operation.quiet {T : Type} : Operation T → XfstCompiler T → Prop
  | Operation.done, _ => True
  | Operation.raise _, _ => True
  | Operation.step statement next, s =>
    s.var "quit-on-fail" ≠ "ON" ∧ statement.is_fatal_assignment = false
      ∧ (next (statement.run s)).quiet (statement.run s)

/-- The same for a sequence of operations. -/
def Operation.quiet_all {T : Type} : List (Operation T) → XfstCompiler T → Prop
  | [], _ => True
  | op :: ops, s =>
    op.quiet s ∧ ∀ s1, op.run s = Except.ok s1 → Operation.quiet_all ops s1

/-- The operation `substitute_symbol` from its branch `fatal error in
substitution` on: the error line, the assignment and the prompt. -/
def substitute_symbol_fatal_branch (T : Type) : Operation T :=
  Operation.step (FlagStatement.other (fun s => s.ERROR "fatal error in substitution"))
    (fun _ => Operation.step FlagStatement.fatal_assignment
      (fun _ => Operation.step (FlagStatement.other (fun s => s.prompt))
        (fun _ => Operation.done)))

/-! ## A lookup engine with a cycle cutoff -/

/-- Modelled from the spec: the transducer engine is outside the sources at
hand. A transition of a network: source state, input symbol (the internal
epsilon when no input is consumed), output symbol and target state. -/
structure FstTransition where
  source : Nat
  input : String
  output : String
  target : Nat
  deriving DecidableEq, Repr

/-- Modelled from the spec: a network of the engine, as its transitions and
its final states; the start state is 0. -/
structure Fst where
  transitions : List FstTransition
  finals : List Nat
  deriving DecidableEq, Repr

/-- Modelled from the spec: the states of a network of the engine, which are
the start state and every target. -/
def Fst.states (t : Fst) : List Nat :=
  0 :: t.transitions.map (fun tr => tr.target)

/-- Modelled from the spec: the results of the branches of the search of
the engine lookup, `none` when one of them ran out of fuel. -/
def collect_results {α : Type} : List (Option (List α)) → Option (List α)
  | [] => some []
  | none :: _ => none
  | some x :: rest =>
    match collect_results rest with
    | none => none
    | some y => some (x ++ y)

/-- Modelled from the spec: the lookup of the engine, which "bounds
ambiguity/cycles" by an imposed "cycle cutoff". A depth-first search from
`state` for the input left; `visits` holds the states entered since the last
input symbol was consumed, and a move that consumes no input may enter a
state only while the state occurs there at most `cutoff` times; `path` is the
path so far. The result is `none` when the fuel runs out. -/
def Fst.lookup_from (t : Fst) (cutoff : Nat) :
    Nat → Nat → List String → List Nat → List (String × String) →
      Option (List (List (String × String)))
  | 0, _, _, _, _ => none
  | fuel + 1, state, input, visits, path =>
    let here := if input = [] ∧ state ∈ t.finals then [path] else []
    let moves := (t.transitions.filter (fun tr => tr.source = state)).map (fun tr =>
      if tr.input = internal_epsilon then
        if visits.count tr.target ≤ cutoff then
          t.lookup_from cutoff fuel tr.target input (tr.target :: visits)
            (path ++ [(tr.input, tr.output)])
        else some []
      else
        match input with
        | [] => some []
        | sym :: rest =>
          if tr.input = sym then
            t.lookup_from cutoff fuel tr.target rest [tr.target]
              (path ++ [(tr.input, tr.output)])
          else some [])
    match collect_results moves with
    | none => none
    | some found => some (here ++ found)

/-- Modelled from the spec: the fuel given to the engine lookup, which is the
number of input positions times one more than the longest run of moves
without input that the cutoff allows. -/
def Fst.lookup_fuel (t : Fst) (cutoff : Nat) (input : List String) : Nat :=
  (input.length + 1) * ((cutoff + 1) * t.states.length + 1)

/-- Modelled from the spec: the lookup of a tokenized input in a network
under a cycle cutoff, from the start state. Weights are not modelled: every
result has the weight zero and a weight ceiling prunes nothing. -/
def Fst.lookup (t : Fst) (input : List String) (cutoff : Nat) : HfstTwoLevelPaths :=
  ((t.lookup_from cutoff (t.lookup_fuel cutoff input) 0 input [0] []).getD []).map
    (fun p => ({ bits := 0 }, p))

/-- Modelled from the spec: the states a move of the engine without input
leads to from a state. -/
def Fst.eps_successors (t : Fst) (state : Nat) : List Nat :=
  (t.transitions.filter
    (fun tr => decide (tr.source = state) && decide (tr.input = internal_epsilon))).map
    (fun tr => tr.target)

/-- Modelled from the spec: the states the engine reaches from the given ones
by one up to `n` moves without input. -/
def Fst.eps_reach (t : Fst) : Nat → List Nat → List Nat
  | 0, _ => []
  | n + 1, states =>
    states.flatMap t.eps_successors ++ t.eps_reach n (states.flatMap t.eps_successors)

/-- Modelled from the spec: the detection of unbounded ambiguity, "a
structural property of the automaton, independent of the specific input":
some state is reached from itself by moves without input. -/
def Fst.is_lookup_infinitely_ambiguous (t : Fst) : Bool :=
  t.states.any (fun q => decide (q ∈ t.eps_reach t.states.length [q]))

/-- Modelled from the spec: an engine over the networks `Fst` whose lookup
is `Fst.lookup` and whose test for infinite ambiguity is
`Fst.is_lookup_infinitely_ambiguous`; the input line is tokenized into its
characters, and every other primitive leaves its network as it is. -/
def fstEngine : Engine Fst where
  get_type := fun _ => ImplementationType.TROPICAL_OPENFST_TYPE
  optimize := fun a => a
  determinize := fun a => Except.ok a
  remove_epsilons := fun a => Except.ok a
  invert := fun a => Except.ok a
  output_project := fun a => Except.ok a
  input_project := fun a => Except.ok a
  repeat_star := fun a => Except.ok a
  repeat_plus := fun a => Except.ok a
  optionalize := fun a => Except.ok a
  reverse := fun a => Except.ok a
  minimize := fun a => Except.ok a
  prune := fun a => Except.ok a
  insert_freely := fun a _ => Except.ok a
  subtract := fun a _ => Except.ok a
  cross_product := fun a _ => Except.ok a
  intersect := fun a _ => Except.ok a
  compose := fun a _ => Except.ok a
  concatenate := fun a _ => Except.ok a
  disjunct := fun a _ => Except.ok a
  shuffle := fun a _ => Except.ok a
  harmonize_flag_diacritics := fun a b => (a, b)
  has_flag_diacritics := fun _ => false
  compare := fun a b => decide (a = b)
  set_name := fun a _ => a
  number_of_states := fun a => a.states.length
  number_of_arcs := fun a => a.transitions.length
  get_alphabet := fun a => a.transitions.map (fun tr => tr.input)
  transitions := fun _ => []
  extract_paths := fun _ _ _ => Except.ok []
  extract_paths_fd := fun _ _ _ => Except.ok []
  weight_text := fun _ w => toString w.bits
  get_name := fun _ => ""
  xre_compile := fun _ _ _ => none
  get_positions_of_symbol_in_xre := fun _ _ => none
  xre_define_function := fun _ _ _ => false
  strstrip := fun line => line
  get_input_symbols := fun a => a.transitions.map (fun tr => tr.input)
  tokenize_one_level := fun _ token => token.data.map (fun c => String.mk [c])
  is_lookup_infinitely_ambiguous := fun a _ _ => a.is_lookup_infinitely_ambiguous
  ol_is_lookup_infinitely_ambiguous := fun a => a.is_lookup_infinitely_ambiguous
  string_to_float := fun _ => { bits := 0 }
  uninitialised_size_t := 0
  size_t_to_uint := fun n => n
  lookup_path := fun a path cutoff _ _ => a.lookup path cutoff
  lookup_fd := fun _ _ _ => []
  lookup := fun _ _ _ => []
  empty := fun _ => { transitions := [], finals := [] }
  find_replacements := fun _ _ => Except.ok []
  insert_transducer := fun a _ _ _ => a
  of_iterable := fun a _ => a
  substitute := fun a _ _ => a

/-- A network whose start state is final, with a loop on it that consumes no
input and writes `x`, and a transition over `a` to the final state 1. -/
def loopFst : Fst :=
  { transitions := [{ source := 0, input := internal_epsilon, output := "x", target := 0 },
                    { source := 0, input := "a", output := "b", target := 1 }],
    finals := [0, 1] }

/-- A fresh session with the network `loopFst` alone on the stack. -/
def loopSession : XfstCompiler Fst :=
  { XfstCompiler.init Fst ImplementationType.TROPICAL_OPENFST_TYPE with stack_ := [loopFst] }

/-! ## A term engine

An engine whose networks are the expressions that built them, for evaluating
the commands on concrete stacks. -/

/-- The expression that built a network. -/
inductive NetExpr where
  | net (id : Nat)
  | unary (op : String) (a : NetExpr)
  | binary (op : String) (a b : NetExpr)
  deriving DecidableEq, Repr

/-- A network of the term engine: its format, whether it carries flag
diacritics, and its expression. -/
structure Net where
  type : ImplementationType
  flags : Bool
  expr : NetExpr
  name : String := ""
  deriving DecidableEq, Repr

/-- A unary primitive of the term engine. -/
def Net.un (op : String) (a : Net) : Net :=
  { a with expr := NetExpr.unary op a.expr }

/-- A binary primitive of the term engine: the receiver keeps its format. -/
def Net.bin (op : String) (a b : Net) : Net :=
  { a with flags := a.flags || b.flags, expr := NetExpr.binary op a.expr b.expr }

/-- The term engine: every primitive succeeds and records itself. -/
def termEngine : Engine Net where
  get_type := fun a => a.type
  optimize := Net.un "optimize"
  determinize := fun a => Except.ok (a.un "determinize")
  remove_epsilons := fun a => Except.ok (a.un "remove_epsilons")
  invert := fun a => Except.ok (a.un "invert")
  output_project := fun a => Except.ok (a.un "output_project")
  input_project := fun a => Except.ok (a.un "input_project")
  repeat_star := fun a => Except.ok (a.un "repeat_star")
  repeat_plus := fun a => Except.ok (a.un "repeat_plus")
  optionalize := fun a => Except.ok (a.un "optionalize")
  reverse := fun a => Except.ok (a.un "reverse")
  minimize := fun a => Except.ok (a.un "minimize")
  prune := fun a => Except.ok (a.un "prune")
  insert_freely := fun a b => Except.ok (a.bin "insert_freely" b)
  subtract := fun a b => Except.ok (a.bin "subtract" b)
  cross_product := fun a b => Except.ok (a.bin "cross_product" b)
  intersect := fun a b => Except.ok (a.bin "intersect" b)
  compose := fun a b => Except.ok (a.bin "compose" b)
  concatenate := fun a b => Except.ok (a.bin "concatenate" b)
  disjunct := fun a b => Except.ok (a.bin "disjunct" b)
  shuffle := fun a b => Except.ok (a.bin "shuffle" b)
  harmonize_flag_diacritics := fun a b => (a.un "harmonize", b.un "harmonize")
  has_flag_diacritics := fun a => a.flags
  compare := fun a b => decide (a.expr = b.expr)
  set_name := fun a n => { a with name := n }
  number_of_states := fun _ => 0
  number_of_arcs := fun _ => 0
  get_alphabet := fun _ => []
  transitions := fun _ => []
  extract_paths := fun _ _ _ => Except.ok []
  extract_paths_fd := fun _ _ _ => Except.ok []
  weight_text := fun _ w => toString w.bits
  get_name := fun a => a.name
  xre_compile := fun _ _ xre =>
    if xre = "" then none
    else some { type := ImplementationType.TROPICAL_OPENFST_TYPE, flags := false,
                expr := NetExpr.net xre.length }
  get_positions_of_symbol_in_xre := fun symbol xre =>
    some (symbol_positions symbol.data xre.data 0 false 0)
  xre_define_function := fun _ _ xre => decide (xre ≠ "!")
  strstrip := fun line => line
  get_input_symbols := fun _ => []
  tokenize_one_level := fun _ token => token.data.map (fun c => String.mk [c])
  is_lookup_infinitely_ambiguous := fun _ _ _ => false
  ol_is_lookup_infinitely_ambiguous := fun _ => false
  string_to_float := fun _ => { bits := 0 }
  uninitialised_size_t := 0
  size_t_to_uint := fun n => n
  lookup_path := fun _ path _ _ _ => [({ bits := 0 }, path.map (fun x => (x, x)))]
  lookup_fd := fun _ _ _ => []
  lookup := fun _ _ _ => []
  empty := fun type => { type := type, flags := false, expr := NetExpr.net 0 }
  find_replacements := fun _ _ => Except.ok []
  insert_transducer := fun a _ _ b => a.bin "insert_transducer" b
  of_iterable := fun a type => { a with type := type }
  substitute := fun a _ _ => a.un "substitute"

/-- The term engine with primitives that raise: `reverse` is not
implemented, `cross_product` wants automata, `compose` wants identity
flags. -/
def raisingEngine : Engine Net :=
  { termEngine with
    reverse := fun _ => Except.error HfstException.FunctionNotImplementedException
    cross_product := fun _ _ => Except.error HfstException.TransducersAreNotAutomataException
    compose := fun _ _ => Except.error HfstException.FlagDiacriticsAreNotIdentitiesException }

/-- The term engine with the alphabet `a` for every network and a regular
expression compiler that compiles nothing. -/
def refusingEngine : Engine Net :=
  { termEngine with
    get_alphabet := fun _ => ["a"]
    xre_compile := fun _ _ _ => none }

/-- The term engine for which every network is well-formed for
compile-replace, has one replacement with the path `a:b` from state 0 to
state 1, and whose compiler refuses every expression starting with a bracket
and a blank, as the cross products do. -/
def replacingEngine : Engine Net :=
  { termEngine with
    compare := fun _ _ => true
    find_replacements := fun _ _ => Except.ok [(0, [(1, [("a", "b")])])]
    xre_compile := fun defs lists xre =>
      if xre.data.take 2 = ['[', ' '] then none else termEngine.xre_compile defs lists xre }

/-- A network of the term engine in the default format, without flags. -/
def Net.mk0 (id : Nat) : Net :=
  { type := ImplementationType.TROPICAL_OPENFST_TYPE, flags := false, expr := NetExpr.net id }

/-- A network of the term engine in the `foma` format, without flags. -/
def Net.foma (id : Nat) : Net :=
  { type := ImplementationType.FOMA_TYPE, flags := false, expr := NetExpr.net id }

/-- A network of the term engine in the default format that carries flag
diacritics. -/
def Net.flagged (id : Nat) : Net :=
  { type := ImplementationType.TROPICAL_OPENFST_TYPE, flags := true, expr := NetExpr.net id }

/-- A network of the term engine in the default format with a name. -/
def Net.named (id : Nat) (name : String) : Net :=
  { type := ImplementationType.TROPICAL_OPENFST_TYPE, flags := false, expr := NetExpr.net id,
    name := name }

/-- A fresh default session of the term engine holding the given stack. -/
def session (stack : List Net) : XfstCompiler Net :=
  { XfstCompiler.init Net ImplementationType.TROPICAL_OPENFST_TYPE with stack_ := stack }

/-! ## Facts about string-keyed maps -/

theorem StrMap.get_set_self {V : Type} (m : StrMap V) (k : String) (v dflt : V) :
    StrMap.get (StrMap.set m k v) k dflt = v := by
  induction m with
  | nil => simp [StrMap.set, StrMap.get]
  | cons p rest ih =>
    obtain ⟨k', v'⟩ := p
    by_cases h : k' = k
    · simp [StrMap.set, StrMap.get, h]
    · simp [StrMap.set, StrMap.get, h, ih]

theorem StrMap.get_set_other {V : Type} (m : StrMap V) (k k2 : String) (v dflt : V)
    (hk : k2 ≠ k) : StrMap.get (StrMap.set m k v) k2 dflt = StrMap.get m k2 dflt := by
  induction m with
  | nil => simp [StrMap.set, StrMap.get, Ne.symm hk]
  | cons p rest ih =>
    obtain ⟨k', v'⟩ := p
    by_cases h : k' = k
    · subst h
      simp [StrMap.set, StrMap.get, Ne.symm hk]
    · by_cases h2 : k' = k2
      · subst h2
        simp [StrMap.set, StrMap.get, h]
      · simp [StrMap.set, StrMap.get, h, h2, ih]

/-! ## The flag-diacritic validator -/

/-- One iteration on a symbol that is no flag diacritic changes nothing. -/
theorem fd_step_plain (fd : FdOperation) (st : FdState) (sym : String)
    (h : fd.is_diacritic sym = false) : fd_step fd st sym = FdStep.next st := by
  simp [fd_step, h]

/-- One iteration on a require diacritic with a non-empty value goes on in
the same state, whatever the state is. -/
theorem fd_step_require_nonempty (fd : FdOperation) (st : FdState) (r : String)
    (hd : fd.is_diacritic r = true) (ho : fd.get_operator r = "R")
    (hv : fd.get_value r ≠ "") : fd_step fd st r = FdStep.next st := by
  have hdata : (fd.get_operator r).data = ['R'] := by rw [ho]
  simp [fd_step, hd, hdata, hv]

/-- One iteration on a require diacritic with an empty value returns `false`,
whatever the state is. -/
theorem fd_step_require_empty (fd : FdOperation) (st : FdState) (r : String)
    (hd : fd.is_diacritic r = true) (ho : fd.get_operator r = "R")
    (hv : fd.get_value r = "") : fd_step fd st r = FdStep.invalid := by
  have hdata : (fd.get_operator r).data = ['R'] := by rw [ho]
  by_cases h : st.values.get (fd.get_feature r) "" = ""
  · simp [fd_step, hd, hdata, hv, h]
  · simp [fd_step, hd, hdata, hv, h]

/-- The loop on `s ++ t` is the loop on `t` from the state `s` leaves. -/
theorem is_valid_string_from_append (fd : FdOperation) (s t : List String) :
    ∀ st st' : FdState, fd_state_after fd st s = some st' →
      is_valid_string_from fd st (s ++ t) = is_valid_string_from fd st' t := by
  induction s with
  | nil =>
    intro st st' h
    simp [fd_state_after] at h
    simp [h]
  | cons x xs ih =>
    intro st st' h
    simp only [fd_state_after] at h
    simp only [List.cons_append, is_valid_string_from]
    cases hx : fd_step fd st x with
    | next st1 =>
      rw [hx] at h
      simpa using ih st1 st' h
    | invalid => rw [hx] at h; simp at h
    | assertion => rw [hx] at h; simp at h
    | thrown => rw [hx] at h; simp at h

/-- A sequence is accepted exactly when the loop goes through all of it. -/
theorem is_valid_string_from_true_iff (fd : FdOperation) (s : List String) :
    ∀ st : FdState, is_valid_string_from fd st s = some true ↔
      ∃ st', fd_state_after fd st s = some st' := by
  induction s with
  | nil => intro st; simp [is_valid_string_from, fd_state_after]
  | cons x xs ih =>
    intro st
    simp only [is_valid_string_from, fd_state_after]
    cases hx : fd_step fd st x with
    | next st1 => simpa using ih st1
    | invalid => simp
    | assertion => simp
    | thrown => simp

/-- Once the loop has returned `false` on `s`, it returns `false` on every
extension of `s`. -/
theorem is_valid_string_from_false_append (fd : FdOperation) (s t : List String) :
    ∀ st : FdState, is_valid_string_from fd st s = some false →
      is_valid_string_from fd st (s ++ t) = some false := by
  induction s with
  | nil => intro st h; simp [is_valid_string_from] at h
  | cons x xs ih =>
    intro st h
    simp only [List.cons_append, is_valid_string_from] at h ⊢
    cases hx : fd_step fd st x with
    | next st1 =>
      rw [hx] at h
      simpa using ih st1 h
    | invalid => rfl
    | assertion => rw [hx] at h; simp at h
    | thrown => rw [hx] at h; simp at h

/-- Appending a require diacritic with a non-empty value to an accepted
sequence gives an accepted sequence, whatever the feature is bound to. -/
theorem require_nonempty_never_checked (fd : FdOperation) (s : List String) (r : String)
    (hs : is_valid_string fd s = some true)
    (hd : fd.is_diacritic r = true) (ho : fd.get_operator r = "R")
    (hv : fd.get_value r ≠ "") : is_valid_string fd (s ++ [r]) = some true := by
  obtain ⟨st', hst⟩ := (is_valid_string_from_true_iff fd s _).1 hs
  unfold is_valid_string
  rw [is_valid_string_from_append fd s [r] _ st' hst]
  simp [is_valid_string_from, fd_step_require_nonempty fd st' r hd ho hv]

/-- Appending a require diacritic with an empty value to an accepted sequence
gives a rejected sequence, whatever the feature is bound to. -/
theorem require_empty_always_fails (fd : FdOperation) (s : List String) (r : String)
    (hs : is_valid_string fd s = some true)
    (hd : fd.is_diacritic r = true) (ho : fd.get_operator r = "R")
    (hv : fd.get_value r = "") : is_valid_string fd (s ++ [r]) = some false := by
  obtain ⟨st', hst⟩ := (is_valid_string_from_true_iff fd s _).1 hs
  unfold is_valid_string
  rw [is_valid_string_from_append fd s [r] _ st' hst]
  simp [is_valid_string_from, fd_step_require_empty fd st' r hd ho hv]

/-- C2: the code at the failing inputs. `is_valid_string` accepts
`[@N.F.a@, @R.F.a@]` and `[@R.F.a@]`, although `F` is negatively bound in the
first and unbound in the second: the check of a non-empty require sits in the
`else` of the inner test of the empty-require branch and is never run for a
non-empty value. -/
theorem is_valid_string_nonempty_require_unchecked :
    is_valid_string fdOperation ["@N.F.a@", "@R.F.a@"] = some true
      ∧ is_valid_string fdOperation ["@R.F.a@"] = some true
      ∧ is_valid_string fdOperation ["@P.F.b@", "@R.F.a@"] = some true := by
  decide

/-- C3: the code at the failing input. `is_valid_string` rejects
`[@P.F.a@, @R.F@]`, although `F` is bound to the non-empty value `a`: in the
empty-require branch a bound feature falls into the misplaced `else`, whose
test `values[feat] != val` holds for every non-empty binding. -/
theorem is_valid_string_empty_require_rejects :
    is_valid_string fdOperation ["@P.F.a@", "@R.F@"] = some false
      ∧ is_valid_string fdOperation ["@P.F.a@", "@C.F@", "@R.F@"] = some false := by
  decide

/-- C4: the code at the failing input. `is_valid_string` accepts
`[@N.F.a@, @P.F.b@, @D.F.b@]`: the positive set binds `F` to `b` and leaves
`F` in `negative_values`, so the disallow of `b` sees a negatively set feature
and lets the sequence through. -/
theorem is_valid_string_positive_set_keeps_negative :
    is_valid_string fdOperation ["@N.F.a@", "@P.F.b@", "@D.F.b@"] = some true
      ∧ (fd_state_after fdOperation { values := [], negative_values := [] }
          ["@N.F.a@", "@P.F.b@"]).map (fun st => (st.values.get "F" "", st.negative_values))
        = some ("b", ["F"]) := by
  decide

/-- C5: evaluating a unify diacritic `U.F.V` in any state of the validator
succeeds exactly when `F` is unbound (its value is empty), or its value is `V`
and `F` is not in the negative set, or `F` is in the negative set and its
value differs from `V`. On success the value of `F` becomes `V`, the negative
set and the other features stay, and the loop goes on with the next symbol;
otherwise `is_valid_string` returns `false`. -/
theorem unify_step (fd : FdOperation) (st : FdState) (u F V : String) (rest : List String)
    (hd : fd.is_diacritic u = true) (ho : fd.get_operator u = "U")
    (hF : fd.get_feature u = F) (hV : fd.get_value u = V) :
    ((∃ st', fd_step fd st u = FdStep.next st') ↔
        (st.values.get F "" = ""
          ∨ (st.values.get F "" = V ∧ F ∉ st.negative_values)
          ∨ (F ∈ st.negative_values ∧ st.values.get F "" ≠ V)))
      ∧ (∀ st', fd_step fd st u = FdStep.next st' →
          st'.values.get F "" = V
            ∧ (∀ G, G ≠ F → st'.values.get G "" = st.values.get G "")
            ∧ st'.negative_values = st.negative_values
            ∧ is_valid_string_from fd st (u :: rest) = is_valid_string_from fd st' rest)
      ∧ ((¬ ∃ st', fd_step fd st u = FdStep.next st') →
          is_valid_string_from fd st (u :: rest) = some false) := by
  have hdata : (fd.get_operator u).data = ['U'] := by rw [ho]
  by_cases hok : (st.values.get F "" = ""
          ∨ (st.values.get F "" = V ∧ F ∉ st.negative_values)
          ∨ (F ∈ st.negative_values ∧ st.values.get F "" ≠ V))
  · have hstep : fd_step fd st u = FdStep.next { st with values := st.values.set F V } := by
      simp only [fd_step, hd, hdata, hF, hV]
      by_cases h1 : st.values.get F "" = "" <;> by_cases h2 : st.values.get F "" = V <;>
        by_cases h3 : F ∈ st.negative_values <;> simp_all
    refine ⟨⟨fun _ => hok, fun _ => ⟨_, hstep⟩⟩, ?_, ?_⟩
    · intro st' h
      rw [hstep] at h
      injection h with h
      subst h
      refine ⟨StrMap.get_set_self _ _ _ _, ?_, rfl, ?_⟩
      · intro G hG
        exact StrMap.get_set_other _ _ _ _ _ hG
      · simp [is_valid_string_from, hstep]
    · intro h
      exact absurd ⟨_, hstep⟩ h
  · have hstep : fd_step fd st u = FdStep.invalid := by
      simp only [fd_step, hd, hdata, hF, hV]
      by_cases h1 : st.values.get F "" = "" <;> by_cases h2 : st.values.get F "" = V <;>
        by_cases h3 : F ∈ st.negative_values <;> simp_all
    refine ⟨⟨fun h => ?_, fun h => absurd h hok⟩, ?_, ?_⟩
    · obtain ⟨st', h⟩ := h
      rw [hstep] at h
      cases h
    · intro st' h
      rw [hstep] at h
      cases h
    · intro _
      simp [is_valid_string_from, hstep]

/-- C5, at a concrete state: `F` negatively set to `a`, then `@U.F.b@`. -/
theorem unify_step_witness :
    (∃ st', fd_step fdOperation { values := [("F", "a")], negative_values := ["F"] } "@U.F.b@"
        = FdStep.next st') ↔
      (StrMap.get [("F", "a")] "F" "" = ""
        ∨ (StrMap.get [("F", "a")] "F" "" = "b" ∧ "F" ∉ ["F"])
        ∨ ("F" ∈ ["F"] ∧ StrMap.get [("F", "a")] "F" "" ≠ "b")) :=
  (unify_step fdOperation { values := [("F", "a")], negative_values := ["F"] } "@U.F.b@" "F" "b"
    [] (by decide) (by decide) (by decide) (by decide)).1

/-- C6: evaluating a disallow diacritic `D.F.V` in any state of the validator
makes `is_valid_string` return `false` exactly when, for `V` empty, `F` has a
non-empty value, and for `V` non-empty, the value of `F` is `V` and `F` is not
in the negative set; otherwise the loop goes on in the same state. In
particular a positive set of a non-empty value followed by the disallow of
that value is rejected. -/
theorem disallow_step (fd : FdOperation) (st : FdState) (d F V : String) (rest : List String)
    (hd : fd.is_diacritic d = true) (ho : fd.get_operator d = "D")
    (hF : fd.get_feature d = F) (hV : fd.get_value d = V) :
    (V = "" → (fd_step fd st d = FdStep.invalid ↔ st.values.get F "" ≠ ""))
      ∧ (V ≠ "" → (fd_step fd st d = FdStep.invalid ↔
          (st.values.get F "" = V ∧ F ∉ st.negative_values)))
      ∧ (fd_step fd st d = FdStep.invalid →
          is_valid_string_from fd st (d :: rest) = some false)
      ∧ (fd_step fd st d ≠ FdStep.invalid →
          fd_step fd st d = FdStep.next st
            ∧ is_valid_string_from fd st (d :: rest) = is_valid_string_from fd st rest)
      ∧ (∀ p, fd.is_diacritic p = true → fd.get_operator p = "P" → fd.get_feature p = F →
          fd.get_value p = V → V ≠ "" → is_valid_string fd [p, d] = some false) := by
  have hdata : (fd.get_operator d).data = ['D'] := by rw [ho]
  have hcases : fd_step fd st d = FdStep.invalid ∨ fd_step fd st d = FdStep.next st := by
    simp only [fd_step, hd, hdata, hF, hV]
    by_cases h1 : V = "" <;> by_cases h2 : st.values.get F "" = V <;>
      by_cases h3 : F ∈ st.negative_values <;> simp_all
  refine ⟨?_, ?_, ?_, ?_, ?_⟩
  · intro hempty
    simp only [fd_step, hd, hdata, hF, hV]
    by_cases h2 : st.values.get F "" = "" <;> simp [hempty, h2]
  · intro hne
    simp only [fd_step, hd, hdata, hF, hV]
    by_cases h2 : st.values.get F "" = V <;> by_cases h3 : F ∈ st.negative_values <;>
      simp [hne, h2, h3]
  · intro h
    simp [is_valid_string_from, h]
  · intro h
    rcases hcases with h' | h'
    · exact absurd h' h
    · exact ⟨h', by simp [is_valid_string_from, h']⟩
  · intro p hp hpo hpF hpV hne
    have hpdata : (fd.get_operator p).data = ['P'] := by rw [hpo]
    have h1 : fd_step fd { values := [], negative_values := [] } p
        = FdStep.next { values := StrMap.set [] F V, negative_values := [] } := by
      simp [fd_step, hp, hpdata, hpF, hpV]
    have h2 : fd_step fd { values := StrMap.set [] F V, negative_values := [] } d
        = FdStep.invalid := by
      simp [fd_step, hd, hdata, hF, hV, hne, StrMap.set, StrMap.get]
    simp [is_valid_string, is_valid_string_from, h1, h2]

/-- C6, at a concrete input: `[@P.F.a@, @D.F.a@]` is rejected. -/
theorem disallow_step_witness :
    is_valid_string fdOperation ["@P.F.a@", "@D.F.a@"] = some false :=
  (disallow_step fdOperation { values := [], negative_values := [] } "@D.F.a@" "F" "a" []
    (by decide) (by decide) (by decide) (by decide)).2.2.2.2 "@P.F.a@"
    (by decide) (by decide) (by decide) (by decide) (by decide)

/-- C7: validity under `is_valid_string` is prefix-closed: when
`is_valid_string` returns `false` on `s`, it returns `false` on `s ++ t` for
every `t`. -/
theorem is_valid_string_prefix_closed (fd : FdOperation) (s t : List String)
    (h : is_valid_string fd s = some false) : is_valid_string fd (s ++ t) = some false :=
  is_valid_string_from_false_append fd s t _ h

/-- C7, at a concrete input: the rejected `[@P.F.a@, @D.F.a@]` stays rejected
when a clear and a positive set follow. -/
theorem is_valid_string_prefix_closed_witness :
    is_valid_string fdOperation ["@P.F.a@", "@D.F.a@"] = some false
      ∧ is_valid_string fdOperation (["@P.F.a@", "@D.F.a@"] ++ ["@C.F@", "@P.F.b@"])
        = some false :=
  ⟨by decide,
    is_valid_string_prefix_closed fdOperation ["@P.F.a@", "@D.F.a@"] ["@C.F@", "@P.F.b@"]
      (by decide)⟩

/-! ## What the output helpers leave alone -/

section helpers

variable {T : Type}

@[simp] theorem ERROR_stack (s : XfstCompiler T) (x : String) : (s.ERROR x).stack_ = s.stack_ :=
  rfl

@[simp] theorem ERROR_error (s : XfstCompiler T) (x : String) :
    (s.ERROR x).error_ = s.error_ ++ [x ++ "\n"] := rfl

@[simp] theorem ERROR_var (s : XfstCompiler T) (x n : String) : (s.ERROR x).var n = s.var n :=
  rfl

@[simp] theorem ERROR_verbose (s : XfstCompiler T) (x : String) :
    (s.ERROR x).verbose_ = s.verbose_ := rfl

@[simp] theorem OUTPUT_stack (s : XfstCompiler T) (x : String) :
    (s.OUTPUT x).stack_ = s.stack_ := rfl

@[simp] theorem OUTPUT_error (s : XfstCompiler T) (x : String) :
    (s.OUTPUT x).error_ = s.error_ := rfl

@[simp] theorem OUTPUT_LINE_stack (s : XfstCompiler T) (x : String) :
    (s.OUTPUT_LINE x).stack_ = s.stack_ := rfl

@[simp] theorem OUTPUT_LINE_error (s : XfstCompiler T) (x : String) :
    (s.OUTPUT_LINE x).error_ = s.error_ := rfl

@[simp] theorem xfst_fail_stack (s : XfstCompiler T) : s.xfst_fail.stack_ = s.stack_ := by
  unfold XfstCompiler.xfst_fail
  split <;> rfl

@[simp] theorem xfst_fail_error (s : XfstCompiler T) : s.xfst_fail.error_ = s.error_ := by
  unfold XfstCompiler.xfst_fail
  split <;> rfl

@[simp] theorem xfst_lesser_fail_stack (s : XfstCompiler T) :
    s.xfst_lesser_fail.stack_ = s.stack_ := by
  unfold XfstCompiler.xfst_lesser_fail
  split <;> rfl

@[simp] theorem xfst_lesser_fail_error (s : XfstCompiler T) :
    s.xfst_lesser_fail.error_ = s.error_ := by
  unfold XfstCompiler.xfst_lesser_fail
  split <;> rfl

@[simp] theorem prompt_stack (s : XfstCompiler T) : s.prompt.stack_ = s.stack_ := by
  unfold XfstCompiler.prompt
  split <;> rfl

@[simp] theorem prompt_error (s : XfstCompiler T) : s.prompt.error_ = s.error_ := by
  unfold XfstCompiler.prompt
  split <;> rfl

@[simp] theorem print_alphabet_stack (s : XfstCompiler T) (alpha : List String)
    (unknown identity : Bool) : (s.print_alphabet alpha unknown identity).stack_ = s.stack_ := by
  unfold XfstCompiler.print_alphabet
  simp only [OUTPUT_stack, OUTPUT_LINE_stack]
  split
  · split <;> split <;> simp
  · split <;> simp

/-- The function `top` changes no network of the stack. -/
@[simp] theorem top_stack (E : Engine T) (s : XfstCompiler T) (silent : Bool) :
    (s.top E silent).1.stack_ = s.stack_ := by
  unfold XfstCompiler.top
  split
  · cases silent <;> simp [XfstCompiler.EMPTY_STACK]
  · split
    · cases silent <;> simp
    · rfl

/-- On an empty stack `top` returns `NULL`, and unless silent writes
`Empty stack.` on the error stream. -/
theorem top_empty (E : Engine T) (s : XfstCompiler T) (h : s.stack_ = []) :
    (s.top E false).2 = none ∧ (s.top E false).1.error_ = s.error_ ++ ["Empty stack.\n"] := by
  unfold XfstCompiler.top
  rw [h]
  simp [XfstCompiler.EMPTY_STACK]

/-- On a stack whose top is not in a lookup-optimized format `top` returns
the top and changes nothing. -/
theorem top_some (E : Engine T) (s : XfstCompiler T) (t : T) (rest : List T)
    (h : s.stack_ = t :: rest) (h1 : E.get_type t ≠ ImplementationType.HFST_OL_TYPE)
    (h2 : E.get_type t ≠ ImplementationType.HFST_OLW_TYPE) : s.top E false = (s, some t) := by
  unfold XfstCompiler.top
  rw [h]
  simp [h1, h2]

@[simp] theorem print_sigma_stack (E : Engine T) (s : XfstCompiler T) (prompt : Bool) :
    (s.print_sigma E prompt).stack_ = s.stack_ := by
  unfold XfstCompiler.print_sigma
  have h := top_stack E s false
  split
  · rename_i s1 heq
    rw [heq] at h
    simpa using h
  · rename_i s1 t heq
    rw [heq] at h
    cases prompt <;> simpa using h

@[simp] theorem print_transducer_info_stack (E : Engine T) (s : XfstCompiler T) :
    (s.print_transducer_info E).stack_ = s.stack_ := by
  unfold XfstCompiler.print_transducer_info
  split
  · split
    · rfl
    · split
      · rfl
      · simp only []
        split <;> simp
  · rfl

@[simp] theorem pop_stack (s : XfstCompiler T) : s.pop.stack_ = s.stack_.tail := by
  unfold XfstCompiler.pop
  split
  · rename_i h
    simp [h]
  · rename_i h
    simp [h]

end helpers

/-! ## Stack underflow -/

/-- C1: each of `apply_unary_operation` (one network needed),
`apply_binary_operation`, `apply_binary_operation_iteratively`, `test_eq` (two
needed), `define` from the stack and `print_words` without a name (one
needed), called on a stack that holds fewer networks than it needs, returns
normally, writes its message on the error stream and leaves the stack as it
was. -/
theorem stack_underflow_keeps_stack {T : Type} (fd : FdOperation) (E : Engine T)
    (s : XfstCompiler T) :
    (s.stack_.length < 1 → ∀ op, ∃ s', s.apply_unary_operation E op = Except.ok s'
        ∧ s'.stack_ = s.stack_ ∧ s'.error_ = s.error_ ++ ["Empty stack.\n"])
      ∧ (s.stack_.length < 2 → ∀ op, ∃ s', s.apply_binary_operation E op = Except.ok s'
        ∧ s'.stack_ = s.stack_
        ∧ s'.error_ = s.error_
            ++ ["Not enough networks on stack. Operation requires at least 2.\n"])
      ∧ (s.stack_.length < 2 → ∀ op, ∃ s',
          s.apply_binary_operation_iteratively E op = Except.ok s'
        ∧ s'.stack_ = s.stack_
        ∧ s'.error_ = s.error_
            ++ ["Not enough networks on stack. Operation requires at least 2.\n"])
      ∧ (s.stack_.length < 2 → ∀ assertion, (s.test_eq E assertion).stack_ = s.stack_
        ∧ (s.test_eq E assertion).error_ = s.error_
            ++ ["Not enough networks on stack.\n", "Operation requires at least 2.\n"])
      ∧ (s.stack_.length < 1 → ∀ name, (s.define E name).stack_ = s.stack_
        ∧ (s.define E name).error_ = s.error_ ++ ["Empty stack.\n"])
      ∧ (s.stack_.length < 1 → ∀ number level, ∃ s',
          s.print_words fd E none number level = Except.ok s'
        ∧ s'.stack_ = s.stack_ ∧ s'.error_ = s.error_ ++ ["Empty stack.\n"]) := by
  have hnil : s.stack_.length < 1 → s.top E false = ((s.top E false).1, none)
      ∧ (s.top E false).1.error_ = s.error_ ++ ["Empty stack.\n"] := by
    intro h
    have h0 : s.stack_ = [] := List.length_eq_zero.mp (by omega)
    obtain ⟨hn, he⟩ := top_empty E s h0
    exact ⟨Prod.ext rfl hn, he⟩
  refine ⟨?_, ?_, ?_, ?_, ?_, ?_⟩
  · intro h op
    obtain ⟨htop, herr⟩ := hnil h
    refine ⟨(s.top E false).1.xfst_lesser_fail, ?_, by simp, by simp [herr]⟩
    unfold XfstCompiler.apply_unary_operation
    rw [htop]
  · intro h op
    unfold XfstCompiler.apply_binary_operation
    split
    · rename_i heq
      rw [heq] at h
      simp only [List.length_cons] at h
      omega
    · exact ⟨_, rfl, by simp, by simp⟩
  · intro h op
    unfold XfstCompiler.apply_binary_operation_iteratively
    split
    · rename_i heq
      rw [heq] at h
      simp only [List.length_cons] at h
      omega
    · exact ⟨_, rfl, by simp, by simp⟩
  · intro h assertion
    unfold XfstCompiler.test_eq
    split
    · rename_i heq
      rw [heq] at h
      simp only [List.length_cons] at h
      omega
    · exact ⟨by simp, by simp⟩
  · intro h name
    obtain ⟨htop, herr⟩ := hnil h
    unfold XfstCompiler.define
    rw [htop]
    exact ⟨by simp, by simp [herr]⟩
  · intro h number level
    obtain ⟨htop, herr⟩ := hnil h
    refine ⟨(s.top E false).1, ?_, by simp, herr⟩
    unfold XfstCompiler.print_words
    simp only []
    rw [htop]

/-- C1, at a concrete session: `apply_binary_operation` on a stack of one
network. -/
theorem stack_underflow_keeps_stack_witness :
    (session [Net.mk0 1]).stack_.length < 2
      ∧ ∃ s', (session [Net.mk0 1]).apply_binary_operation termEngine BinaryOperation.MINUS_NET
          = Except.ok s'
        ∧ s'.stack_ = (session [Net.mk0 1]).stack_
        ∧ s'.error_ = (session [Net.mk0 1]).error_
            ++ ["Not enough networks on stack. Operation requires at least 2.\n"] :=
  ⟨by decide,
    (stack_underflow_keeps_stack fdOperation termEngine (session [Net.mk0 1])).2.1 (by decide)
      BinaryOperation.MINUS_NET⟩

/-! ## Unary operations -/

/-- What `apply_unary_operation` does when its switch returns `t'` for the
top `t`: the top becomes `t'`, optimized unless the operation is determinize,
minimize or epsilon removal. -/
theorem apply_unary_operation_of_switch {T : Type} (E : Engine T) (s : XfstCompiler T)
    (op : UnaryOperation) (t t' : T) (rest : List T)
    (hs : s.stack_ = t :: rest)
    (h1 : E.get_type t ≠ ImplementationType.HFST_OL_TYPE)
    (h2 : E.get_type t ≠ ImplementationType.HFST_OLW_TYPE)
    (hop : unary_switch E op t = Except.ok t') :
    ∃ s', s.apply_unary_operation E op = Except.ok s'
      ∧ s'.stack_ =
          (if op = UnaryOperation.DETERMINIZE_NET ∨ op = UnaryOperation.MINIMIZE_NET
              ∨ op = UnaryOperation.EPSILON_REMOVE_NET then t'
            else E.optimize t') :: rest
      ∧ s'.stack_.length = s.stack_.length := by
  unfold XfstCompiler.apply_unary_operation
  rw [top_some E s t rest hs h1 h2]
  simp only [hop]
  refine ⟨_, rfl, ?_, ?_⟩
  · cases op <;> simp [hs]
  · simp [hs]

/-- C8: on a stack whose top `t` is not in a lookup-optimized format,
`apply_unary_operation` runs the engine primitive of its operation on `t`:
`determinize`, `remove_epsilons`, `invert`, `output_project` (lower side),
`input_project` (upper side), `repeat_star`, `repeat_plus`, `optionalize`,
`reverse`, `minimize` or `prune`. When that primitive returns `t'`, the
command returns normally, the networks below the top and the depth of the
stack are as before, and the top is `t'` itself for determinize, epsilon
removal and minimize, and `optimize t'` for the eight other operations. -/
theorem apply_unary_operation_replaces_top {T : Type} (E : Engine T) (s : XfstCompiler T)
    (t : T) (rest : List T) (hs : s.stack_ = t :: rest)
    (h1 : E.get_type t ≠ ImplementationType.HFST_OL_TYPE)
    (h2 : E.get_type t ≠ ImplementationType.HFST_OLW_TYPE) :
    (∀ t', E.determinize t = Except.ok t' →
        ∃ s', s.apply_unary_operation E UnaryOperation.DETERMINIZE_NET = Except.ok s'
          ∧ s'.stack_ = t' :: rest ∧ s'.stack_.length = s.stack_.length)
      ∧ (∀ t', E.remove_epsilons t = Except.ok t' →
        ∃ s', s.apply_unary_operation E UnaryOperation.EPSILON_REMOVE_NET = Except.ok s'
          ∧ s'.stack_ = t' :: rest ∧ s'.stack_.length = s.stack_.length)
      ∧ (∀ t', E.minimize t = Except.ok t' →
        ∃ s', s.apply_unary_operation E UnaryOperation.MINIMIZE_NET = Except.ok s'
          ∧ s'.stack_ = t' :: rest ∧ s'.stack_.length = s.stack_.length)
      ∧ (∀ t', E.invert t = Except.ok t' →
        ∃ s', s.apply_unary_operation E UnaryOperation.INVERT_NET = Except.ok s'
          ∧ s'.stack_ = E.optimize t' :: rest ∧ s'.stack_.length = s.stack_.length)
      ∧ (∀ t', E.output_project t = Except.ok t' →
        ∃ s', s.apply_unary_operation E UnaryOperation.LOWER_SIDE_NET = Except.ok s'
          ∧ s'.stack_ = E.optimize t' :: rest ∧ s'.stack_.length = s.stack_.length)
      ∧ (∀ t', E.input_project t = Except.ok t' →
        ∃ s', s.apply_unary_operation E UnaryOperation.UPPER_SIDE_NET = Except.ok s'
          ∧ s'.stack_ = E.optimize t' :: rest ∧ s'.stack_.length = s.stack_.length)
      ∧ (∀ t', E.repeat_star t = Except.ok t' →
        ∃ s', s.apply_unary_operation E UnaryOperation.ZERO_PLUS_NET = Except.ok s'
          ∧ s'.stack_ = E.optimize t' :: rest ∧ s'.stack_.length = s.stack_.length)
      ∧ (∀ t', E.repeat_plus t = Except.ok t' →
        ∃ s', s.apply_unary_operation E UnaryOperation.ONE_PLUS_NET = Except.ok s'
          ∧ s'.stack_ = E.optimize t' :: rest ∧ s'.stack_.length = s.stack_.length)
      ∧ (∀ t', E.optionalize t = Except.ok t' →
        ∃ s', s.apply_unary_operation E UnaryOperation.OPTIONAL_NET = Except.ok s'
          ∧ s'.stack_ = E.optimize t' :: rest ∧ s'.stack_.length = s.stack_.length)
      ∧ (∀ t', E.reverse t = Except.ok t' →
        ∃ s', s.apply_unary_operation E UnaryOperation.REVERSE_NET = Except.ok s'
          ∧ s'.stack_ = E.optimize t' :: rest ∧ s'.stack_.length = s.stack_.length)
      ∧ (∀ t', E.prune t = Except.ok t' →
        ∃ s', s.apply_unary_operation E UnaryOperation.PRUNE_NET_ = Except.ok s'
          ∧ s'.stack_ = E.optimize t' :: rest ∧ s'.stack_.length = s.stack_.length) := by
  refine ⟨?_, ?_, ?_, ?_, ?_, ?_, ?_, ?_, ?_, ?_, ?_⟩
  · intro t' h
    obtain ⟨s', hrun, hst, hlen⟩ := apply_unary_operation_of_switch E s
      UnaryOperation.DETERMINIZE_NET t t' rest hs h1 h2 h
    exact ⟨s', hrun, by simpa using hst, hlen⟩
  · intro t' h
    obtain ⟨s', hrun, hst, hlen⟩ := apply_unary_operation_of_switch E s
      UnaryOperation.EPSILON_REMOVE_NET t t' rest hs h1 h2 h
    exact ⟨s', hrun, by simpa using hst, hlen⟩
  · intro t' h
    obtain ⟨s', hrun, hst, hlen⟩ := apply_unary_operation_of_switch E s
      UnaryOperation.MINIMIZE_NET t t' rest hs h1 h2 h
    exact ⟨s', hrun, by simpa using hst, hlen⟩
  · intro t' h
    obtain ⟨s', hrun, hst, hlen⟩ := apply_unary_operation_of_switch E s
      UnaryOperation.INVERT_NET t t' rest hs h1 h2 h
    exact ⟨s', hrun, by simpa using hst, hlen⟩
  · intro t' h
    obtain ⟨s', hrun, hst, hlen⟩ := apply_unary_operation_of_switch E s
      UnaryOperation.LOWER_SIDE_NET t t' rest hs h1 h2 h
    exact ⟨s', hrun, by simpa using hst, hlen⟩
  · intro t' h
    obtain ⟨s', hrun, hst, hlen⟩ := apply_unary_operation_of_switch E s
      UnaryOperation.UPPER_SIDE_NET t t' rest hs h1 h2 h
    exact ⟨s', hrun, by simpa using hst, hlen⟩
  · intro t' h
    obtain ⟨s', hrun, hst, hlen⟩ := apply_unary_operation_of_switch E s
      UnaryOperation.ZERO_PLUS_NET t t' rest hs h1 h2 h
    exact ⟨s', hrun, by simpa using hst, hlen⟩
  · intro t' h
    obtain ⟨s', hrun, hst, hlen⟩ := apply_unary_operation_of_switch E s
      UnaryOperation.ONE_PLUS_NET t t' rest hs h1 h2 h
    exact ⟨s', hrun, by simpa using hst, hlen⟩
  · intro t' h
    obtain ⟨s', hrun, hst, hlen⟩ := apply_unary_operation_of_switch E s
      UnaryOperation.OPTIONAL_NET t t' rest hs h1 h2 h
    exact ⟨s', hrun, by simpa using hst, hlen⟩
  · intro t' h
    obtain ⟨s', hrun, hst, hlen⟩ := apply_unary_operation_of_switch E s
      UnaryOperation.REVERSE_NET t t' rest hs h1 h2 h
    exact ⟨s', hrun, by simpa using hst, hlen⟩
  · intro t' h
    obtain ⟨s', hrun, hst, hlen⟩ := apply_unary_operation_of_switch E s
      UnaryOperation.PRUNE_NET_ t t' rest hs h1 h2 h
    exact ⟨s', hrun, by simpa using hst, hlen⟩

/-- C8, at a concrete session: each of the eleven operations on the stack
`[1, 2]` of the term engine. -/
theorem apply_unary_operation_replaces_top_witness :
    (∃ s', (session [Net.mk0 1, Net.mk0 2]).apply_unary_operation termEngine
          UnaryOperation.DETERMINIZE_NET = Except.ok s'
        ∧ s'.stack_ = (Net.mk0 1).un "determinize" :: [Net.mk0 2]
        ∧ s'.stack_.length = (session [Net.mk0 1, Net.mk0 2]).stack_.length)
      ∧ (∃ s', (session [Net.mk0 1, Net.mk0 2]).apply_unary_operation termEngine
          UnaryOperation.EPSILON_REMOVE_NET = Except.ok s'
        ∧ s'.stack_ = (Net.mk0 1).un "remove_epsilons" :: [Net.mk0 2]
        ∧ s'.stack_.length = (session [Net.mk0 1, Net.mk0 2]).stack_.length)
      ∧ (∃ s', (session [Net.mk0 1, Net.mk0 2]).apply_unary_operation termEngine
          UnaryOperation.MINIMIZE_NET = Except.ok s'
        ∧ s'.stack_ = (Net.mk0 1).un "minimize" :: [Net.mk0 2]
        ∧ s'.stack_.length = (session [Net.mk0 1, Net.mk0 2]).stack_.length)
      ∧ (∃ s', (session [Net.mk0 1, Net.mk0 2]).apply_unary_operation termEngine
          UnaryOperation.INVERT_NET = Except.ok s'
        ∧ s'.stack_ = termEngine.optimize ((Net.mk0 1).un "invert") :: [Net.mk0 2]
        ∧ s'.stack_.length = (session [Net.mk0 1, Net.mk0 2]).stack_.length)
      ∧ (∃ s', (session [Net.mk0 1, Net.mk0 2]).apply_unary_operation termEngine
          UnaryOperation.LOWER_SIDE_NET = Except.ok s'
        ∧ s'.stack_ = termEngine.optimize ((Net.mk0 1).un "output_project") :: [Net.mk0 2]
        ∧ s'.stack_.length = (session [Net.mk0 1, Net.mk0 2]).stack_.length)
      ∧ (∃ s', (session [Net.mk0 1, Net.mk0 2]).apply_unary_operation termEngine
          UnaryOperation.UPPER_SIDE_NET = Except.ok s'
        ∧ s'.stack_ = termEngine.optimize ((Net.mk0 1).un "input_project") :: [Net.mk0 2]
        ∧ s'.stack_.length = (session [Net.mk0 1, Net.mk0 2]).stack_.length)
      ∧ (∃ s', (session [Net.mk0 1, Net.mk0 2]).apply_unary_operation termEngine
          UnaryOperation.ZERO_PLUS_NET = Except.ok s'
        ∧ s'.stack_ = termEngine.optimize ((Net.mk0 1).un "repeat_star") :: [Net.mk0 2]
        ∧ s'.stack_.length = (session [Net.mk0 1, Net.mk0 2]).stack_.length)
      ∧ (∃ s', (session [Net.mk0 1, Net.mk0 2]).apply_unary_operation termEngine
          UnaryOperation.ONE_PLUS_NET = Except.ok s'
        ∧ s'.stack_ = termEngine.optimize ((Net.mk0 1).un "repeat_plus") :: [Net.mk0 2]
        ∧ s'.stack_.length = (session [Net.mk0 1, Net.mk0 2]).stack_.length)
      ∧ (∃ s', (session [Net.mk0 1, Net.mk0 2]).apply_unary_operation termEngine
          UnaryOperation.OPTIONAL_NET = Except.ok s'
        ∧ s'.stack_ = termEngine.optimize ((Net.mk0 1).un "optionalize") :: [Net.mk0 2]
        ∧ s'.stack_.length = (session [Net.mk0 1, Net.mk0 2]).stack_.length)
      ∧ (∃ s', (session [Net.mk0 1, Net.mk0 2]).apply_unary_operation termEngine
          UnaryOperation.REVERSE_NET = Except.ok s'
        ∧ s'.stack_ = termEngine.optimize ((Net.mk0 1).un "reverse") :: [Net.mk0 2]
        ∧ s'.stack_.length = (session [Net.mk0 1, Net.mk0 2]).stack_.length)
      ∧ (∃ s', (session [Net.mk0 1, Net.mk0 2]).apply_unary_operation termEngine
          UnaryOperation.PRUNE_NET_ = Except.ok s'
        ∧ s'.stack_ = termEngine.optimize ((Net.mk0 1).un "prune") :: [Net.mk0 2]
        ∧ s'.stack_.length = (session [Net.mk0 1, Net.mk0 2]).stack_.length) :=
  ⟨(apply_unary_operation_replaces_top termEngine (session [Net.mk0 1, Net.mk0 2]) (Net.mk0 1)
      [Net.mk0 2] rfl (by decide) (by decide)).1 _ rfl,
    (apply_unary_operation_replaces_top termEngine (session [Net.mk0 1, Net.mk0 2]) (Net.mk0 1)
      [Net.mk0 2] rfl (by decide) (by decide)).2.1 _ rfl,
    (apply_unary_operation_replaces_top termEngine (session [Net.mk0 1, Net.mk0 2]) (Net.mk0 1)
      [Net.mk0 2] rfl (by decide) (by decide)).2.2.1 _ rfl,
    (apply_unary_operation_replaces_top termEngine (session [Net.mk0 1, Net.mk0 2]) (Net.mk0 1)
      [Net.mk0 2] rfl (by decide) (by decide)).2.2.2.1 _ rfl,
    (apply_unary_operation_replaces_top termEngine (session [Net.mk0 1, Net.mk0 2]) (Net.mk0 1)
      [Net.mk0 2] rfl (by decide) (by decide)).2.2.2.2.1 _ rfl,
    (apply_unary_operation_replaces_top termEngine (session [Net.mk0 1, Net.mk0 2]) (Net.mk0 1)
      [Net.mk0 2] rfl (by decide) (by decide)).2.2.2.2.2.1 _ rfl,
    (apply_unary_operation_replaces_top termEngine (session [Net.mk0 1, Net.mk0 2]) (Net.mk0 1)
      [Net.mk0 2] rfl (by decide) (by decide)).2.2.2.2.2.2.1 _ rfl,
    (apply_unary_operation_replaces_top termEngine (session [Net.mk0 1, Net.mk0 2]) (Net.mk0 1)
      [Net.mk0 2] rfl (by decide) (by decide)).2.2.2.2.2.2.2.1 _ rfl,
    (apply_unary_operation_replaces_top termEngine (session [Net.mk0 1, Net.mk0 2]) (Net.mk0 1)
      [Net.mk0 2] rfl (by decide) (by decide)).2.2.2.2.2.2.2.2.1 _ rfl,
    (apply_unary_operation_replaces_top termEngine (session [Net.mk0 1, Net.mk0 2]) (Net.mk0 1)
      [Net.mk0 2] rfl (by decide) (by decide)).2.2.2.2.2.2.2.2.2.1 _ rfl,
    (apply_unary_operation_replaces_top termEngine (session [Net.mk0 1, Net.mk0 2]) (Net.mk0 1)
      [Net.mk0 2] rfl (by decide) (by decide)).2.2.2.2.2.2.2.2.2.2 _ rfl⟩

/-! ## The fold over the stack -/

/-- The loop of `apply_binary_operation_iteratively` on a stack `mid ++ tail`
whose part `mid` shares the format of the running result, and whose part
`tail` is empty or starts with a network of another format: when the switch
returns `f result t` on every pair and `f` keeps the format of its first
argument, the loop combines the running result with the networks of `mid` from
the top down and stops with `tail` left on the stack. -/
theorem fold_loop_prefix {T : Type} (E : Engine T) (op : BinaryOperation) (off : Bool)
    (f : T → T → T) (hf : ∀ a b, fold_switch E off op a b = Except.ok (f a b))
    (hpres : ∀ a b, E.get_type (f a b) = E.get_type a) :
    ∀ (mid tail : List T) (s : XfstCompiler T) (result : T),
      decide (s.var "harmonize-flags" = "OFF") = off →
      (∀ x ∈ mid, E.get_type x = E.get_type result) →
      (∀ b below, tail = b :: below → E.get_type b ≠ E.get_type result) →
      ∃ s', fold_loop E op s result (mid ++ tail)
          = Except.ok (FoldExit.done s' (mid.foldl f result))
        ∧ s'.stack_ = tail := by
  intro mid
  induction mid with
  | nil =>
    intro tail s result _ _ htail
    cases tail with
    | nil => exact ⟨{ s with stack_ := [] }, by simp [fold_loop], rfl⟩
    | cons b below =>
      have hb := htail b below rfl
      exact ⟨(({ s with stack_ := b :: below }).ERROR
        "Stack contains transducers whose type differs.").xfst_lesser_fail,
        by simp [fold_loop, hb], by simp⟩
  | cons t mid ih =>
    intro tail s result hoff hmid htail
    have ht : E.get_type t = E.get_type result := hmid t (by simp)
    have hmid' : ∀ x ∈ mid, E.get_type x = E.get_type (f result t) := by
      intro x hx
      rw [hpres]
      exact hmid x (by simp [hx])
    have htail' : ∀ b below, tail = b :: below → E.get_type b ≠ E.get_type (f result t) := by
      intro b below hb
      rw [hpres]
      exact htail b below hb
    have hstep := hf result t
    simp only [List.cons_append, List.foldl_cons]
    cases op with
    | INTERSECT_NET =>
      simp only [fold_switch] at hstep
      obtain ⟨s', h, hs'⟩ := ih tail s (f result t) hoff hmid' htail'
      exact ⟨s', by simp [fold_loop, ht, hstep, h], hs'⟩
    | IGNORE_NET =>
      simp only [fold_switch] at hstep
      obtain ⟨s', h, hs'⟩ := ih tail s (f result t) hoff hmid' htail'
      exact ⟨s', by simp [fold_loop, ht, hstep, h], hs'⟩
    | COMPOSE_NET =>
      simp only [fold_switch] at hstep
      by_cases hv : (E.has_flag_diacritics result && E.has_flag_diacritics t
          && off && s.verbose_) = true
      · obtain ⟨s', h, hs'⟩ := ih tail
          (s.ERROR "Both composition arguments contain flag diacritics. Set harmonize-flags ON to harmonize them.")
          (f result t) (by simpa using hoff) hmid' htail'
        refine ⟨s', ?_, hs'⟩
        rw [fold_loop]
        simp only [ht, ne_eq, not_true_eq_false, if_false, hoff, hstep]
        rw [if_pos hv]
        exact h
      · obtain ⟨s', h, hs'⟩ := ih tail s (f result t) hoff hmid' htail'
        refine ⟨s', ?_, hs'⟩
        rw [fold_loop]
        simp only [ht, ne_eq, not_true_eq_false, if_false, hoff, hstep]
        rw [if_neg hv]
        exact h
    | CONCATENATE_NET =>
      simp only [fold_switch] at hstep
      obtain ⟨s', h, hs'⟩ := ih tail s (f result t) hoff hmid' htail'
      exact ⟨s', by simp [fold_loop, ht, hstep, h], hs'⟩
    | MINUS_NET =>
      simp only [fold_switch] at hstep
      injection hstep with hstep
      obtain ⟨s', h, hs'⟩ := ih tail (s.ERROR "ERROR: unknown binary operation") (f result t)
        (by simpa using hoff) hmid' htail'
      refine ⟨s', ?_, hs'⟩
      rw [← hstep] at h
      simp [fold_loop, ht, h, ← hstep]
    | UNION_NET =>
      simp only [fold_switch] at hstep
      obtain ⟨s', h, hs'⟩ := ih tail s (f result t) hoff hmid' htail'
      exact ⟨s', by simp [fold_loop, ht, hstep, h], hs'⟩
    | SHUFFLE_NET =>
      simp only [fold_switch] at hstep
      obtain ⟨s', h, hs'⟩ := ih tail s (f result t) hoff hmid' htail'
      exact ⟨s', by simp [fold_loop, ht, hstep, h], hs'⟩
    | CROSSPRODUCT_NET =>
      simp only [fold_switch] at hstep
      injection hstep with hstep
      obtain ⟨s', h, hs'⟩ := ih tail (s.ERROR "ERROR: unknown binary operation") (f result t)
        (by simpa using hoff) hmid' htail'
      refine ⟨s', ?_, hs'⟩
      rw [← hstep] at h
      simp [fold_loop, ht, h, ← hstep]

/-- A fold with a function that keeps the format of its first argument ends
in the format it started from. -/
theorem foldl_get_type {T : Type} (E : Engine T) (f : T → T → T)
    (hpres : ∀ a b, E.get_type (f a b) = E.get_type a) (l : List T) :
    ∀ a, E.get_type (l.foldl f a) = E.get_type a := by
  induction l with
  | nil => intro a; rfl
  | cons x xs ih =>
    intro a
    rw [List.foldl_cons, ih, hpres]

/-- C9: on a stack of at least two networks that all share one format, with
an operation whose switch returns `f result t` for every pair without raising
and keeps the format of `result`, `apply_binary_operation_iteratively` returns
normally and leaves exactly one network: `optimize` of the left fold of `f`
that starts from the top and takes the other networks from the top down. -/
theorem apply_binary_operation_iteratively_folds {T : Type} (E : Engine T)
    (s : XfstCompiler T) (op : BinaryOperation) (f : T → T → T) (top : T) (rest : List T)
    (hs : s.stack_ = top :: rest) (hn : rest ≠ [])
    (hfmt : ∀ x ∈ rest, E.get_type x = E.get_type top)
    (hf : ∀ a b,
      fold_switch E (decide (s.var "harmonize-flags" = "OFF")) op a b = Except.ok (f a b))
    (hpres : ∀ a b, E.get_type (f a b) = E.get_type a) :
    ∃ s', s.apply_binary_operation_iteratively E op = Except.ok s'
      ∧ s'.stack_ = [E.optimize (rest.foldl f top)] := by
  cases rest with
  | nil => exact absurd rfl hn
  | cons t rest =>
    obtain ⟨s1, h1, hs1⟩ := fold_loop_prefix E op _ f hf hpres (t :: rest) [] s top rfl hfmt
      (by intro b below h; cases h)
    rw [List.append_nil] at h1
    unfold XfstCompiler.apply_binary_operation_iteratively
    rw [hs]
    simp only [h1]
    exact ⟨_, rfl, by simp [hs1]⟩

/-- C9, at a concrete session: three networks under `concatenate`. -/
theorem apply_binary_operation_iteratively_folds_witness :
    ∃ s', (session [Net.mk0 3, Net.mk0 2, Net.mk0 1]).apply_binary_operation_iteratively
          termEngine BinaryOperation.CONCATENATE_NET = Except.ok s'
      ∧ s'.stack_ = [termEngine.optimize
          ([Net.mk0 2, Net.mk0 1].foldl (fun a b => a.bin "concatenate" b) (Net.mk0 3))] :=
  apply_binary_operation_iteratively_folds termEngine (session [Net.mk0 3, Net.mk0 2, Net.mk0 1])
    BinaryOperation.CONCATENATE_NET (fun a b => a.bin "concatenate" b) (Net.mk0 3)
    [Net.mk0 2, Net.mk0 1] rfl (by simp) (by decide) (fun _ _ => rfl) (fun _ _ => rfl)

/-- C10: when, going down from the top, the networks of `mid` share the
format of the running result and the next network `bad` has another format
(the switch returning `f result t` on every pair without raising and keeping
the format of `result`), `apply_binary_operation_iteratively` returns normally
and stops at `bad` without combining it: `bad` and the networks below it stay
on the stack in order, the networks of `mid` are folded into the partial
result, whose `optimize` is pushed on top, and the final depth is at least
two. -/
theorem apply_binary_operation_iteratively_stops_at_mismatch {T : Type} (E : Engine T)
    (s : XfstCompiler T) (op : BinaryOperation) (f : T → T → T) (top bad : T)
    (mid below : List T)
    (hs : s.stack_ = top :: (mid ++ bad :: below))
    (hmid : ∀ x ∈ mid, E.get_type x = E.get_type top)
    (hbad : E.get_type bad ≠ E.get_type (mid.foldl f top))
    (hf : ∀ a b,
      fold_switch E (decide (s.var "harmonize-flags" = "OFF")) op a b = Except.ok (f a b))
    (hpres : ∀ a b, E.get_type (f a b) = E.get_type a) :
    ∃ s', s.apply_binary_operation_iteratively E op = Except.ok s'
      ∧ s'.stack_ = E.optimize (mid.foldl f top) :: bad :: below
      ∧ 2 ≤ s'.stack_.length := by
  have hbad' : E.get_type bad ≠ E.get_type top := by
    rw [foldl_get_type E f hpres mid top] at hbad
    exact hbad
  obtain ⟨s1, h1, hs1⟩ := fold_loop_prefix E op _ f hf hpres mid (bad :: below) s top rfl hmid
    (by
      intro b below' h
      injection h with hb _
      rw [← hb]
      exact hbad')
  have hmatch : ∃ t rest, mid ++ bad :: below = t :: rest := by
    cases mid with
    | nil => exact ⟨bad, below, rfl⟩
    | cons m ms => exact ⟨m, ms ++ bad :: below, rfl⟩
  obtain ⟨t, rest, htr⟩ := hmatch
  unfold XfstCompiler.apply_binary_operation_iteratively
  rw [hs, htr]
  simp only []
  rw [← htr, h1]
  exact ⟨_, rfl, by simp [hs1], by simp [hs1]⟩

/-- C10, at a concrete session: a `foma` network third from the top stops the
fold of `union`. -/
theorem apply_binary_operation_iteratively_stops_at_mismatch_witness :
    ∃ s', (session [Net.mk0 3, Net.mk0 2, Net.foma 7, Net.mk0 1]).apply_binary_operation_iteratively
          termEngine BinaryOperation.UNION_NET = Except.ok s'
      ∧ s'.stack_ = termEngine.optimize
          ([Net.mk0 2].foldl (fun a b => a.bin "disjunct" b) (Net.mk0 3))
          :: Net.foma 7 :: [Net.mk0 1]
      ∧ 2 ≤ s'.stack_.length :=
  apply_binary_operation_iteratively_stops_at_mismatch termEngine
    (session [Net.mk0 3, Net.mk0 2, Net.foma 7, Net.mk0 1]) BinaryOperation.UNION_NET
    (fun a b => a.bin "disjunct" b) (Net.mk0 3) (Net.foma 7) [Net.mk0 2] [Net.mk0 1] rfl
    (by decide) (by decide) (fun _ _ => rfl) (fun _ _ => rfl)

/-! ## The fail flag -/

section fail_flag

variable {T : Type}

@[simp] theorem ERROR_fail (s : XfstCompiler T) (x : String) :
    (s.ERROR x).fail_flag_ = s.fail_flag_ := rfl

@[simp] theorem OUTPUT_fail (s : XfstCompiler T) (x : String) :
    (s.OUTPUT x).fail_flag_ = s.fail_flag_ := rfl

@[simp] theorem OUTPUT_LINE_fail (s : XfstCompiler T) (x : String) :
    (s.OUTPUT_LINE x).fail_flag_ = s.fail_flag_ := rfl

@[simp] theorem OUTPUT_var (s : XfstCompiler T) (x n : String) : (s.OUTPUT x).var n = s.var n :=
  rfl

@[simp] theorem OUTPUT_LINE_var (s : XfstCompiler T) (x n : String) :
    (s.OUTPUT_LINE x).var n = s.var n := rfl

@[simp] theorem prompt_fail (s : XfstCompiler T) : s.prompt.fail_flag_ = s.fail_flag_ := by
  unfold XfstCompiler.prompt
  split <;> rfl

@[simp] theorem prompt_var (s : XfstCompiler T) (n : String) : s.prompt.var n = s.var n := by
  unfold XfstCompiler.prompt
  split <;> rfl

/-- The function `xfst_fail` sets the flag under `quit-on-fail` and otherwise
changes nothing. -/
theorem xfst_fail_eq (s : XfstCompiler T) :
    s.xfst_fail = if s.var "quit-on-fail" = "ON" then { s with fail_flag_ := true } else s := rfl

theorem xfst_fail_keeps (s : XfstCompiler T) (h : s.fail_flag_ = true) :
    s.xfst_fail.fail_flag_ = true := by
  unfold XfstCompiler.xfst_fail
  split
  · rfl
  · exact h

theorem xfst_lesser_fail_keeps (s : XfstCompiler T) (h : s.fail_flag_ = true) :
    s.xfst_lesser_fail.fail_flag_ = true := by
  unfold XfstCompiler.xfst_lesser_fail
  split
  · rfl
  · exact h

theorem MAYBE_QUIT_keeps (s : XfstCompiler T) (h : s.fail_flag_ = true) :
    s.MAYBE_QUIT.fail_flag_ = true := by
  unfold XfstCompiler.MAYBE_QUIT
  split
  · rfl
  · exact h

theorem MAYBE_ASSERT_keeps (s : XfstCompiler T) (assertion value : Bool)
    (h : s.fail_flag_ = true) : (s.MAYBE_ASSERT assertion value).fail_flag_ = true := by
  unfold XfstCompiler.MAYBE_ASSERT
  split
  · rfl
  · exact h

theorem IF_NULL_keeps (s : XfstCompiler T) (h : s.fail_flag_ = true) :
    s.IF_NULL_PROMPT_AND_RETURN_THIS.fail_flag_ = true := by
  unfold XfstCompiler.IF_NULL_PROMPT_AND_RETURN_THIS
  rw [prompt_fail]
  split
  · rfl
  · exact h

theorem top_keeps (E : Engine T) (s : XfstCompiler T) (silent : Bool)
    (h : s.fail_flag_ = true) : (s.top E silent).1.fail_flag_ = true := by
  unfold XfstCompiler.top
  split
  · cases silent <;> simp [XfstCompiler.EMPTY_STACK, xfst_lesser_fail_keeps, h]
  · split
    · cases silent <;> simp [h]
    · exact h

@[simp] theorem pop_fail (s : XfstCompiler T) : s.pop.fail_flag_ = s.fail_flag_ := by
  unfold XfstCompiler.pop
  split <;> simp

@[simp] theorem print_alphabet_fail (s : XfstCompiler T) (alpha : List String)
    (unknown identity : Bool) :
    (s.print_alphabet alpha unknown identity).fail_flag_ = s.fail_flag_ := by
  unfold XfstCompiler.print_alphabet
  simp only [OUTPUT_fail, OUTPUT_LINE_fail]
  split
  · split <;> split <;> simp
  · split <;> simp

theorem print_sigma_keeps (E : Engine T) (s : XfstCompiler T) (prompt : Bool)
    (h : s.fail_flag_ = true) : (s.print_sigma E prompt).fail_flag_ = true := by
  unfold XfstCompiler.print_sigma
  have ht := top_keeps E s false h
  split
  · rename_i s1 heq
    rw [heq] at ht
    exact xfst_lesser_fail_keeps _ ht
  · rename_i s1 t heq
    rw [heq] at ht
    cases prompt <;> simpa using ht

theorem print_transducer_info_keeps (E : Engine T) (s : XfstCompiler T)
    (h : s.fail_flag_ = true) : (s.print_transducer_info E).fail_flag_ = true := by
  unfold XfstCompiler.print_transducer_info
  split
  · split
    · exact h
    · split
      · exact h
      · simp only []
        split
        · exact print_sigma_keeps E _ false (by simpa using h)
        · simpa using h
  · exact h

end fail_flag

section fail_flag_commands

variable {T : Type}

theorem apply_unary_operation_keeps (E : Engine T) (s s' : XfstCompiler T) (op : UnaryOperation)
    (h : s.fail_flag_ = true) (hr : s.apply_unary_operation E op = Except.ok s') :
    s'.fail_flag_ = true := by
  unfold XfstCompiler.apply_unary_operation at hr
  have ht := top_keeps E s false h
  split at hr
  · rename_i s1 heq
    rw [heq] at ht
    injection hr with hr
    rw [← hr]
    exact xfst_lesser_fail_keeps _ ht
  · rename_i s1 result heq
    rw [heq] at ht
    simp only [] at hr
    split at hr
    · injection hr with hr
      rw [← hr, prompt_fail]
      exact print_transducer_info_keeps E _ (by simpa using ht)
    · injection hr with hr
      rw [← hr, prompt_fail]
      exact xfst_fail_keeps _ (by simpa using ht)
    · cases hr

theorem apply_binary_operation_keeps (E : Engine T) (s s' : XfstCompiler T)
    (op : BinaryOperation) (h : s.fail_flag_ = true)
    (hr : s.apply_binary_operation E op = Except.ok s') : s'.fail_flag_ = true := by
  unfold XfstCompiler.apply_binary_operation at hr
  split at hr
  · simp only [] at hr
    split at hr
    · split at hr
      · injection hr with hr
        rw [← hr, prompt_fail]
        exact print_transducer_info_keeps E _ h
      · cases hr
    · split at hr
      · injection hr with hr
        rw [← hr, prompt_fail]
        exact print_transducer_info_keeps E _ h
      · cases hr
    · split at hr
      · injection hr with hr
        rw [← hr, prompt_fail]
        exact print_transducer_info_keeps E _ h
      · injection hr with hr
        rw [← hr, prompt_fail]
        exact xfst_fail_keeps _ h
      · cases hr
    · injection hr with hr
      rw [← hr, prompt_fail]
      exact print_transducer_info_keeps E _ (xfst_fail_keeps _ h)
  · injection hr with hr
    rw [← hr]
    exact xfst_lesser_fail_keeps _ h

/-- The loop of the fold keeps a set fail flag, however it is left. -/
theorem fold_loop_keeps (E : Engine T) (op : BinaryOperation) :
    ∀ (stk : List T) (s : XfstCompiler T) (result : T), s.fail_flag_ = true →
      (∀ s1 r, fold_loop E op s result stk = Except.ok (FoldExit.done s1 r) →
          s1.fail_flag_ = true)
        ∧ (∀ s1, fold_loop E op s result stk = Except.ok (FoldExit.returned s1) →
          s1.fail_flag_ = true) := by
  intro stk
  induction stk with
  | nil =>
    intro s result h
    constructor
    · intro s1 r hr
      simp only [fold_loop] at hr
      injection hr with hr
      injection hr with hr _
      rw [← hr]
      exact h
    · intro s1 hr
      simp only [fold_loop] at hr
      injection hr with hr
      cases hr
  | cons t rest ih =>
    intro s result h
    have hE : ∀ x : String, (s.ERROR x).fail_flag_ = true := fun x => h
    by_cases hty : E.get_type t ≠ E.get_type result
    · constructor
      · intro s1 r hr
        simp only [fold_loop] at hr
        rw [if_pos hty] at hr
        injection hr with hr
        injection hr with hr _
        rw [← hr]
        exact xfst_lesser_fail_keeps _ h
      · intro s1 hr
        simp only [fold_loop] at hr
        rw [if_pos hty] at hr
        injection hr with hr
        cases hr
    · cases op with
      | COMPOSE_NET =>
        rw [fold_loop, if_neg hty]
        simp only []
        split
        · split
          · exact ih _ _ (hE _)
          · exact ih _ _ h
        · constructor
          · intro s1 r hr
            injection hr with hr
            cases hr
          · intro s1 hr
            injection hr with hr
            injection hr with hr
            rw [← hr, prompt_fail]
            apply xfst_lesser_fail_keeps
            simp only [ERROR_fail]
            split
            · exact hE _
            · exact h
        · exact ⟨fun _ _ hr => (by cases hr), fun _ hr => (by cases hr)⟩
      | MINUS_NET =>
        simp only [fold_loop]
        rw [if_neg hty]
        exact ih _ _ (hE _)
      | CROSSPRODUCT_NET =>
        simp only [fold_loop]
        rw [if_neg hty]
        exact ih _ _ (hE _)
      | INTERSECT_NET =>
        rw [fold_loop, if_neg hty]
        split
        · exact ih _ _ h
        · exact ⟨fun _ _ hr => (by cases hr), fun _ hr => (by cases hr)⟩
      | IGNORE_NET =>
        rw [fold_loop, if_neg hty]
        split
        · exact ih _ _ h
        · exact ⟨fun _ _ hr => (by cases hr), fun _ hr => (by cases hr)⟩
      | CONCATENATE_NET =>
        rw [fold_loop, if_neg hty]
        split
        · exact ih _ _ h
        · exact ⟨fun _ _ hr => (by cases hr), fun _ hr => (by cases hr)⟩
      | UNION_NET =>
        rw [fold_loop, if_neg hty]
        split
        · exact ih _ _ h
        · exact ⟨fun _ _ hr => (by cases hr), fun _ hr => (by cases hr)⟩
      | SHUFFLE_NET =>
        rw [fold_loop, if_neg hty]
        split
        · exact ih _ _ h
        · exact ⟨fun _ _ hr => (by cases hr), fun _ hr => (by cases hr)⟩

theorem apply_binary_operation_iteratively_keeps (E : Engine T) (s s' : XfstCompiler T)
    (op : BinaryOperation) (h : s.fail_flag_ = true)
    (hr : s.apply_binary_operation_iteratively E op = Except.ok s') : s'.fail_flag_ = true := by
  unfold XfstCompiler.apply_binary_operation_iteratively at hr
  split at hr
  · rename_i result t rest heq
    have hl := fold_loop_keeps E op (t :: rest) s result h
    split at hr
    · rename_i s1 r1 hf
      injection hr with hr
      rw [← hr, prompt_fail]
      exact print_transducer_info_keeps E _ (hl.1 s1 r1 hf)
    · rename_i s1 hf
      injection hr with hr
      rw [← hr]
      exact hl.2 s1 hf
    · cases hr
  · injection hr with hr
    rw [← hr]
    exact xfst_lesser_fail_keeps _ h

theorem test_eq_keeps (E : Engine T) (s : XfstCompiler T) (assertion : Bool)
    (h : s.fail_flag_ = true) : (s.test_eq E assertion).fail_flag_ = true := by
  unfold XfstCompiler.test_eq
  split
  · exact MAYBE_ASSERT_keeps _ _ _ h
  · exact xfst_lesser_fail_keeps _ h

theorem define_keeps (E : Engine T) (s : XfstCompiler T) (name : String)
    (h : s.fail_flag_ = true) : (s.define E name).fail_flag_ = true := by
  unfold XfstCompiler.define
  have ht := top_keeps E s false h
  split
  · rename_i s1 heq
    rw [heq] at ht
    exact xfst_lesser_fail_keeps _ ht
  · rename_i s1 top heq
    rw [heq] at ht
    simp only [prompt_fail]
    split <;> simpa using ht

theorem define_xre_keeps (E : Engine T) (s : XfstCompiler T) (name xre : String)
    (h : s.fail_flag_ = true) : (s.define_xre E name xre).fail_flag_ = true := by
  unfold XfstCompiler.define_xre
  split
  · rw [prompt_fail]
    exact MAYBE_QUIT_keeps _ h
  · split
    · simp only [prompt_fail]
      have h1 : (match E.xre_compile s.xre_definitions_ s.xre_lists_ xre with
          | some compiled => { s with xre_definitions_ := s.xre_definitions_.set name compiled }
          | none => (s.ERROR ("Could not define variable '" ++ name ++ "'")).xfst_fail).fail_flag_
          = true := by
        split
        · exact h
        · exact xfst_fail_keeps _ h
      split <;> simpa using h1
    · rw [prompt_fail]
      exact xfst_fail_keeps _ h

theorem define_list_keeps (s : XfstCompiler T) (name values : String)
    (h : s.fail_flag_ = true) : (s.define_list name values).fail_flag_ = true := by
  unfold XfstCompiler.define_list
  split
  · rw [prompt_fail]
    exact MAYBE_QUIT_keeps _ h
  · simpa using h

theorem define_list_range_keeps (s : XfstCompiler T) (name start end_ : String)
    (h : s.fail_flag_ = true) : (s.define_list_range name start end_).fail_flag_ = true := by
  unfold XfstCompiler.define_list_range
  simp only []
  split <;> exact h

theorem undefine_loop_fail (names : List String) :
    ∀ s : XfstCompiler T, (s.undefine_loop names).fail_flag_ = s.fail_flag_ := by
  induction names with
  | nil => intro s; rfl
  | cons n rest ih =>
    intro s
    rw [XfstCompiler.undefine_loop, ih]
    split <;> rfl

theorem undefine_keeps (s : XfstCompiler T) (name_list : String) (h : s.fail_flag_ = true) :
    (s.undefine name_list).fail_flag_ = true := by
  unfold XfstCompiler.undefine
  rw [prompt_fail, undefine_loop_fail]
  exact h

theorem unlist_keeps (s : XfstCompiler T) (name : String) (h : s.fail_flag_ = true) :
    (s.unlist name).fail_flag_ = true := by
  unfold XfstCompiler.unlist
  rw [prompt_fail]
  split <;> exact h

theorem add_loaded_definition_keeps (E : Engine T) (s : XfstCompiler T) (t : T)
    (h : s.fail_flag_ = true) : (s.add_loaded_definition E t).fail_flag_ = true := by
  unfold XfstCompiler.add_loaded_definition
  simp only []
  split
  · exact h
  · split <;> exact h

theorem set_keeps (s : XfstCompiler T) (name text : String) (h : s.fail_flag_ = true) :
    (s.set name text).fail_flag_ = true := by
  unfold XfstCompiler.set
  split
  · split
    · simp only [prompt_fail]
      split <;> exact h
    · simpa using h
  · simp only [prompt_fail]
    split <;> split <;> (try split) <;> (try split) <;> exact h

theorem set_number_keeps (s : XfstCompiler T) (name : String) (number : Nat)
    (h : s.fail_flag_ = true) : (s.set_number name number).fail_flag_ = true := by
  unfold XfstCompiler.set_number
  split <;> simpa using h

theorem print_paths_keeps (fd : FdOperation) (E : Engine T) (s : XfstCompiler T)
    (paths : HfstTwoLevelPaths) (n : Int) (r : XfstCompiler T × Bool)
    (h : s.fail_flag_ = true) (hr : s.print_paths fd E paths n = Except.ok r) :
    r.1.fail_flag_ = true := by
  unfold XfstCompiler.print_paths at hr
  split at hr
  · cases hr
  · injection hr with hr
    rw [← hr]
    exact h

theorem print_words_keeps (fd : FdOperation) (E : Engine T) (s s' : XfstCompiler T)
    (name : Option String) (number : Nat) (level : Level) (h : s.fail_flag_ = true)
    (hr : s.print_words fd E name number level = Except.ok s') : s'.fail_flag_ = true := by
  unfold XfstCompiler.print_words at hr
  simp only [] at hr
  have hfound : (match name with
      | none => s.top E false
      | some nm =>
        match s.definitions_.find? nm with
        | none => ((s.OUTPUT ("no such definition '" ++ nm ++ "'")).prompt, none)
        | some t => (s, some t)).1.fail_flag_ = true := by
    split
    · exact top_keeps E s false h
    · split
      · simpa using h
      · exact h
  split at hr
  · rename_i s1 heq
    rw [heq] at hfound
    injection hr with hr
    rw [← hr]
    exact hfound
  · rename_i s1 temp0 heq
    rw [heq] at hfound
    simp only [] at hfound
    split at hr
    · cases hr
    · split at hr
      · split at hr
        · rename_i r hp
          injection hr with hr
          rw [← hr, prompt_fail]
          exact print_paths_keeps fd E _ _ _ r hfound hp
        · cases hr
      · split at hr
        · split at hr
          · rename_i r hp
            injection hr with hr
            rw [← hr, prompt_fail]
            exact print_paths_keeps fd E _ _ _ r (by simpa using hfound) hp
          · cases hr
        · cases hr
      · cases hr

/-- Nothing done is a step. -/
theorem fail_step_refl (s : XfstCompiler T) : s.fail_step s := ⟨rfl, Or.inl rfl⟩

/-- Steps compose. -/
theorem fail_step_trans {s t u : XfstCompiler T} (h1 : s.fail_step t) (h2 : t.fail_step u) :
    s.fail_step u := by
  obtain ⟨hv1, hf1⟩ := h1
  obtain ⟨hv2, hf2⟩ := h2
  refine ⟨hv2.trans hv1, ?_⟩
  have hq : t.var "quit-on-fail" = s.var "quit-on-fail" := by
    unfold XfstCompiler.var
    rw [hv1]
  rcases hf2 with h | ⟨h, h'⟩
  · rcases hf1 with g | ⟨g, g'⟩
    · exact Or.inl (h.trans g)
    · exact Or.inr ⟨g, h.trans g'⟩
  · exact Or.inr ⟨hq ▸ h, h'⟩

/-- A change that touches neither the variables nor the flag extends a
step. -/
theorem fail_step_fields {s t u : XfstCompiler T} (h : s.fail_step t)
    (hv : u.variables_ = t.variables_) (hf : u.fail_flag_ = t.fail_flag_) : s.fail_step u :=
  fail_step_trans h ⟨hv, Or.inl hf⟩

/-- A step keeps a set flag. -/
theorem fail_step_keeps {s t : XfstCompiler T} (h : s.fail_step t) (hf : s.fail_flag_ = true) :
    t.fail_flag_ = true := by
  rcases h.2 with g | ⟨_, g⟩
  · rw [g, hf]
  · exact g

/-- Without `quit-on-fail` a step leaves the flag as it is. -/
theorem fail_step_quiet {s t : XfstCompiler T} (h : s.fail_step t)
    (hq : s.var "quit-on-fail" ≠ "ON") : t.fail_flag_ = s.fail_flag_ := by
  rcases h.2 with g | ⟨g, _⟩
  · exact g
  · exact absurd g hq

theorem fs_ERROR {s t : XfstCompiler T} (x : String) (h : s.fail_step t) :
    s.fail_step (t.ERROR x) := fail_step_fields h rfl rfl

theorem fs_OUTPUT {s t : XfstCompiler T} (x : String) (h : s.fail_step t) :
    s.fail_step (t.OUTPUT x) := fail_step_fields h rfl rfl

theorem fs_OUTPUT_LINE {s t : XfstCompiler T} (x : String) (h : s.fail_step t) :
    s.fail_step (t.OUTPUT_LINE x) := fail_step_fields h rfl rfl

theorem fs_prompt {s t : XfstCompiler T} (h : s.fail_step t) : s.fail_step t.prompt := by
  unfold XfstCompiler.prompt
  split
  · exact fs_OUTPUT_LINE _ h
  · exact h

theorem fs_xfst_fail {s t : XfstCompiler T} (h : s.fail_step t) : s.fail_step t.xfst_fail := by
  apply fail_step_trans h
  unfold XfstCompiler.xfst_fail
  split
  · rename_i hq
    exact ⟨rfl, Or.inr ⟨hq, rfl⟩⟩
  · exact fail_step_refl t

theorem fs_xfst_lesser_fail {s t : XfstCompiler T} (h : s.fail_step t) :
    s.fail_step t.xfst_lesser_fail := by
  apply fail_step_trans h
  unfold XfstCompiler.xfst_lesser_fail
  split
  · rename_i hq
    exact ⟨rfl, Or.inr ⟨hq.1, rfl⟩⟩
  · exact fail_step_refl t

theorem fs_MAYBE_QUIT {s t : XfstCompiler T} (h : s.fail_step t) : s.fail_step t.MAYBE_QUIT := by
  apply fail_step_trans h
  unfold XfstCompiler.MAYBE_QUIT
  split
  · rename_i hq
    exact ⟨rfl, Or.inr ⟨hq, rfl⟩⟩
  · exact fail_step_refl t

theorem fs_MAYBE_ASSERT {s t : XfstCompiler T} (assertion value : Bool) (h : s.fail_step t) :
    s.fail_step (t.MAYBE_ASSERT assertion value) := by
  apply fail_step_trans h
  unfold XfstCompiler.MAYBE_ASSERT
  split
  · rename_i hq
    exact ⟨rfl, Or.inr ⟨hq.2.2, rfl⟩⟩
  · exact fail_step_refl t

theorem fs_IF_NULL {s t : XfstCompiler T} (h : s.fail_step t) :
    s.fail_step t.IF_NULL_PROMPT_AND_RETURN_THIS := by
  unfold XfstCompiler.IF_NULL_PROMPT_AND_RETURN_THIS
  apply fs_prompt
  apply fail_step_trans h
  split
  · rename_i hq
    exact ⟨rfl, Or.inr ⟨hq, rfl⟩⟩
  · exact fail_step_refl t

theorem fs_top {s t : XfstCompiler T} (E : Engine T) (silent : Bool) (h : s.fail_step t) :
    s.fail_step (t.top E silent).1 := by
  unfold XfstCompiler.top
  split
  · cases silent
    · exact fs_prompt (fs_xfst_lesser_fail (fs_ERROR _ h))
    · exact fs_xfst_lesser_fail h
  · split
    · cases silent
      · exact fs_prompt (fs_ERROR _ h)
      · exact h
    · exact h

theorem fs_pop {s t : XfstCompiler T} (h : s.fail_step t) : s.fail_step t.pop := by
  unfold XfstCompiler.pop
  split
  · exact fs_prompt (fs_OUTPUT _ h)
  · exact fs_prompt (fail_step_fields h rfl rfl)

theorem OUTPUT_vars (s : XfstCompiler T) (x : String) :
    (s.OUTPUT x).variables_ = s.variables_ := rfl

theorem OUTPUT_LINE_vars (s : XfstCompiler T) (x : String) :
    (s.OUTPUT_LINE x).variables_ = s.variables_ := rfl

theorem print_alphabet_vars (s : XfstCompiler T) (alpha : List String)
    (unknown identity : Bool) :
    (s.print_alphabet alpha unknown identity).variables_ = s.variables_ := by
  unfold XfstCompiler.print_alphabet
  simp only [OUTPUT_vars, OUTPUT_LINE_vars]
  split
  · split <;> split <;> simp [OUTPUT_LINE_vars]
  · split <;> simp [OUTPUT_LINE_vars]

theorem fs_print_sigma {s t : XfstCompiler T} (E : Engine T) (p : Bool) (h : s.fail_step t) :
    s.fail_step (t.print_sigma E p) := by
  unfold XfstCompiler.print_sigma
  have ht := fs_top E false h
  split
  · rename_i s1 heq
    rw [heq] at ht
    exact fs_xfst_lesser_fail ht
  · rename_i s1 top heq
    rw [heq] at ht
    have h2 := fail_step_fields ht (print_alphabet_vars s1 (E.get_alphabet top)
      (is_unknown_or_identity_used_in_transducer (E.transitions top) false false).1
      (is_unknown_or_identity_used_in_transducer (E.transitions top) false false).2)
      (print_alphabet_fail s1 _ _ _)
    cases p
    · exact h2
    · exact fs_prompt h2

theorem fs_print_transducer_info {s t : XfstCompiler T} (E : Engine T) (h : s.fail_step t) :
    s.fail_step (t.print_transducer_info E) := by
  unfold XfstCompiler.print_transducer_info
  split
  · split
    · exact h
    · split
      · exact h
      · simp only []
        split
        · exact fs_print_sigma E false (fs_OUTPUT _ h)
        · exact fs_OUTPUT _ h
  · exact h

theorem fs_define_function (E : Engine T) (s : XfstCompiler T) (p xre : String) :
    s.fail_step (s.define_function E p xre) := by
  have h0 := fail_step_refl s
  unfold XfstCompiler.define_function
  simp only []
  split
  · exact fs_prompt (fs_xfst_fail (fs_ERROR _ h0))
  · split
    · exact fs_prompt (fs_xfst_fail (fs_ERROR _ h0))
    · split
      · exact fs_prompt (fs_xfst_fail (fs_ERROR _ h0))
      · split
        · exact fs_prompt (fs_xfst_fail (fs_ERROR _ h0))
        · apply fs_prompt
          split <;> exact ⟨rfl, Or.inl rfl⟩

theorem fs_turn (E : Engine T) (s : XfstCompiler T) : s.fail_step (s.turn E) :=
  fs_prompt (fs_print_transducer_info E (fail_step_fields (fail_step_refl s) rfl rfl))

theorem fs_rotate (E : Engine T) (s : XfstCompiler T) : s.fail_step (s.rotate E) := by
  unfold XfstCompiler.rotate
  split
  · exact fs_prompt (fail_step_refl s)
  · exact fs_prompt (fs_print_transducer_info E (fail_step_fields (fail_step_refl s) rfl rfl))

theorem fs_print_paths_one {s t : XfstCompiler T} (fd : FdOperation) (E : Engine T)
    (paths : HfstOneLevelPaths) (n : Int) (r : XfstCompiler T × Bool) (h : s.fail_step t)
    (hr : t.print_paths_one fd E paths n = Except.ok r) : s.fail_step r.1 := by
  unfold XfstCompiler.print_paths_one at hr
  split at hr
  · cases hr
  · injection hr with hr
    rw [← hr]
    exact fail_step_fields h rfl rfl

theorem fs_print_paths {s t : XfstCompiler T} (fd : FdOperation) (E : Engine T)
    (paths : HfstTwoLevelPaths) (n : Int) (r : XfstCompiler T × Bool) (h : s.fail_step t)
    (hr : t.print_paths fd E paths n = Except.ok r) : s.fail_step r.1 := by
  unfold XfstCompiler.print_paths at hr
  split at hr
  · cases hr
  · injection hr with hr
    rw [← hr]
    exact fail_step_fields h rfl rfl

theorem fs_lookup_end {s : XfstCompiler T} (r : XfstCompiler T × Bool) (h : s.fail_step r.1) :
    s.fail_step (XfstCompiler.lookup_end r) := by
  unfold XfstCompiler.lookup_end
  split
  · exact fs_OUTPUT _ h
  · exact h

theorem fs_lookup_print {s t : XfstCompiler T} (fd : FdOperation) (E : Engine T)
    (results : HfstTwoLevelPaths) (s' : XfstCompiler T) (h : s.fail_step t)
    (hr : t.lookup_print fd E results = Except.ok s') : s.fail_step s' := by
  unfold XfstCompiler.lookup_print at hr
  simp only [] at hr
  split at hr
  · rename_i r hp
    injection hr with hr
    rw [← hr]
    apply fs_lookup_end
    split at hp
    · exact fs_print_paths_one fd E _ _ r h hp
    · exact fs_print_paths fd E _ _ r h hp
  · cases hr

theorem fs_lookup {s t : XfstCompiler T} (fd : FdOperation) (E : Engine T) (line : String)
    (net : T) (s' : XfstCompiler T) (h : s.fail_step t)
    (hr : t.lookup fd E line net = Except.ok s') : s.fail_step s' := by
  unfold XfstCompiler.lookup at hr
  simp only [] at hr
  refine fs_lookup_print fd E _ s' ?_ hr
  split
  · exact fs_ERROR _ h
  · exact h

theorem fs_lookup_cutoff {s t : XfstCompiler T} (fd : FdOperation) (E : Engine T)
    (line : String) (net : T) (cutoff : Nat) (s' : XfstCompiler T) (h : s.fail_step t)
    (hr : t.lookup_cutoff fd E line net cutoff = Except.ok s') : s.fail_step s' := by
  unfold XfstCompiler.lookup_cutoff at hr
  simp only [] at hr
  split at hr
  · rename_i r hp
    injection hr with hr
    rw [← hr]
    exact fs_lookup_end r (fs_print_paths_one fd E _ _ r h hp)
  · cases hr

theorem fs_apply_down_line (fd : FdOperation) (E : Engine T) (s s' : XfstCompiler T)
    (line : String) (hr : s.apply_down_line fd E line = Except.ok s') : s.fail_step s' := by
  have h0 := fail_step_refl s
  unfold XfstCompiler.apply_down_line at hr
  split at hr
  · injection hr with hr
    rw [← hr]
    exact fs_prompt (fs_xfst_lesser_fail (fs_ERROR _ h0))
  · split at hr
    · exact fs_lookup fd E line _ s' h0 hr
    · simp only [] at hr
      refine fs_lookup_cutoff fd E line _ _ s' ?_ hr
      split
      · exact fs_ERROR _ h0
      · exact h0

theorem fs_compile_replace_net (E : Engine T) (s s' : XfstCompiler T) (level : Level)
    (hr : s.compile_replace_net E level = Except.ok s') : s.fail_step s' := by
  unfold XfstCompiler.compile_replace_net at hr
  have ht := fs_top E false (fail_step_refl s)
  split at hr
  · cases hr
  · split at hr
    · rename_i s1 heq
      rw [heq] at ht
      injection hr with hr
      rw [← hr]
      exact fs_xfst_lesser_fail ht
    · rename_i s1 tmp heq
      rw [heq] at ht
      simp only [] at ht hr
      split at hr
      · cases hr
      · split at hr
        · cases hr
        · rename_i defs hw
          injection hr with hr
          rw [← hr]
          apply fs_prompt
          apply fs_xfst_lesser_fail
          split
          · exact fs_ERROR _ (fail_step_fields ht rfl rfl)
          · exact fail_step_fields ht rfl rfl
        · rename_i defs hw
          have h3 : s.fail_step
              (if ({ s1 with xre_definitions_ := defs }).verbose_ = true then
                ({ s1 with xre_definitions_ := defs }).ERROR "Network is well-formed."
              else { s1 with xre_definitions_ := defs }) := by
            split
            · exact fs_ERROR _ (fail_step_fields ht rfl rfl)
            · exact fail_step_fields ht rfl rfl
          split at hr
          · rename_i regexp s4 hi
            injection hr with hr
            rw [← hr]
            apply fs_prompt
            apply fs_xfst_lesser_fail
            apply fs_ERROR
            split at hi
            · injection hi with _ hi
              rw [← hi]
              exact fs_ERROR _ h3
            · injection hi with _ hi
              rw [← hi]
              exact h3
          · rename_i fsm s4 hi
            have h4 : s.fail_step s4 := by
              split at hi
              · injection hi with _ hi
                rw [← hi]
                exact fs_ERROR _ h3
              · injection hi with _ hi
                rw [← hi]
                exact h3
            split at hr
            · cases hr
            · split at hr
              · cases hr
              · injection hr with hr
                rw [← hr]
                exact fs_prompt (fail_step_fields h4 rfl rfl)

theorem substitute_symbol_keeps (E : Engine T) (s : XfstCompiler T) (list target : String)
    (h : s.fail_flag_ = true) : (s.substitute_symbol E list target).fail_flag_ = true := by
  unfold XfstCompiler.substitute_symbol
  have ht := top_keeps E s false h
  split
  · rename_i s1 heq
    rw [heq] at ht
    exact xfst_lesser_fail_keeps _ ht
  · rename_i s1 top heq
    rw [heq] at ht
    simp only [] at ht
    split
    · rw [prompt_fail]
      exact MAYBE_QUIT_keeps _ ht
    · simp only []
      split
      · rw [prompt_fail]
        exact print_transducer_info_keeps E _ ht
      · rw [prompt_fail]

/-- Every embedded operation that returns keeps a set fail flag. -/
theorem Command.run_keeps (fd : FdOperation) (E : Engine T) (c : Command T)
    (s s' : XfstCompiler T) (h : s.fail_flag_ = true) (hr : c.run fd E s = Except.ok s') :
    s'.fail_flag_ = true := by
  cases c with
  | apply_unary_operation op => exact apply_unary_operation_keeps E s s' op h hr
  | apply_binary_operation op => exact apply_binary_operation_keeps E s s' op h hr
  | apply_binary_operation_iteratively op =>
    exact apply_binary_operation_iteratively_keeps E s s' op h hr
  | compose_net => exact apply_binary_operation_iteratively_keeps E s s' _ h hr
  | test_eq a => injection hr with hr; rw [← hr]; exact test_eq_keeps E s a h
  | define n => injection hr with hr; rw [← hr]; exact define_keeps E s n h
  | define_xre n x => injection hr with hr; rw [← hr]; exact define_xre_keeps E s n x h
  | define_list n v => injection hr with hr; rw [← hr]; exact define_list_keeps s n v h
  | define_list_range n a b =>
    injection hr with hr; rw [← hr]; exact define_list_range_keeps s n a b h
  | undefine n => injection hr with hr; rw [← hr]; exact undefine_keeps s n h
  | unlist n => injection hr with hr; rw [← hr]; exact unlist_keeps s n h
  | add_loaded_definition t =>
    injection hr with hr; rw [← hr]; exact add_loaded_definition_keeps E s t h
  | set n x => injection hr with hr; rw [← hr]; exact set_keeps s n x h
  | set_number n x => injection hr with hr; rw [← hr]; exact set_number_keeps s n x h
  | print_words n k l => exact print_words_keeps fd E s s' n k l h hr
  | print_sigma p => injection hr with hr; rw [← hr]; exact print_sigma_keeps E s p h
  | print_transducer_info =>
    injection hr with hr; rw [← hr]; exact print_transducer_info_keeps E s h
  | pop => injection hr with hr; rw [← hr]; simpa using h
  | prompt => injection hr with hr; rw [← hr]; simpa using h
  | xfst_fail => injection hr with hr; rw [← hr]; exact xfst_fail_keeps s h
  | xfst_lesser_fail => injection hr with hr; rw [← hr]; exact xfst_lesser_fail_keeps s h
  | substitute_symbol l t =>
    injection hr with hr; rw [← hr]; exact substitute_symbol_keeps E s l t h
  | define_function p x =>
    injection hr with hr; rw [← hr]; exact fail_step_keeps (fs_define_function E s p x) h
  | turn => injection hr with hr; rw [← hr]; exact fail_step_keeps (fs_turn E s) h
  | rotate => injection hr with hr; rw [← hr]; exact fail_step_keeps (fs_rotate E s) h
  | apply_down_line line => exact fail_step_keeps (fs_apply_down_line fd E s s' line hr) h
  | compile_replace_net level =>
    exact fail_step_keeps (fs_compile_replace_net E s s' level hr) h

end fail_flag_commands

/-! ## Composition -/

section composition

variable {T : Type}

/-- The function `top` only adds to the error stream. -/
theorem top_error_extends (E : Engine T) (s : XfstCompiler T) (silent : Bool) :
    ∃ more, (s.top E silent).1.error_ = s.error_ ++ more := by
  unfold XfstCompiler.top
  split
  · cases silent
    · exact ⟨["Empty stack.\n"], by simp [XfstCompiler.EMPTY_STACK]⟩
    · exact ⟨[], by simp⟩
  · split
    · cases silent
      · exact ⟨_, by simp; rfl⟩
      · exact ⟨[], by simp⟩
    · exact ⟨[], by simp⟩

@[simp] theorem print_alphabet_error (s : XfstCompiler T) (alpha : List String)
    (unknown identity : Bool) : (s.print_alphabet alpha unknown identity).error_ = s.error_ := by
  unfold XfstCompiler.print_alphabet
  simp only [OUTPUT_error, OUTPUT_LINE_error]
  split
  · split <;> split <;> simp
  · split <;> simp

theorem print_sigma_error_extends (E : Engine T) (s : XfstCompiler T) (prompt : Bool) :
    ∃ more, (s.print_sigma E prompt).error_ = s.error_ ++ more := by
  unfold XfstCompiler.print_sigma
  obtain ⟨more, ht⟩ := top_error_extends E s false
  split
  · rename_i s1 heq
    rw [heq] at ht
    exact ⟨more, by simpa using ht⟩
  · rename_i s1 t heq
    rw [heq] at ht
    exact ⟨more, by cases prompt <;> simpa using ht⟩

theorem print_transducer_info_error_extends (E : Engine T) (s : XfstCompiler T) :
    ∃ more, (s.print_transducer_info E).error_ = s.error_ ++ more := by
  unfold XfstCompiler.print_transducer_info
  split
  · split
    · exact ⟨[], by simp⟩
    · split
      · exact ⟨[], by simp⟩
      · simp only []
        split
        · obtain ⟨more, h⟩ := print_sigma_error_extends E
            (s.OUTPUT ("? bytes. " ++ toString (E.number_of_states _) ++ " states, "
              ++ toString (E.number_of_arcs _) ++ " arcs, ? paths")) false
          exact ⟨more, by simpa using h⟩
        · exact ⟨[], by simp⟩
  · exact ⟨[], by simp⟩

/-- The loop of the fold under `COMPOSE_NET` on a result `a` and a stack
holding the single network `b` of the same format, when the switch returns
`r`: the stack is emptied, the running result is `r`, and the only thing
written is the hint about flag diacritics, in verbose mode, when both operands
carry flag diacritics and `harmonize-flags` is `OFF`. -/
theorem fold_loop_compose_pair (E : Engine T) (s : XfstCompiler T) (a b r : T)
    (hty : E.get_type b = E.get_type a)
    (hc : fold_switch E (decide (s.var "harmonize-flags" = "OFF")) BinaryOperation.COMPOSE_NET
      a b = Except.ok r) :
    fold_loop E BinaryOperation.COMPOSE_NET s a [b]
      = Except.ok (FoldExit.done
          { (if (E.has_flag_diacritics a && E.has_flag_diacritics b
                && decide (s.var "harmonize-flags" = "OFF") && s.verbose_) = true then
              s.ERROR "Both composition arguments contain flag diacritics. Set harmonize-flags ON to harmonize them."
            else s) with stack_ := [] } r) := by
  simp only [fold_switch] at hc
  rw [fold_loop]
  simp only [hty, ne_eq, not_true_eq_false, if_false, hc]
  rw [fold_loop]

/-- The function `compose_net` on a stack of exactly two networks of one
format, `a` on top of `b`, when the switch returns `r` for the receiver `a`
and the argument `b`: one network is left, `optimize r`, and the error stream
gets the hint about flag diacritics exactly in verbose mode with both
operands carrying flag diacritics and `harmonize-flags` being `OFF`, followed
by whatever the closing report of the top network writes. -/
theorem compose_net_pair (E : Engine T) (s : XfstCompiler T) (a b r : T)
    (hs : s.stack_ = [a, b]) (hty : E.get_type b = E.get_type a)
    (hc : fold_switch E (decide (s.var "harmonize-flags" = "OFF")) BinaryOperation.COMPOSE_NET
      a b = Except.ok r) :
    ∃ s' more, s.compose_net E = Except.ok s' ∧ s'.stack_ = [E.optimize r]
      ∧ s'.error_ = (if (E.has_flag_diacritics a && E.has_flag_diacritics b
            && decide (s.var "harmonize-flags" = "OFF") && s.verbose_) = true then
          s.error_ ++ ["Both composition arguments contain flag diacritics. Set harmonize-flags ON to harmonize them.\n"]
        else s.error_) ++ more := by
  unfold XfstCompiler.compose_net XfstCompiler.apply_binary_operation_iteratively
  rw [hs]
  simp only [fold_loop_compose_pair E s a b r hty hc]
  obtain ⟨more, hm⟩ := print_transducer_info_error_extends E
    { (if (E.has_flag_diacritics a && E.has_flag_diacritics b
          && decide (s.var "harmonize-flags" = "OFF") && s.verbose_) = true then
        s.ERROR "Both composition arguments contain flag diacritics. Set harmonize-flags ON to harmonize them."
      else s) with stack_ := [E.optimize r] }
  refine ⟨_, more, rfl, by simp, ?_⟩
  rw [prompt_error, hm]
  split <;> rfl

end composition

/-- C11, as stated, fails: on the stack `[a, b]` (`a` on top) of the term
engine `compose_net` leaves `optimize (a.compose b)`, with the top `a` as the
receiver, and not the composition with `b` first, optimized or not. -/
theorem compose_net_operand_order_counterexample :
    ∃ s', (session [Net.mk0 1, Net.mk0 2]).compose_net termEngine = Except.ok s'
      ∧ s'.stack_ = [termEngine.optimize ((Net.mk0 1).bin "compose" (Net.mk0 2))]
      ∧ s'.stack_ ≠ [termEngine.optimize ((Net.mk0 2).bin "compose" (Net.mk0 1))]
      ∧ s'.stack_ ≠ [(Net.mk0 2).bin "compose" (Net.mk0 1)] :=
  ⟨_, rfl, by decide, by decide, by decide⟩

/-- C11, amended: `compose_net` on a stack holding exactly two networks of
one format, `a` on top of `b`, leaves the single network `optimize r`, where
`r` is what the engine's `compose` returns with the topmost network `a` as the
receiver (first operand) and `b` as the argument; when both carry flag
diacritics and `harmonize-flags` is not `OFF`, the two are harmonized first,
in the same roles. -/
theorem compose_net_top_is_receiver {T : Type} (E : Engine T) (s : XfstCompiler T) (a b : T)
    (hs : s.stack_ = [a, b]) (hty : E.get_type b = E.get_type a) :
    (((E.has_flag_diacritics a && E.has_flag_diacritics b) = false
          ∨ s.var "harmonize-flags" = "OFF") →
        ∀ r, E.compose a b = Except.ok r →
          ∃ s', s.compose_net E = Except.ok s' ∧ s'.stack_ = [E.optimize r])
      ∧ (((E.has_flag_diacritics a && E.has_flag_diacritics b) = true
          ∧ s.var "harmonize-flags" ≠ "OFF") →
        ∀ r, E.compose (E.harmonize_flag_diacritics a b).1 (E.harmonize_flag_diacritics a b).2
            = Except.ok r →
          ∃ s', s.compose_net E = Except.ok s' ∧ s'.stack_ = [E.optimize r]) := by
  constructor
  · intro hh r hc
    have hc' : fold_switch E (decide (s.var "harmonize-flags" = "OFF"))
        BinaryOperation.COMPOSE_NET a b = Except.ok r := by
      simp only [fold_switch]
      rcases hh with hh | hh
      · simpa [hh] using hc
      · simpa [hh] using hc
    obtain ⟨s', _, h1, h2, _⟩ := compose_net_pair E s a b r hs hty hc'
    exact ⟨s', h1, h2⟩
  · intro hh r hc
    have hc' : fold_switch E (decide (s.var "harmonize-flags" = "OFF"))
        BinaryOperation.COMPOSE_NET a b = Except.ok r := by
      simp only [fold_switch]
      simpa [hh.1, hh.2] using hc
    obtain ⟨s', _, h1, h2, _⟩ := compose_net_pair E s a b r hs hty hc'
    exact ⟨s', h1, h2⟩

/-- C11, amended, at a concrete session. -/
theorem compose_net_top_is_receiver_witness :
    ∃ s', (session [Net.mk0 1, Net.mk0 2]).compose_net termEngine = Except.ok s'
      ∧ s'.stack_ = [termEngine.optimize ((Net.mk0 1).bin "compose" (Net.mk0 2))] :=
  (compose_net_top_is_receiver termEngine (session [Net.mk0 1, Net.mk0 2]) (Net.mk0 1)
    (Net.mk0 2) rfl rfl).1 (Or.inl (by decide)) _ rfl

/-- C12, as stated, fails: with both operands carrying flag diacritics and
`harmonize-flags` being `OFF`, `compose_net` calls the engine's `compose` and
replaces the two operands by the optimized result. -/
theorem compose_net_flags_counterexample :
    termEngine.has_flag_diacritics (Net.flagged 1) = true
      ∧ termEngine.has_flag_diacritics (Net.flagged 2) = true
      ∧ (session [Net.flagged 1, Net.flagged 2]).var "harmonize-flags" = "OFF"
      ∧ ∃ s', (session [Net.flagged 1, Net.flagged 2]).compose_net termEngine = Except.ok s'
        ∧ s'.stack_ = [termEngine.optimize ((Net.flagged 1).bin "compose" (Net.flagged 2))]
        ∧ s'.stack_ ≠ [Net.flagged 1, Net.flagged 2] :=
  ⟨by decide, by decide, by decide, _, rfl, by decide, by decide⟩

/-- Outside verbose mode `print_transducer_info` writes nothing on the error
stream. -/
theorem print_transducer_info_error_quiet {T : Type} (E : Engine T) (s : XfstCompiler T)
    (hv : s.verbose_ = false) : (s.print_transducer_info E).error_ = s.error_ := by
  unfold XfstCompiler.print_transducer_info
  rw [hv]
  rfl

/-- With a top network that is not in a lookup-optimized format
`print_transducer_info` writes nothing on the error stream. -/
theorem print_transducer_info_error_plain {T : Type} (E : Engine T) (s : XfstCompiler T)
    (t : T) (rest : List T) (hs : s.stack_ = t :: rest)
    (h1 : E.get_type t ≠ ImplementationType.HFST_OL_TYPE)
    (h2 : E.get_type t ≠ ImplementationType.HFST_OLW_TYPE) :
    (s.print_transducer_info E).error_ = s.error_ := by
  unfold XfstCompiler.print_transducer_info
  rw [hs]
  simp only []
  split
  · split
    · rfl
    · split
      · unfold XfstCompiler.print_sigma
        rw [top_some E (s.OUTPUT _) t rest hs h1 h2]
        simp
      · rfl
  · rfl

/-- C12, amended: when `compose_net` is applied to two networks of one format
that both carry flag diacritics while `harmonize-flags` is `OFF`, the operands
are not harmonized and the engine's `compose` is called on the two operands
as they are; the optimized result replaces them. A hint is written on the
error stream in verbose mode only: outside verbose mode the error stream is
exactly as before, in verbose mode it gets the hint, followed by what the
closing report of the new top writes there, which is nothing unless that
network is in a lookup-optimized format. -/
theorem compose_net_flags_not_rejected {T : Type} (E : Engine T) (s : XfstCompiler T)
    (a b r : T) (hs : s.stack_ = [a, b]) (hty : E.get_type b = E.get_type a)
    (ha : E.has_flag_diacritics a = true) (hb : E.has_flag_diacritics b = true)
    (hoff : s.var "harmonize-flags" = "OFF") (hc : E.compose a b = Except.ok r) :
    ∃ s', s.compose_net E = Except.ok s' ∧ s'.stack_ = [E.optimize r]
      ∧ (s.verbose_ = false → s'.error_ = s.error_)
      ∧ (s.verbose_ = true → ∃ more, s'.error_ = s.error_
          ++ ["Both composition arguments contain flag diacritics. Set harmonize-flags ON to harmonize them.\n"]
          ++ more)
      ∧ (s.verbose_ = true →
          E.get_type (E.optimize r) ≠ ImplementationType.HFST_OL_TYPE →
          E.get_type (E.optimize r) ≠ ImplementationType.HFST_OLW_TYPE →
          s'.error_ = s.error_
            ++ ["Both composition arguments contain flag diacritics. Set harmonize-flags ON to harmonize them.\n"]) := by
  have hc' : fold_switch E (decide (s.var "harmonize-flags" = "OFF"))
      BinaryOperation.COMPOSE_NET a b = Except.ok r := by
    simp only [fold_switch]
    simpa [hoff] using hc
  unfold XfstCompiler.compose_net XfstCompiler.apply_binary_operation_iteratively
  rw [hs]
  simp only [fold_loop_compose_pair E s a b r hty hc']
  refine ⟨_, rfl, by simp, ?_, ?_, ?_⟩
  · intro hv
    rw [prompt_error, print_transducer_info_error_quiet E _ (by simp [hv])]
    simp [hv]
  · intro hv
    obtain ⟨more, hm⟩ := print_transducer_info_error_extends E
      { (if (E.has_flag_diacritics a && E.has_flag_diacritics b
            && decide (s.var "harmonize-flags" = "OFF") && s.verbose_) = true then
          s.ERROR "Both composition arguments contain flag diacritics. Set harmonize-flags ON to harmonize them."
        else s) with stack_ := [E.optimize r] }
    refine ⟨more, ?_⟩
    rw [prompt_error, hm]
    simp [ha, hb, hoff, hv]
  · intro hv h1 h2
    rw [prompt_error, print_transducer_info_error_plain E _ (E.optimize r) [] rfl h1 h2]
    simp [ha, hb, hoff, hv]

/-- C12, amended, at a concrete session, which is not verbose. -/
theorem compose_net_flags_not_rejected_witness :
    ∃ s', (session [Net.flagged 1, Net.flagged 2]).compose_net termEngine = Except.ok s'
      ∧ s'.stack_ = [termEngine.optimize ((Net.flagged 1).bin "compose" (Net.flagged 2))]
      ∧ s'.error_ = (session [Net.flagged 1, Net.flagged 2]).error_ :=
  (compose_net_flags_not_rejected termEngine (session [Net.flagged 1, Net.flagged 2])
    (Net.flagged 1) (Net.flagged 2) ((Net.flagged 1).bin "compose" (Net.flagged 2)) rfl rfl
    rfl rfl (by decide) rfl).imp (fun _ h => ⟨h.1, h.2.1, h.2.2.1 rfl⟩)

/-! ## Failure severities -/

/-- C13: `xfst_fail` sets the fail flag when `quit-on-fail` is `ON` and leaves
the session as it was otherwise; `xfst_lesser_fail` sets it when `quit-on-fail`
is `ON` and the session is not reading interactive text from stdin, and leaves
the session as it was otherwise; neither changes anything but the flag; and
`apply_binary_operation` on a stack of fewer than two networks leaves the flag
as `xfst_lesser_fail` does. -/
theorem fail_severities {T : Type} (E : Engine T) (s : XfstCompiler T) :
    (s.var "quit-on-fail" = "ON" → s.xfst_fail = { s with fail_flag_ := true })
      ∧ (s.var "quit-on-fail" ≠ "ON" → s.xfst_fail = s)
      ∧ ((s.var "quit-on-fail" = "ON" ∧ s.read_interactive_text_from_stdin_ = false) →
          s.xfst_lesser_fail = { s with fail_flag_ := true })
      ∧ (¬ (s.var "quit-on-fail" = "ON" ∧ s.read_interactive_text_from_stdin_ = false) →
          s.xfst_lesser_fail = s)
      ∧ (s.stack_.length < 2 → ∀ op, ∃ s', s.apply_binary_operation E op = Except.ok s'
          ∧ s'.fail_flag_ = s.xfst_lesser_fail.fail_flag_) := by
  refine ⟨?_, ?_, ?_, ?_, ?_⟩
  · intro h
    simp [XfstCompiler.xfst_fail, h]
  · intro h
    simp [XfstCompiler.xfst_fail, h]
  · intro h
    simp [XfstCompiler.xfst_lesser_fail, h]
  · intro h
    unfold XfstCompiler.xfst_lesser_fail
    rw [if_neg h]
  · intro h op
    unfold XfstCompiler.apply_binary_operation
    split
    · rename_i heq
      rw [heq] at h
      simp only [List.length_cons] at h
      omega
    · refine ⟨_, rfl, ?_⟩
      have hv : ∀ x : String, (s.ERROR x).var "quit-on-fail" = s.var "quit-on-fail" :=
        fun _ => rfl
      have hi : ∀ x : String, (s.ERROR x).read_interactive_text_from_stdin_
          = s.read_interactive_text_from_stdin_ := fun _ => rfl
      unfold XfstCompiler.xfst_lesser_fail
      rw [hv, hi]
      by_cases hc : s.var "quit-on-fail" = "ON" ∧ s.read_interactive_text_from_stdin_ = false
      · rw [if_pos hc, if_pos hc]
      · rw [if_neg hc, if_neg hc]
        rfl

/-- C13, at a concrete session: `quit-on-fail` is `ON`, the session reads
interactively, so `xfst_fail` sets the flag and `xfst_lesser_fail` does not. -/
theorem fail_severities_witness :
    ({ (session []).set "quit-on-fail" "ON" with
          read_interactive_text_from_stdin_ := true }).xfst_fail.fail_flag_ = true
      ∧ ({ (session []).set "quit-on-fail" "ON" with
          read_interactive_text_from_stdin_ := true }).xfst_lesser_fail.fail_flag_ = false :=
  ⟨congrArg XfstCompiler.fail_flag_
      ((fail_severities termEngine { (session []).set "quit-on-fail" "ON" with
        read_interactive_text_from_stdin_ := true }).1 (by decide)),
    congrArg XfstCompiler.fail_flag_
      ((fail_severities termEngine { (session []).set "quit-on-fail" "ON" with
        read_interactive_text_from_stdin_ := true }).2.2.2.1 (by decide))⟩

/-- The function `test_eq` on a stack of at least two networks. -/
theorem test_eq_enough {T : Type} (E : Engine T) (s : XfstCompiler T) (assertion : Bool)
    (first second : T) (rest : List T) (hs : s.stack_ = first :: second :: rest) :
    s.test_eq E assertion
      = ({ (({ s with stack_ := rest }).print_bool (E.compare first second)) with
            stack_ := first :: second :: rest }).MAYBE_ASSERT assertion
          (E.compare first second) := by
  unfold XfstCompiler.test_eq
  simp only [hs]
  rfl

/-- The flag after the macro `MAYBE_ASSERT`. -/
theorem MAYBE_ASSERT_fail {T : Type} (s : XfstCompiler T) (assertion value : Bool) :
    (s.MAYBE_ASSERT assertion value).fail_flag_
      = if value = false
          ∧ ((s.var "assert" = "ON" ∨ assertion = true) ∧ s.var "quit-on-fail" = "ON") then true
        else s.fail_flag_ := by
  unfold XfstCompiler.MAYBE_ASSERT
  split <;> rfl

/-- C14: `test_eq` on a stack with at least two networks, with `r` the result
of the comparison of the two topmost and `assertion` its argument, sets the
fail flag when `r` is false, `quit-on-fail` is `ON` and the argument is true
or the variable `assert` is `ON`, whatever `read_interactive_text_from_stdin_`
is; when `r` is true or `quit-on-fail` is not `ON` it leaves the flag as it
was. The stack is left as it was. -/
theorem test_eq_assert {T : Type} (E : Engine T) (s : XfstCompiler T) (assertion : Bool)
    (first second : T) (rest : List T) (hs : s.stack_ = first :: second :: rest) :
    (E.compare first second = false → s.var "quit-on-fail" = "ON" →
        (assertion = true ∨ s.var "assert" = "ON") →
        ∀ interactive : Bool,
          (({ s with read_interactive_text_from_stdin_ := interactive }).test_eq E
            assertion).fail_flag_ = true)
      ∧ ((E.compare first second = true ∨ s.var "quit-on-fail" ≠ "ON") →
          (s.test_eq E assertion).fail_flag_ = s.fail_flag_)
      ∧ (s.test_eq E assertion).stack_ = s.stack_ := by
  refine ⟨?_, ?_, ?_⟩
  · intro hr hq ha interactive
    rw [test_eq_enough E { s with read_interactive_text_from_stdin_ := interactive } assertion
      first second rest hs, MAYBE_ASSERT_fail, if_pos]
    exact ⟨hr, Or.symm ha, hq⟩
  · intro h
    rw [test_eq_enough E s assertion first second rest hs, MAYBE_ASSERT_fail, if_neg]
    · rfl
    · rintro ⟨h1, _, h3⟩
      rcases h with h | h
      · rw [h] at h1
        cases h1
      · exact h h3
  · rw [test_eq_enough E s assertion first second rest hs, hs]
    unfold XfstCompiler.MAYBE_ASSERT
    split <;> rfl

/-- C14, at a concrete session: two different networks, `quit-on-fail` `ON`,
an asserting test, an interactive session. -/
theorem test_eq_assert_witness :
    (({ (session [Net.mk0 1, Net.mk0 2]).set "quit-on-fail" "ON" with
        read_interactive_text_from_stdin_ := true }).test_eq termEngine true).fail_flag_
      = true :=
  (test_eq_assert termEngine ((session [Net.mk0 1, Net.mk0 2]).set "quit-on-fail" "ON") true
    (Net.mk0 1) (Net.mk0 2) [] rfl).1 (by decide) (by decide) (Or.inl rfl) true

/-- A statement keeps a set fail flag. -/
theorem flag_statement_keeps {T : Type} (statement : FlagStatement T) (s : XfstCompiler T)
    (h : s.fail_flag_ = true) : (statement.run s).fail_flag_ = true := by
  cases statement with
  | xfst_fail => exact xfst_fail_keeps s h
  | xfst_lesser_fail => exact xfst_lesser_fail_keeps s h
  | MAYBE_QUIT => exact MAYBE_QUIT_keeps s h
  | MAYBE_ASSERT assertion value => exact MAYBE_ASSERT_keeps s assertion value h
  | IF_NULL_PROMPT_AND_RETURN_THIS => exact IF_NULL_keeps s h
  | fatal_assignment => rfl
  | other f => exact h

/-- An operation that returns keeps a set fail flag. -/
theorem operation_keeps {T : Type} (op : Operation T) :
    ∀ s s' : XfstCompiler T, s.fail_flag_ = true → op.run s = Except.ok s' →
      s'.fail_flag_ = true := by
  induction op with
  | done =>
    intro s s' h hr
    injection hr with hr
    rw [← hr]
    exact h
  | raise e =>
    intro s s' _ hr
    cases hr
  | step statement next ih =>
    intro s s' h hr
    rw [Operation.run] at hr
    exact ih (statement.run s) (statement.run s) s' (flag_statement_keeps statement s h) hr

section tables

variable {T : Type}

@[simp] theorem ERROR_lists (s : XfstCompiler T) (x : String) :
    (s.ERROR x).lists_ = s.lists_ := rfl

@[simp] theorem ERROR_definitions (s : XfstCompiler T) (x : String) :
    (s.ERROR x).definitions_ = s.definitions_ := rfl

@[simp] theorem ERROR_variables (s : XfstCompiler T) (x : String) :
    (s.ERROR x).variables_ = s.variables_ := rfl

@[simp] theorem prompt_lists (s : XfstCompiler T) : s.prompt.lists_ = s.lists_ := by
  unfold XfstCompiler.prompt
  split <;> rfl

@[simp] theorem prompt_definitions (s : XfstCompiler T) :
    s.prompt.definitions_ = s.definitions_ := by
  unfold XfstCompiler.prompt
  split <;> rfl

@[simp] theorem prompt_variables (s : XfstCompiler T) : s.prompt.variables_ = s.variables_ := by
  unfold XfstCompiler.prompt
  split <;> rfl

@[simp] theorem MAYBE_QUIT_lists (s : XfstCompiler T) : s.MAYBE_QUIT.lists_ = s.lists_ := by
  unfold XfstCompiler.MAYBE_QUIT
  split <;> rfl

@[simp] theorem MAYBE_QUIT_definitions (s : XfstCompiler T) :
    s.MAYBE_QUIT.definitions_ = s.definitions_ := by
  unfold XfstCompiler.MAYBE_QUIT
  split <;> rfl

@[simp] theorem MAYBE_QUIT_error (s : XfstCompiler T) : s.MAYBE_QUIT.error_ = s.error_ := by
  unfold XfstCompiler.MAYBE_QUIT
  split <;> rfl

end tables

/-- C16: `define_list(name, values)` called while `name` is bound in the
definition table, and `define(name, xre)` called while `name` is bound in the
list table, each write their error message and leave the list table and the
definition table as they were. -/
theorem cross_kind_redefinition_rejected {T : Type} (E : Engine T) (s : XfstCompiler T)
    (name : String) :
    (s.definitions_.contains name = true → ∀ values,
        (s.define_list name values).lists_ = s.lists_
          ∧ (s.define_list name values).definitions_ = s.definitions_
          ∧ (s.define_list name values).error_ = s.error_
              ++ ["Error: '" ++ name ++ "' has already been defined as a transducer variable.\n"
                ++ "It cannot have an incompatible definition as a list.\n"
                ++ "Please undefine the definition first." ++ "\n"])
      ∧ (s.lists_.contains name = true → ∀ xre,
        (s.define_xre E name xre).lists_ = s.lists_
          ∧ (s.define_xre E name xre).definitions_ = s.definitions_
          ∧ (s.define_xre E name xre).error_ = s.error_
              ++ ["Error: '" ++ name ++ "' has already been defined as a list variable.\n"
                ++ "It cannot have an incompatible definition as a transducer.\n"
                ++ "Please undefine the variable first." ++ "\n"]) := by
  constructor
  · intro h values
    unfold XfstCompiler.define_list
    rw [if_pos h]
    exact ⟨by simp, by simp, by simp⟩
  · intro h xre
    unfold XfstCompiler.define_xre
    rw [if_pos h]
    exact ⟨by simp, by simp, by simp⟩

/-- C16, at a concrete session: `X` is a definition, `define_list X "a b"`
leaves both tables alone. -/
theorem cross_kind_redefinition_rejected_witness :
    (({ session [] with definitions_ := [("X", Net.mk0 1)] }).define_list "X" "a b").lists_ = []
      ∧ (({ session [] with definitions_ := [("X", Net.mk0 1)] }).define_list "X"
          "a b").definitions_ = [("X", Net.mk0 1)] :=
  ⟨((cross_kind_redefinition_rejected termEngine
      { session [] with definitions_ := [("X", Net.mk0 1)] } "X").1 (by decide) "a b").1,
   ((cross_kind_redefinition_rejected termEngine
      { session [] with definitions_ := [("X", Net.mk0 1)] } "X").1 (by decide) "a b").2.1⟩

/-- C17: the code at the failing inputs. From a fresh session, loading a
definition named `X` and then running `define_list X a c` (the range form),
or running `define_list X "a b"` and then loading a definition named `X`,
leaves `X` bound in both the list table and the definition table; so does
`define X` from the stack after `define_list X "a b"`. Neither
`define_list(name, start, end)`, nor `add_loaded_definition`, nor
`define(name)` looks at the other table. -/
theorem list_and_definition_both_bound :
    (match Command.run_all fdOperation termEngine
        [Command.add_loaded_definition (Net.named 1 "X"), Command.define_list_range "X" "a" "c"]
        (XfstCompiler.init Net ImplementationType.TROPICAL_OPENFST_TYPE) with
      | Except.ok s' => s'.definitions_.contains "X" && s'.lists_.contains "X"
      | Except.error _ => false) = true
    ∧ (match Command.run_all fdOperation termEngine
        [Command.define_list "X" "a b", Command.add_loaded_definition (Net.named 1 "X")]
        (XfstCompiler.init Net ImplementationType.TROPICAL_OPENFST_TYPE) with
      | Except.ok s' => s'.definitions_.contains "X" && s'.lists_.contains "X"
      | Except.error _ => false) = true
    ∧ (match Command.run_all fdOperation termEngine
        [Command.define_list "X" "a b", Command.define "X"] (session [Net.mk0 1]) with
      | Except.ok s' => s'.definitions_.contains "X" && s'.lists_.contains "X"
      | Except.error _ => false) = true := by
  decide

/-! ## Variables -/

/-- C18, as stated, fails: `compose-flag-as-special` is no key of the variable
table of a fresh session, and `set` with that name changes the table: it
writes the value under `flag-is-epsilon`. -/
theorem set_unknown_alias_counterexample :
    (XfstCompiler.init Net ImplementationType.TROPICAL_OPENFST_TYPE).variables_.contains
        "compose-flag-as-special" = false
      ∧ ((XfstCompiler.init Net ImplementationType.TROPICAL_OPENFST_TYPE).set
          "compose-flag-as-special" "ON").variables_
        ≠ (XfstCompiler.init Net ImplementationType.TROPICAL_OPENFST_TYPE).variables_
      ∧ ((XfstCompiler.init Net ImplementationType.TROPICAL_OPENFST_TYPE).set
          "compose-flag-as-special" "ON").var "flag-is-epsilon" = "ON" := by
  decide

/-- C18, amended: for every name that is no key of the variable table, other
than `compose-flag-as-special`, and every value, `set(name, text)` writes `no
such variable` on the error stream and leaves the variable table as it was;
`set(name, number)` does so for every name that is no key, that one included;
and `set("compose-flag-as-special", text)`, when that name is no key, writes a
notice on the error stream and stores `text` under `flag-is-epsilon`. -/
theorem set_unknown_variable {T : Type} (s : XfstCompiler T) (name : String)
    (h : s.variables_.contains name = false) :
    (name ≠ "compose-flag-as-special" → ∀ text,
        (s.set name text).variables_ = s.variables_
          ∧ (s.set name text).error_ = s.error_ ++ ["no such variable: '" ++ name ++ "'" ++ "\n"])
      ∧ (∀ number,
        (s.set_number name number).variables_ = s.variables_
          ∧ (s.set_number name number).error_
              = s.error_ ++ ["no such variable: '" ++ name ++ "'" ++ "\n"])
      ∧ (name = "compose-flag-as-special" → ∀ text,
        (s.set name text).variables_ = s.variables_.set "flag-is-epsilon" text
          ∧ (s.set name text).error_ = s.error_
              ++ ["variable compose-flag-as-special not found, using flag-is-epsilon instead\n"])
    := by
  refine ⟨?_, ?_, ?_⟩
  · intro hne text
    unfold XfstCompiler.set
    rw [if_pos h, if_neg hne]
    exact ⟨by simp, by simp⟩
  · intro number
    unfold XfstCompiler.set_number
    rw [if_pos h]
    exact ⟨by simp, by simp⟩
  · intro he text
    unfold XfstCompiler.set
    rw [if_pos h, if_pos he]
    simp only [prompt_variables, prompt_error]
    constructor
    · split <;> rfl
    · split <;> rfl

/-- C18, amended, at a concrete session: `set foo ON`. -/
theorem set_unknown_variable_witness :
    ((session []).set "foo" "ON").variables_ = (session []).variables_
      ∧ ((session []).set "foo" "ON").error_
          = (session []).error_ ++ ["no such variable: '" ++ "foo" ++ "'" ++ "\n"] :=
  (set_unknown_variable (session []) "foo" (by decide)).1 (by decide) "ON"

/-- C19, as stated, fails: on a fresh session `set("quit-on-fail", "MAYBE")`
and `set("obey-flags", "")` are accepted without any message, and the switch
then holds a value outside `ON` and `OFF`. -/
theorem set_switch_unvalidated_counterexample :
    ((XfstCompiler.init Net ImplementationType.TROPICAL_OPENFST_TYPE).set "quit-on-fail"
        "MAYBE").var "quit-on-fail" = "MAYBE"
      ∧ ((XfstCompiler.init Net ImplementationType.TROPICAL_OPENFST_TYPE).set "quit-on-fail"
        "MAYBE").error_ = []
      ∧ ((XfstCompiler.init Net ImplementationType.TROPICAL_OPENFST_TYPE).set "obey-flags"
        "").var "obey-flags" = ""
      ∧ "MAYBE" ≠ "ON" ∧ "MAYBE" ≠ "OFF" := by
  decide

/-- C19, amended: for a variable that is a key of the variable table,
`set(name, text)` stores `text` as given, whatever it is, and writes nothing
on the error stream: a write is not checked against a domain, only the name is
checked. -/
theorem set_stores_any_text {T : Type} (s : XfstCompiler T) (name text : String)
    (h : s.variables_.contains name = true) :
    (s.set name text).variables_ = s.variables_.set name text
      ∧ (s.set name text).var name = text
      ∧ (s.set name text).error_ = s.error_ := by
  have hv : (s.set name text).variables_ = s.variables_.set name text := by
    unfold XfstCompiler.set
    rw [if_neg (by simp [h])]
    simp only [prompt_variables]
    split <;> split <;> (try split) <;> (try split) <;> rfl
  refine ⟨hv, ?_, ?_⟩
  · unfold XfstCompiler.var
    rw [hv]
    exact StrMap.get_set_self _ _ _ _
  · unfold XfstCompiler.set
    rw [if_neg (by simp [h])]
    simp only [prompt_error]
    split <;> split <;> (try split) <;> (try split) <;> rfl

/-- C19, amended, at a concrete session: `set obey-flags PERHAPS`. -/
theorem set_stores_any_text_witness :
    ((session []).set "obey-flags" "PERHAPS").var "obey-flags" = "PERHAPS" :=
  (set_stores_any_text (session []) "obey-flags" "PERHAPS" (by decide)).2.1

/-! ## Function prototypes -/

/-- The first loop of `extract_function_arguments` finds the text after the
first opening parenthesis exactly when there is one. -/
theorem skip_function_name_eq (p : List Char) :
    skip_function_name p
      = if '(' ∈ p then some ((p.dropWhile (fun c => c ≠ '(')).drop 1) else none := by
  induction p with
  | nil => simp [skip_function_name]
  | cons c cs ih =>
    by_cases hc : c = '('
    · simp [skip_function_name, hc]
    · have hc' : ¬ '(' = c := fun h => hc h.symm
      simp [skip_function_name, hc, hc', ih]

theorem modifyHead_self (X : List (List Char)) : X.modifyHead (fun x => x) = X := by
  cases X <;> simp

/-- The second loop of `extract_function_arguments` on a text that holds a
closing parenthesis: it returns `true`, and adds to `args` the pieces of the
text before that parenthesis, spaces removed, split at the commas, the first
piece coming after what `arg` already holds. -/
theorem scan_arguments_found (cs : List Char) :
    ∀ (arg : List Char) (args : List String), ')' ∈ cs →
      scan_arguments cs arg args
        = (true, args ++ ((((cs.takeWhile (fun c => c ≠ ')')).filter (fun c => c ≠ ' ')).splitOn
            ',').modifyHead (fun x => arg ++ x)).map String.mk) := by
  induction cs with
  | nil => intro arg args h; simp at h
  | cons c cs ih =>
    intro arg args h
    by_cases h1 : c = ')'
    · simp [scan_arguments, h1, List.splitOn]
    · have hmem : ')' ∈ cs := by
        rcases List.mem_cons.1 h with h | h
        · exact absurd h.symm h1
        · exact h
      by_cases h2 : c = ' '
      · subst h2
        rw [scan_arguments, if_neg h1, if_pos rfl, ih arg args hmem]
        simp
      · by_cases h3 : c = ','
        · subst h3
          rw [scan_arguments, if_neg h1, if_neg h2, if_pos rfl, ih [] _ hmem]
          simp [List.splitOn, modifyHead_self]
        · rw [scan_arguments, if_neg h1, if_neg h2, if_neg h3, ih _ args hmem]
          simp [List.splitOn, h1, h2, h3, List.modifyHead_modifyHead]
          congr 1

/-- The second loop of `extract_function_arguments` on a text without a
closing parenthesis returns `false`. -/
theorem scan_arguments_missing (cs : List Char) :
    ∀ (arg : List Char) (args : List String), ')' ∉ cs →
      (scan_arguments cs arg args).1 = false := by
  induction cs with
  | nil => intro arg args _; rfl
  | cons c cs ih =>
    intro arg args h
    have h1 : c ≠ ')' := fun hc => h (by simp [hc])
    have hmem : ')' ∉ cs := fun hc => h (by simp [hc])
    rw [scan_arguments, if_neg h1]
    split
    · exact ih _ _ hmem
    · split
      · exact ih _ _ hmem
      · exact ih _ _ hmem

/-- Splitting at a separator gives one piece more than there are
separators. -/
theorem splitOn_length (l : List Char) : (l.splitOn ',').length = l.count ',' + 1 := by
  induction l with
  | nil => rfl
  | cons c cs ih =>
    unfold List.splitOn at ih ⊢
    rw [List.splitOnP_cons]
    by_cases h : c = ','
    · simp [h, ih]
    · have h' : (c == ',') = false := by simpa using h
      simp [h', ih, List.count_cons, h]

/-- Removing the spaces removes no comma. -/
theorem count_comma_filter (l : List Char) :
    (l.filter (fun c => c ≠ ' ')).count ',' = l.count ',' := by
  induction l with
  | nil => rfl
  | cons c cs ih =>
    by_cases h : c = ' '
    · subst h
      simp [ih]
    · by_cases h2 : c = ','
      · subst h2
        simp [ih]
      · simp [h, ih, List.count_cons, h2]

/-- A text holds an opening parenthesis with a closing one after the first
opening one exactly when it holds an opening parenthesis that is followed
somewhere later by a closing one. -/
theorem closing_after_opening_iff (p : List Char) :
    ('(' ∈ p ∧ ')' ∈ (p.dropWhile (fun c => c ≠ '(')).drop 1)
      ↔ ∃ pre mid post, p = pre ++ '(' :: (mid ++ ')' :: post) := by
  constructor
  · rintro ⟨-, h2⟩
    induction p with
    | nil => simp at h2
    | cons c cs ih =>
      by_cases hc : c = '('
      · subst hc
        have hd : (('(' :: cs).dropWhile (fun c => c ≠ '(')).drop 1 = cs := by simp
        rw [hd] at h2
        obtain ⟨mid, post, hmp⟩ := List.append_of_mem h2
        exact ⟨[], mid, post, by simp [hmp]⟩
      · have hd : (c :: cs).dropWhile (fun c => c ≠ '(') = cs.dropWhile (fun c => c ≠ '(') := by
          simp [List.dropWhile, hc]
        rw [hd] at h2
        obtain ⟨pre, mid, post, h⟩ := ih h2
        exact ⟨c :: pre, mid, post, by simp [h]⟩
  · rintro ⟨pre, mid, post, rfl⟩
    refine ⟨by simp, ?_⟩
    induction pre with
    | nil => simp
    | cons c pre ih =>
      by_cases hc : c = '('
      · subst hc
        simp
      · simpa [hc] using ih

/-- C20: `extract_function_arguments`, started with an empty vector, succeeds
exactly when the prototype holds an opening parenthesis that is followed
somewhere later by a closing one. On success the names returned are those the
text strictly between the first opening parenthesis and the first closing one
after it spells: that text with every space removed, split at each comma, in
order; their number is one more than the number of commas of that text. So
`F()` yields the single empty name. -/
theorem extract_function_arguments_spec (prototype : String) :
    ((extract_function_arguments prototype []).1 = true
        ↔ ∃ pre mid post, prototype.data = pre ++ '(' :: (mid ++ ')' :: post))
      ∧ ((extract_function_arguments prototype []).1 = true
        ↔ (between_parentheses prototype.data).isSome = true)
      ∧ (∀ text, between_parentheses prototype.data = some text →
          extract_function_arguments prototype [] = (true, argument_names text)
            ∧ (argument_names text).length = text.count ',' + 1)
      ∧ extract_function_arguments "F()" [] = (true, [""]) := by
  have hsucc : (extract_function_arguments prototype []).1 = true
      ↔ ('(' ∈ prototype.data
          ∧ ')' ∈ (prototype.data.dropWhile (fun c => c ≠ '(')).drop 1) := by
    unfold extract_function_arguments
    rw [skip_function_name_eq]
    by_cases h1 : '(' ∈ prototype.data
    · rw [if_pos h1]
      simp only [h1, true_and]
      by_cases h2 : ')' ∈ (prototype.data.dropWhile (fun c => c ≠ '(')).drop 1
      · rw [scan_arguments_found _ [] [] h2]
        exact ⟨fun _ => h2, fun _ => rfl⟩
      · rw [scan_arguments_missing _ [] [] h2]
        exact ⟨fun h => (by cases h), fun h => absurd h h2⟩
    · rw [if_neg h1]
      simp [h1]
  refine ⟨?_, ?_, ?_, by decide⟩
  · rw [hsucc]
    exact closing_after_opening_iff prototype.data
  · rw [hsucc]
    unfold between_parentheses
    simp only []
    split <;> simp_all
  · intro text htext
    unfold between_parentheses at htext
    simp only [] at htext
    split at htext
    · rename_i hcond
      injection htext with htext
      subst htext
      constructor
      · unfold extract_function_arguments
        rw [skip_function_name_eq, if_pos hcond.1]
        simp only []
        rw [scan_arguments_found _ [] [] hcond.2]
        simp [argument_names, modifyHead_self]
      · unfold argument_names
        rw [List.length_map, splitOn_length, count_comma_filter]
    · cases htext

/-- C20, at a concrete prototype: `Foo(x, y)` yields `x` and `y`. -/
theorem extract_function_arguments_spec_witness :
    extract_function_arguments "Foo(x, y)" [] = (true, argument_names ['x', ',', ' ', 'y'])
      ∧ (argument_names ['x', ',', ' ', 'y']).length = ['x', ',', ' ', 'y'].count ',' + 1 :=
  (extract_function_arguments_spec "Foo(x, y)").2.2.1 ['x', ',', ' ', 'y'] (by decide)

/-! ## Function definitions -/

theorem extract_function_name_loop_fails (p : List Char) :
    ∀ name : List Char, (extract_function_name_loop p name).1 = false ↔ '(' ∉ p := by
  induction p with
  | nil => intro name; simp [extract_function_name_loop]
  | cons c cs ih =>
    intro name
    rw [extract_function_name_loop]
    by_cases hc : c = '('
    · subst hc
      simp
    · rw [if_neg hc, ih]
      simp [hc, Ne.symm hc]

theorem extract_function_arguments_fails (prototype : String) :
    (extract_function_arguments prototype []).1 = false
      ↔ ¬ ∃ pre mid post, prototype.data = pre ++ '(' :: (mid ++ ')' :: post) := by
  rw [← closing_after_opening_iff]
  unfold extract_function_arguments
  rw [skip_function_name_eq]
  by_cases h1 : '(' ∈ prototype.data
  · rw [if_pos h1]
    simp only [h1, true_and]
    by_cases h2 : ')' ∈ (prototype.data.dropWhile (fun c => c ≠ '(')).drop 1
    · rw [scan_arguments_found _ [] [] h2]
      exact ⟨fun h => (by cases h), fun h => absurd h2 h⟩
    · rw [scan_arguments_missing _ [] [] h2]
      exact ⟨fun _ => h2, fun _ => rfl⟩
  · rw [if_neg h1]
    simp [h1]

theorem replace_positions_skip (len : Nat) (marker : List Char) (as rest : List Char) :
    ∀ (i : Nat) (P : List Nat),
      replace_positions len marker (as ++ rest) i as.length P
        = replace_positions len marker rest (i + as.length) 0 P := by
  induction as with
  | nil => intro i P; rfl
  | cons a as ih =>
    intro i P
    have h : replace_positions len marker ((a :: as) ++ rest) i (a :: as).length P
        = replace_positions len marker (as ++ rest) (i + 1) as.length P := by
      simp [replace_positions]
    rw [h, ih]
    simp only [List.length_cons]
    rw [Nat.add_assoc, Nat.add_comm 1]

theorem items_positions_ge (len : Nat) (items : List (Option Char)) :
    ∀ (i j : Nat), j ∈ items_positions len items i → i ≤ j := by
  induction items with
  | nil => intro i j h; simp [items_positions] at h
  | cons x rest ih =>
    intro i j h
    cases x with
    | none =>
      simp only [items_positions, List.mem_cons] at h
      rcases h with h | h
      · omega
      · have := ih _ _ h
        omega
    | some c =>
      simp only [items_positions] at h
      have := ih _ _ h
      omega

/-- One pass of the loop `go through retval`: on a body made of occurrences
of a non-empty argument symbol and of other characters, with the occurrences
starting exactly at the reported positions, the pass replaces every
occurrence by the marker and copies every other character. -/
theorem replace_positions_items (arg marker : List Char) (harg : arg ≠ [])
    (items : List (Option Char)) :
    ∀ (i : Nat) (P : List Nat),
      (∀ j, i ≤ j → (j ∈ P ↔ j ∈ items_positions arg.length items i)) →
      replace_positions arg.length marker (items_text arg items) i 0 P
        = items_rewritten marker items := by
  induction items with
  | nil => intro i P _; rfl
  | cons x rest ih =>
    intro i P hP
    cases x with
    | none =>
      obtain ⟨a, as, rfl⟩ := List.exists_cons_of_ne_nil harg
      have hi : i ∈ P := (hP i (Nat.le_refl i)).2 (by simp [items_positions])
      have h1 : replace_positions (a :: as).length marker
            (items_text (a :: as) (none :: rest)) i 0 P
          = marker ++ replace_positions (a :: as).length marker (as ++ items_text (a :: as) rest)
              (i + 1) as.length (P.filter (fun j => j ≠ i)) := by
        simp [items_text, replace_positions, hi]
      rw [h1, replace_positions_skip, items_rewritten]
      congr 1
      have hlen : i + 1 + as.length = i + (a :: as).length := by
        simp only [List.length_cons]
        omega
      rw [hlen]
      apply ih
      intro j hj
      have hne : j ≠ i := by
        simp only [List.length_cons] at hj
        omega
      have := hP j (by omega)
      simp only [items_positions, List.mem_cons] at this
      simp only [List.mem_filter, decide_eq_true_eq]
      constructor
      · rintro ⟨h, -⟩
        rcases this.1 h with h' | h'
        · exact absurd h' hne
        · exact h'
      · intro h
        exact ⟨this.2 (Or.inr h), hne⟩
    | some c =>
      have hi : i ∉ P := by
        intro h
        have h' := (hP i (Nat.le_refl i)).1 h
        simp only [items_positions] at h'
        have := items_positions_ge _ _ _ _ h'
        omega
      have h1 : replace_positions arg.length marker (items_text arg (some c :: rest)) i 0 P
          = c :: replace_positions arg.length marker (items_text arg rest) (i + 1) 0 P := by
        simp [items_text, replace_positions, hi]
      rw [h1, items_rewritten]
      congr 1
      apply ih
      intro j hj
      have := hP j (by omega)
      simpa only [items_positions] using this

/-- C21: `convert_argument_symbols` rewrites by argument position. One turn
of its loop, for the argument number `arg_number` with the non-empty name
`arg`, on a body made of occurrences of `arg` and of other characters, whose
occurrences start exactly at the positions the oracle reports: every
occurrence is replaced by the marker of that number and every other character
is copied in order, and the loop goes on with the next argument and the next
number on the rewritten body. The marker is the quoted
`@<function name><number>@`, or `ARGUMENT<number>` in display mode; the
numbering starts at 1. So for the body `x y` the prototypes `Foo(x,y)` and
`Foo(y,x)` give distinct internal forms. -/
theorem convert_argument_symbols_by_position
    (get_positions : String → String → Option (List Nat)) (function_name : String)
    (user_friendly : Bool) (arg : String) (rest : List String) (items : List (Option Char))
    (arg_number : Nat) (P : List Nat) (harg : arg.data ≠ [])
    (horacle : get_positions arg (String.mk (items_text arg.data items)) = some P)
    (hP : ∀ j, j ∈ P ↔ j ∈ items_positions arg.data.length items 0) :
    convert_argument_symbols_loop get_positions function_name user_friendly (arg :: rest)
        (String.mk (items_text arg.data items)) arg_number
      = convert_argument_symbols_loop get_positions function_name user_friendly rest
          (String.mk (items_rewritten
            (substituting_argument function_name user_friendly arg_number).data items))
          (arg_number + 1)
      ∧ substituting_argument function_name false arg_number
          = "\"@" ++ function_name ++ toString arg_number ++ "@\""
      ∧ substituting_argument function_name true arg_number = "ARGUMENT" ++ toString arg_number
      ∧ (∀ arguments xre, convert_argument_symbols get_positions arguments xre function_name
          user_friendly
          = convert_argument_symbols_loop get_positions function_name user_friendly arguments
              xre 1)
      ∧ (∀ xre n, convert_argument_symbols_loop get_positions function_name user_friendly []
          xre n = xre)
      ∧ convert_argument_symbols termEngine.get_positions_of_symbol_in_xre
          (extract_function_arguments "Foo(x,y)" []).2 "x y"
          (extract_function_name "Foo(x,y)" "").2 false = "\"@Foo(1@\" \"@Foo(2@\""
      ∧ convert_argument_symbols termEngine.get_positions_of_symbol_in_xre
          (extract_function_arguments "Foo(y,x)" []).2 "x y"
          (extract_function_name "Foo(y,x)" "").2 false = "\"@Foo(2@\" \"@Foo(1@\"" := by
  refine ⟨?_, rfl, rfl, fun _ _ => rfl, fun _ _ => rfl, by decide, by decide⟩
  rw [convert_argument_symbols_loop, horacle]
  simp only []
  rw [replace_positions_items arg.data _ harg items 0 P (fun j _ => hP j)]

/-- C21, at a concrete body: the first turn of the loop for `Foo(x,y)` on the
body `x y`. -/
theorem convert_argument_symbols_by_position_witness :
    convert_argument_symbols_loop termEngine.get_positions_of_symbol_in_xre "Foo(" false
        ["x", "y"] "x y" 1
      = convert_argument_symbols_loop termEngine.get_positions_of_symbol_in_xre "Foo(" false
          ["y"] "\"@Foo(1@\" y" 2 :=
  (convert_argument_symbols_by_position termEngine.get_positions_of_symbol_in_xre "Foo(" false
    "x" ["y"] [none, some ' ', some 'y'] 1 [0] (by decide) (by decide)
    (fun _ => Iff.rfl)).1

/-- C22: when the prototype has no opening parenthesis, or no closing one
after an opening one, or the rewriting of the body for the extracted name and
arguments yields the empty string, or the regular-expression compiler refuses
the definition, `define_function` writes one error line, runs `xfst_fail` and
prompts, and does nothing else: the arity table, the display-body table and
the original-prototype table (and what the compiler knows of functions) are
as before the call. -/
theorem define_function_atomic {T : Type} (E : Engine T) (s : XfstCompiler T)
    (prototype xre : String)
    (h : '(' ∉ prototype.data
      ∨ (¬ ∃ pre mid post, prototype.data = pre ++ '(' :: (mid ++ ')' :: post))
      ∨ convert_argument_symbols E.get_positions_of_symbol_in_xre
          (extract_function_arguments prototype []).2 xre (extract_function_name prototype "").2
          false = ""
      ∨ E.xre_define_function (extract_function_name prototype "").2
          (extract_function_arguments prototype []).2.length
          (convert_argument_symbols E.get_positions_of_symbol_in_xre
            (extract_function_arguments prototype []).2 xre
            (extract_function_name prototype "").2 false) = false) :
    (∃ msg, s.define_function E prototype xre = ((s.ERROR msg).xfst_fail).prompt)
      ∧ (s.define_function E prototype xre).function_arguments_ = s.function_arguments_
      ∧ (s.define_function E prototype xre).function_definitions_ = s.function_definitions_
      ∧ (s.define_function E prototype xre).original_function_definitions_
          = s.original_function_definitions_
      ∧ (s.define_function E prototype xre).xre_functions_ = s.xre_functions_ := by
  have hkey : ∃ msg, s.define_function E prototype xre = ((s.ERROR msg).xfst_fail).prompt := by
    unfold XfstCompiler.define_function
    simp only []
    split
    · exact ⟨_, rfl⟩
    · rename_i hn
      split
      · exact ⟨_, rfl⟩
      · rename_i ha
        split
        · exact ⟨_, rfl⟩
        · rename_i hc
          split
          · exact ⟨_, rfl⟩
          · rename_i hd
            exfalso
            rcases h with h | h | h | h
            · apply hn
              unfold extract_function_name
              exact (extract_function_name_loop_fails _ _).2 h
            · exact ha ((extract_function_arguments_fails prototype).2 h)
            · exact hc h
            · exact hd h
  obtain ⟨msg, hmsg⟩ := hkey
  have htab : ∀ t : XfstCompiler T,
      (t.xfst_fail.prompt).function_arguments_ = t.function_arguments_
      ∧ (t.xfst_fail.prompt).function_definitions_ = t.function_definitions_
      ∧ (t.xfst_fail.prompt).original_function_definitions_ = t.original_function_definitions_
      ∧ (t.xfst_fail.prompt).xre_functions_ = t.xre_functions_ := by
    intro t
    unfold XfstCompiler.prompt XfstCompiler.xfst_fail
    split <;> split <;> exact ⟨rfl, rfl, rfl, rfl⟩
  rw [hmsg]
  exact ⟨⟨msg, rfl⟩, htab (s.ERROR msg)⟩

/-- C22, at a concrete session: a prototype without a closing parenthesis
defines nothing. -/
theorem define_function_atomic_witness :
    (∃ msg, (session []).define_function termEngine "Foo(x,y" "x y"
        = (((session []).ERROR msg).xfst_fail).prompt)
      ∧ ((session []).define_function termEngine "Foo(x,y" "x y").function_arguments_
          = (session []).function_arguments_
      ∧ ((session []).define_function termEngine "Foo(x,y" "x y").function_definitions_
          = (session []).function_definitions_
      ∧ ((session []).define_function termEngine "Foo(x,y" "x y").original_function_definitions_
          = (session []).original_function_definitions_
      ∧ ((session []).define_function termEngine "Foo(x,y" "x y").xre_functions_
          = (session []).xre_functions_ :=
  define_function_atomic termEngine (session []) "Foo(x,y" "x y"
    (Or.inr (Or.inl (by
      rw [← extract_function_arguments_fails]
      decide)))

/-! ## Operands after an engine error -/

/-- C26 fails on the composition path: with an engine whose `reverse` is not
implemented, whose `cross_product` wants automata and whose `compose` wants
identity flags, on the stack `[1, 2]` (`1` on top) `apply_unary_operation`
and `apply_binary_operation` leave the stack `[1, 2]`, while
`apply_binary_operation_iteratively` leaves `[2]`: the catch block of the
composition returns without pushing the popped `result` back. -/
theorem compose_error_loses_top :
    (∃ s', (session [Net.mk0 1, Net.mk0 2]).apply_unary_operation raisingEngine
          UnaryOperation.REVERSE_NET = Except.ok s'
        ∧ s'.stack_ = [Net.mk0 1, Net.mk0 2])
      ∧ (∃ s', (session [Net.mk0 1, Net.mk0 2]).apply_binary_operation raisingEngine
          BinaryOperation.CROSSPRODUCT_NET = Except.ok s'
        ∧ s'.stack_ = [Net.mk0 1, Net.mk0 2])
      ∧ (∃ s', (session [Net.mk0 1, Net.mk0 2]).apply_binary_operation_iteratively raisingEngine
          BinaryOperation.COMPOSE_NET = Except.ok s'
        ∧ s'.stack_ = [Net.mk0 2] ∧ s'.stack_ ≠ [Net.mk0 1, Net.mk0 2]) :=
  ⟨⟨_, rfl, rfl⟩, ⟨_, rfl, rfl⟩, ⟨_, rfl, rfl, by decide⟩⟩

/-! ## Stack order -/

theorem turn_fill_eq {T : Type} (stack : List T) :
    ∀ tmp : List T, turn_fill stack tmp = tmp ++ stack := by
  induction stack with
  | nil => intro tmp; simp [turn_fill]
  | cons t rest ih => intro tmp; simp [turn_fill, ih]

theorem turn_drain_eq {T : Type} (tmp : List T) :
    ∀ stack : List T, turn_drain tmp stack = tmp.reverse ++ stack := by
  induction tmp with
  | nil => intro stack; simp [turn_drain]
  | cons t rest ih => intro stack; simp [turn_drain, ih]

theorem rotate_fill_eq {T : Type} (stack : List T) :
    ∀ tmp : List T, rotate_fill stack tmp = stack.reverse ++ tmp := by
  induction stack with
  | nil => intro tmp; simp [rotate_fill]
  | cons t rest ih => intro tmp; simp [rotate_fill, ih]

theorem turn_stack {T : Type} (E : Engine T) (s : XfstCompiler T) :
    (s.turn E).stack_ = s.stack_.reverse := by
  unfold XfstCompiler.turn
  rw [prompt_stack, print_transducer_info_stack]
  simp [turn_fill_eq, turn_drain_eq]

theorem rotate_stack {T : Type} (E : Engine T) (s : XfstCompiler T) :
    (s.rotate E).stack_ = s.stack_.reverse := by
  unfold XfstCompiler.rotate
  split
  · rename_i h
    rw [prompt_stack, h]
    rfl
  · rename_i t rest h
    rw [prompt_stack, print_transducer_info_stack, h]
    simp [rotate_fill_eq]

/-- C28: `turn` and `rotate` do the same to the stack: each leaves the
networks in reversed order, so either one applied twice, or one after the
other, gives the original stack back. -/
theorem turn_rotate_reverse {T : Type} (E : Engine T) (s : XfstCompiler T) :
    (s.turn E).stack_ = s.stack_.reverse
      ∧ (s.rotate E).stack_ = s.stack_.reverse
      ∧ (s.turn E).stack_ = (s.rotate E).stack_
      ∧ ((s.turn E).turn E).stack_ = s.stack_
      ∧ ((s.rotate E).rotate E).stack_ = s.stack_
      ∧ ((s.turn E).rotate E).stack_ = s.stack_
      ∧ ((s.rotate E).turn E).stack_ = s.stack_ := by
  refine ⟨turn_stack E s, rotate_stack E s, ?_, ?_, ?_, ?_, ?_⟩
  · rw [turn_stack, rotate_stack]
  · rw [turn_stack, turn_stack, List.reverse_reverse]
  · rw [rotate_stack, rotate_stack, List.reverse_reverse]
  · rw [rotate_stack, turn_stack, List.reverse_reverse]
  · rw [turn_stack, rotate_stack, List.reverse_reverse]

/-! ## Path bookkeeping of `inspect_net` -/

theorem erase_from_state_sublist (l : List Nat) (state : Nat) :
    (erase_from_state l state).Sublist l := by
  induction l with
  | nil => exact List.Sublist.refl _
  | cons x xs ih =>
    rw [erase_from_state]
    split
    · exact List.nil_sublist _
    · exact List.Sublist.cons₂ x ih

theorem erase_from_state_not_mem (l : List Nat) (state : Nat) :
    state ∉ erase_from_state l state := by
  induction l with
  | nil => simp [erase_from_state]
  | cons x xs ih =>
    rw [erase_from_state]
    split
    · simp
    · rename_i h
      intro hm
      rcases List.mem_cons.1 hm with hm | hm
      · exact h hm.symm
      · exact ih hm

/-- The step `erase from the first occurrence, then push` that both functions
share keeps `shortest_path` free of repetitions and makes the state its last
element. -/
theorem erase_push_nodup (l : List Nat) (state : Nat) (h : l.Nodup) :
    (erase_from_state l state ++ [state]).Nodup
      ∧ (erase_from_state l state ++ [state]).getLast? = some state := by
  refine ⟨?_, List.getLast?_concat _⟩
  rw [List.nodup_append]
  refine ⟨List.Nodup.sublist (erase_from_state_sublist l state) h, List.nodup_singleton _, ?_⟩
  intro x hx hx'
  rw [List.mem_singleton.1 hx'] at hx
  exact erase_from_state_not_mem l state hx

/-- One step of the bookkeeping keeps `shortest_path` free of repetitions
and ending with the last state of `whole_path`. -/
theorem run_path_steps_invariant (steps : List PathStep) :
    ∀ p : List Nat × List Nat, p.2.Nodup → p.2.getLast? = p.1.getLast? →
      (run_path_steps steps p).2.Nodup
        ∧ (run_path_steps steps p).2.getLast? = (run_path_steps steps p).1.getLast? := by
  induction steps with
  | nil => intro p h1 h2; exact ⟨h1, h2⟩
  | cons st rest ih =>
    intro p h1 h2
    cases st with
    | append state =>
      rw [run_path_steps]
      apply ih
      · exact (erase_push_nodup p.2 state h1).1
      · unfold append_state_to_paths
        simp only []
        rw [List.getLast?_concat, List.getLast?_concat]
    | back level =>
      rw [run_path_steps]
      apply ih
      · unfold return_to_level
        split
        · exact h1
        · exact (erase_push_nodup p.2 _ h1).1
      · unfold return_to_level
        split
        · exact h2
        · rename_i hc
          simp only []
          rw [List.getLast?_concat, List.getLastD_eq_getLast?]
          have hne : p.1.take level ≠ [] := by
            intro hnil
            rcases List.take_eq_nil_iff.1 hnil with h | h
            · exact hc (Or.inr h)
            · apply hc
              rw [h]
              left
              simp only [List.length_nil]
              omega
          cases hl : (p.1.take level).getLast? with
          | none => exact absurd (List.getLast?_eq_none_iff.1 hl) hne
          | some y => rfl

/-- As long as only `append_state_to_paths` is applied, `shortest_path` holds
states of `whole_path` only and is not longer. -/
theorem run_appends_embedded (states : List Nat) :
    ∀ p : List Nat × List Nat, (∀ x ∈ p.2, x ∈ p.1) → p.2.length ≤ p.1.length →
      (∀ x ∈ (run_path_steps (states.map PathStep.append) p).2,
          x ∈ (run_path_steps (states.map PathStep.append) p).1)
        ∧ (run_path_steps (states.map PathStep.append) p).2.length
            ≤ (run_path_steps (states.map PathStep.append) p).1.length
        ∧ (run_path_steps (states.map PathStep.append) p).1 = p.1 ++ states := by
  induction states with
  | nil => intro p h1 h2; exact ⟨h1, h2, by simp [run_path_steps]⟩
  | cons q rest ih =>
    intro p h1 h2
    rw [List.map_cons, run_path_steps]
    have hsub := erase_from_state_sublist p.2 q
    obtain ⟨i1, i2, i3⟩ := ih (append_state_to_paths p.1 p.2 q)
      (by
        intro x hx
        unfold append_state_to_paths at hx ⊢
        simp only [] at hx ⊢
        rcases List.mem_append.1 hx with hx | hx
        · exact List.mem_append_left _ (h1 x (hsub.subset hx))
        · exact List.mem_append_right _ hx)
      (by
        unfold append_state_to_paths
        simp only [List.length_append, List.length_singleton]
        have := hsub.length_le
        omega)
    refine ⟨i1, i2, ?_⟩
    rw [i3]
    unfold append_state_to_paths
    simp

section printing

variable {T : Type}

/-- The decoder of the concrete flag-diacritic syntax yields one of the six
operators on every diacritic. -/
theorem fdOperation_operator (sym : String) (h : fdOperation.is_diacritic sym = true) :
    ∃ op, (fdOperation.get_operator sym).data = [op] ∧ op ∈ ['P', 'N', 'R', 'D', 'C', 'U'] := by
  simp only [fdOperation] at h ⊢
  split at h
  · rename_i op rest heq
    rw [heq]
    refine ⟨op, rfl, ?_⟩
    simp only [Bool.and_eq_true, Bool.or_eq_true, decide_eq_true_eq] at h
    simp only [List.mem_cons, List.mem_singleton]
    tauto
  · cases h

/-- With a decoder that yields one of the six operators on every diacritic,
an iteration of `is_valid_string` neither fails its assertion nor throws. -/
theorem fd_step_returns (fd : FdOperation)
    (hwf : ∀ sym, fd.is_diacritic sym = true →
      ∃ op, (fd.get_operator sym).data = [op] ∧ op ∈ ['P', 'N', 'R', 'D', 'C', 'U'])
    (st : FdState) (sym : String) :
    (∃ st', fd_step fd st sym = FdStep.next st') ∨ fd_step fd st sym = FdStep.invalid := by
  unfold fd_step
  by_cases hd : fd.is_diacritic sym = true
  · rw [if_pos hd]
    obtain ⟨op, hop, hmem⟩ := hwf sym hd
    rw [hop]
    simp only [List.mem_cons, List.mem_singleton, List.not_mem_nil, or_false] at hmem
    rcases hmem with rfl | rfl | rfl | rfl | rfl | rfl
    · simp
    · simp
    · simp only []
      rw [if_neg (by decide), if_neg (by decide), if_pos trivial]
      split
      · split
        · exact Or.inr rfl
        · split
          · exact Or.inr rfl
          · exact Or.inl ⟨_, rfl⟩
      · exact Or.inl ⟨_, rfl⟩
    · simp only []
      rw [if_neg (by decide), if_neg (by decide), if_neg (by decide), if_pos trivial]
      split
      · split
        · exact Or.inr rfl
        · exact Or.inl ⟨_, rfl⟩
      · split
        · exact Or.inr rfl
        · exact Or.inl ⟨_, rfl⟩
    · simp
    · simp only []
      rw [if_neg (by decide), if_neg (by decide), if_neg (by decide), if_neg (by decide),
        if_neg (by decide), if_pos trivial]
      split
      · exact Or.inl ⟨_, rfl⟩
      · exact Or.inr rfl
  · rw [if_neg hd]
    exact Or.inl ⟨_, rfl⟩

/-- With such a decoder `is_valid_string` returns on every path. -/
theorem is_valid_string_from_returns (fd : FdOperation)
    (hwf : ∀ sym, fd.is_diacritic sym = true →
      ∃ op, (fd.get_operator sym).data = [op] ∧ op ∈ ['P', 'N', 'R', 'D', 'C', 'U'])
    (path : List String) : ∀ st, ∃ b, is_valid_string_from fd st path = some b := by
  induction path with
  | nil => intro st; exact ⟨true, rfl⟩
  | cons sym rest ih =>
    intro st
    rw [is_valid_string_from]
    rcases fd_step_returns fd hwf st sym with ⟨st', h⟩ | h
    · rw [h]
      exact ih st'
    · rw [h]
      exact ⟨false, rfl⟩

theorem written_paths_nil (fd : FdOperation) (s : XfstCompiler T) (n : Int) :
    s.written_paths fd [] n = [] := by
  unfold XfstCompiler.written_paths
  split <;> simp

theorem written_paths_zero (fd : FdOperation) (s : XfstCompiler T) (paths : HfstOneLevelPaths) :
    s.written_paths fd paths 0 = [] := by
  unfold XfstCompiler.written_paths
  simp

theorem written_paths_skip (fd : FdOperation) (s : XfstCompiler T) (it : Weight × List String)
    (rest : HfstOneLevelPaths) (n : Int) (h : s.passes_filter fd it.2 = false) :
    s.written_paths fd (it :: rest) n = s.written_paths fd rest n := by
  unfold XfstCompiler.written_paths
  simp [List.filter, h]

theorem written_paths_take (fd : FdOperation) (s : XfstCompiler T) (it : Weight × List String)
    (rest : HfstOneLevelPaths) (n : Int) (h : s.passes_filter fd it.2 = true) (hn : n ≠ 0) :
    s.written_paths fd (it :: rest) n = it :: s.written_paths fd rest (n - 1) := by
  unfold XfstCompiler.written_paths
  by_cases hneg : n < 0
  · have h1 : n - 1 < 0 := by omega
    simp [List.filter, h, hneg, h1]
  · have h1 : ¬ n - 1 < 0 := by omega
    obtain ⟨k, hk⟩ : ∃ k : Nat, n.toNat = k + 1 := ⟨n.toNat - 1, by omega⟩
    have h2 : (n - 1).toNat = k := by omega
    simp [List.filter, h, hneg, h1, hk, h2]

/-- What the outer loop of the one-level `print_paths` writes and returns,
when it returns: the lines of the written paths, and whether it had `retval`
set before or wrote a path. -/
theorem print_paths_one_loop_eq (fd : FdOperation) (E : Engine T) (s : XfstCompiler T)
    (paths : HfstOneLevelPaths) :
    ∀ (n : Int) (retval : Bool) (r : List String × Bool),
      s.print_paths_one_loop fd E paths n retval = some r →
      r = ((s.written_paths fd paths n).flatMap (s.print_path_line fd E),
            retval || !(s.written_paths fd paths n).isEmpty) := by
  induction paths with
  | nil =>
    intro n retval r h
    rw [XfstCompiler.print_paths_one_loop] at h
    injection h with h
    rw [← h, written_paths_nil]
    simp
  | cons it rest ih =>
    intro n retval r h
    rw [XfstCompiler.print_paths_one_loop] at h
    by_cases hn : n = 0
    · rw [if_pos hn] at h
      injection h with h
      rw [← h, hn, written_paths_zero]
      simp
    · rw [if_neg hn] at h
      simp only [] at h
      split at h
      · cases h
      · rename_i hv
        have hp : s.passes_filter fd it.2 = false := by
          unfold XfstCompiler.passes_filter
          split at hv
          · rename_i ho
            rw [if_pos ho, hv]
            rfl
          · cases hv
        rw [written_paths_skip fd s it rest n hp]
        exact ih n retval r h
      · rename_i hv
        have hp : s.passes_filter fd it.2 = true := by
          unfold XfstCompiler.passes_filter
          split at hv
          · rename_i ho
            rw [if_pos ho, hv]
            rfl
          · rename_i ho
            rw [if_neg ho]
        rw [written_paths_take fd s it rest n hp hn]
        split at h
        · cases h
        · rename_i r1 h1
          injection h with h
          have := ih (n - 1) true r1 h1
          rw [← h, this]
          simp

/-- With a decoder that yields one of the six operators on every diacritic,
the outer loop of the one-level `print_paths` returns. -/
theorem print_paths_one_loop_returns (fd : FdOperation) (E : Engine T) (s : XfstCompiler T)
    (hwf : ∀ sym, fd.is_diacritic sym = true →
      ∃ op, (fd.get_operator sym).data = [op] ∧ op ∈ ['P', 'N', 'R', 'D', 'C', 'U'])
    (paths : HfstOneLevelPaths) :
    ∀ (n : Int) (retval : Bool), ∃ r, s.print_paths_one_loop fd E paths n retval = some r := by
  induction paths with
  | nil => intro n retval; exact ⟨_, rfl⟩
  | cons it rest ih =>
    intro n retval
    rw [XfstCompiler.print_paths_one_loop]
    by_cases hn : n = 0
    · rw [if_pos hn]
      exact ⟨_, rfl⟩
    · rw [if_neg hn]
      simp only []
      have hv : ∃ b, (if s.var "obey-flags" = "ON" then is_valid_string fd it.2 else some true)
          = some b := by
        split
        · exact is_valid_string_from_returns fd hwf it.2 _
        · exact ⟨true, rfl⟩
      obtain ⟨b, hb⟩ := hv
      rw [hb]
      cases b
      · exact ih n retval
      · obtain ⟨r1, h1⟩ := ih (n - 1) true
        simp only [h1]
        exact ⟨_, rfl⟩

/-- What the outer loop of the two-level `print_paths` writes and returns,
when it returns: a sequence of lines, each ended by a line end, and whether
it had `retval` set before or wrote a line. -/
theorem print_paths_loop_lines (fd : FdOperation) (E : Engine T) (s : XfstCompiler T)
    (paths : HfstTwoLevelPaths) :
    ∀ (n : Int) (retval : Bool) (r : List String × Bool),
      s.print_paths_loop fd E paths n retval = some r →
      ∃ lines : List (List String), r.1 = lines.flatten
        ∧ (∀ l ∈ lines, l.getLast? = some "\n") ∧ r.2 = (retval || !lines.isEmpty) := by
  induction paths with
  | nil =>
    intro n retval r h
    rw [XfstCompiler.print_paths_loop] at h
    injection h with h
    rw [← h]
    exact ⟨[], rfl, fun _ hl => (by cases hl), by simp⟩
  | cons it rest ih =>
    intro n retval r h
    rw [XfstCompiler.print_paths_loop] at h
    by_cases hn : n = 0
    · rw [if_pos hn] at h
      injection h with h
      rw [← h]
      exact ⟨[], rfl, fun _ hl => (by cases hl), by simp⟩
    · rw [if_neg hn] at h
      simp only [] at h
      split at h
      · cases h
      · exact ih n retval r h
      · split at h
        · cases h
        · rename_i r1 h1
          injection h with h
          obtain ⟨lines, hl1, hl2, hl3⟩ := ih (n - 1) true r1 h1
          refine ⟨(s.print_pair_path fd it.2 false
            ++ (if s.var "print-weight" = "ON" then
                  ["\t" ++ E.weight_text (s.var "precision") it.1]
                else []) ++ ["\n"]) :: lines, ?_, ?_, ?_⟩
          · rw [← h, hl1]
            simp
          · intro l hl
            rcases List.mem_cons.1 hl with hl | hl
            · rw [hl]
              exact List.getLast?_concat _
            · exact hl2 l hl
          · rw [← h, hl3]
            simp

/-- With a decoder that yields one of the six operators on every diacritic,
the outer loop of the two-level `print_paths` returns. -/
theorem print_paths_loop_returns (fd : FdOperation) (E : Engine T) (s : XfstCompiler T)
    (hwf : ∀ sym, fd.is_diacritic sym = true →
      ∃ op, (fd.get_operator sym).data = [op] ∧ op ∈ ['P', 'N', 'R', 'D', 'C', 'U'])
    (paths : HfstTwoLevelPaths) :
    ∀ (n : Int) (retval : Bool), ∃ r, s.print_paths_loop fd E paths n retval = some r := by
  induction paths with
  | nil => intro n retval; exact ⟨_, rfl⟩
  | cons it rest ih =>
    intro n retval
    rw [XfstCompiler.print_paths_loop]
    by_cases hn : n = 0
    · rw [if_pos hn]
      exact ⟨_, rfl⟩
    · rw [if_neg hn]
      simp only []
      have hv : ∃ b, (if s.var "obey-flags" = "ON" then
          is_valid_string fd (it.2.map Prod.fst) else some true) = some b := by
        split
        · exact is_valid_string_from_returns fd hwf _ _
        · exact ⟨true, rfl⟩
      obtain ⟨b, hb⟩ := hv
      rw [hb]
      cases b
      · exact ih n retval
      · obtain ⟨r1, h1⟩ := ih (n - 1) true
        simp only [h1]
        exact ⟨_, rfl⟩

/-- A sequence of lines followed by the sentinel when it is empty holds a
line end. -/
theorem lines_or_sentinel_end (lines : List (List String))
    (h : ∀ l ∈ lines, l.getLast? = some "\n") :
    '\n' ∈ stream_text (lines.flatten ++ (if lines.isEmpty then ["???\n"] else [])) := by
  cases lines with
  | nil => decide
  | cons l ls =>
    have hl := List.mem_of_getLast?_eq_some (h l (List.mem_cons_self l ls))
    unfold stream_text
    rw [List.mem_flatMap]
    exact ⟨"\n", by simp [hl], by decide⟩

/-- The one-level `print_paths` under a decoder that yields one of the six
operators on every diacritic: it returns, having appended the lines of the
written paths to the output, and returns `true` exactly when there is such a
line. -/
theorem print_paths_one_lines (fd : FdOperation) (E : Engine T) (s : XfstCompiler T)
    (hwf : ∀ sym, fd.is_diacritic sym = true →
      ∃ op, (fd.get_operator sym).data = [op] ∧ op ∈ ['P', 'N', 'R', 'D', 'C', 'U'])
    (paths : HfstOneLevelPaths) (n : Int) :
    ∃ s1 printed, s.print_paths_one fd E paths n = Except.ok (s1, printed)
      ∧ s1.output_ = s.output_ ++ (s.written_paths fd paths n).flatMap (s.print_path_line fd E)
      ∧ (printed = true ↔ s.written_paths fd paths n ≠ []) := by
  obtain ⟨r, hr⟩ := print_paths_one_loop_returns fd E s hwf paths n false
  have heq := print_paths_one_loop_eq fd E s paths n false r hr
  unfold XfstCompiler.print_paths_one
  rw [hr]
  refine ⟨_, _, rfl, ?_, ?_⟩
  · rw [heq]
  · rw [heq]
    simp

theorem written_paths_ne_nil (fd : FdOperation) (s : XfstCompiler T)
    (paths : HfstOneLevelPaths) (n : Int) :
    s.written_paths fd paths n ≠ []
      ↔ n ≠ 0 ∧ ∃ it ∈ paths, s.passes_filter fd it.2 = true := by
  unfold XfstCompiler.written_paths
  by_cases hneg : n < 0
  · rw [if_pos hneg]
    have hn : n ≠ 0 := by omega
    simp [hn]
  · rw [if_neg hneg]
    rw [Ne, List.take_eq_nil_iff]
    have hz : n.toNat = 0 ↔ n = 0 := by omega
    rw [hz]
    simp

theorem lookup_end_output (r : XfstCompiler T × Bool) :
    (XfstCompiler.lookup_end r).output_
      = r.1.output_ ++ (if r.2 = false then ["???\n"] else []) := by
  unfold XfstCompiler.lookup_end
  split
  · rfl
  · simp

/-- The printing at the end of the lookup in an iterable network returns
under such a decoder: it appends lines, or the sentinel when there is no
line. -/
theorem lookup_print_lines (fd : FdOperation) (E : Engine T) (s : XfstCompiler T)
    (hwf : ∀ sym, fd.is_diacritic sym = true →
      ∃ op, (fd.get_operator sym).data = [op] ∧ op ∈ ['P', 'N', 'R', 'D', 'C', 'U'])
    (results : HfstTwoLevelPaths) :
    ∃ (s' : XfstCompiler T) (lines : List (List String)), s.lookup_print fd E results = Except.ok s'
      ∧ (∀ l ∈ lines, l.getLast? = some "\n")
      ∧ s'.output_ = s.output_ ++ lines.flatten ++ (if lines.isEmpty then ["???\n"] else []) := by
  unfold XfstCompiler.lookup_print
  simp only []
  by_cases hp : s.var "print-pairs" = "OFF"
  · rw [if_pos hp]
    obtain ⟨s1, printed, h1, h2, h3⟩ :=
      print_paths_one_lines fd E s hwf (extract_output_paths results) (-1)
    rw [h1]
    refine ⟨_, (s.written_paths fd (extract_output_paths results) (-1)).map
      (s.print_path_line fd E), rfl, ?_, ?_⟩
    · intro l hl
      obtain ⟨it, -, rfl⟩ := List.mem_map.1 hl
      exact List.getLast?_concat _
    · rw [lookup_end_output, h2, List.flatMap_def]
      congr 1
      cases printed
      · have : s.written_paths fd (extract_output_paths results) (-1) = [] := by
          by_contra hne
          have := h3.2 hne
          cases this
        simp [this]
      · have : s.written_paths fd (extract_output_paths results) (-1) ≠ [] := h3.1 rfl
        simp [this]
  · rw [if_neg hp]
    obtain ⟨r, hr⟩ := print_paths_loop_returns fd E s hwf results (-1) false
    obtain ⟨lines, hl1, hl2, hl3⟩ := print_paths_loop_lines fd E s results (-1) false r hr
    unfold XfstCompiler.print_paths
    rw [hr]
    refine ⟨_, lines, rfl, hl2, ?_⟩
    rw [lookup_end_output]
    simp only [hl1, hl3]
    cases lines <;> simp

/-- C24: under a decoder that yields one of the six operators on every
diacritic, the one-level `print_paths` returns, having written the lines of
the paths that pass the filter (at most `n` of them), and it returns `true`
exactly when it wrote a line, that is when `n` is not zero and some path
passes: with `obey-flags` being `ON` the valid strings pass, otherwise every
path does. Both `lookup` functions return and write the sentinel line `???`
exactly when no path line was written, so the output always grows by at
least one line. -/
theorem lookup_sentinel {T : Type} (fd : FdOperation) (E : Engine T) (s : XfstCompiler T)
    (hwf : ∀ sym, fd.is_diacritic sym = true →
      ∃ op, (fd.get_operator sym).data = [op] ∧ op ∈ ['P', 'N', 'R', 'D', 'C', 'U'])
    (paths : HfstOneLevelPaths) (n : Int) (line : String) (t : T) (cutoff : Nat) :
    (∃ s1 printed, s.print_paths_one fd E paths n = Except.ok (s1, printed)
        ∧ s1.output_ = s.output_ ++ (s.written_paths fd paths n).flatMap (s.print_path_line fd E)
        ∧ (printed = true ↔ s.written_paths fd paths n ≠ [])
        ∧ (printed = true ↔ n ≠ 0 ∧ ∃ it ∈ paths, s.passes_filter fd it.2 = true))
      ∧ (∀ path, s.passes_filter fd path = true
          ↔ (s.var "obey-flags" = "ON" → is_valid_string fd path = some true))
      ∧ (∃ (s' : XfstCompiler T) (lines : List (List String)), s.lookup_cutoff fd E line t cutoff = Except.ok s'
          ∧ lines = (s.written_paths fd
              (if s.var "obey-flags" = "ON" then E.lookup_fd t (E.strstrip line) cutoff
               else E.lookup t (E.strstrip line) cutoff) (-1)).map (s.print_path_line fd E)
          ∧ s'.output_ = s.output_ ++ lines.flatten
              ++ (if lines.isEmpty then ["???\n"] else [])
          ∧ '\n' ∈ stream_text (lines.flatten ++ (if lines.isEmpty then ["???\n"] else [])))
      ∧ (∃ (s' : XfstCompiler T) (lines : List (List String)), s.lookup fd E line t = Except.ok s'
          ∧ (∀ l ∈ lines, l.getLast? = some "\n")
          ∧ s'.output_ = s.output_ ++ lines.flatten
              ++ (if lines.isEmpty then ["???\n"] else [])
          ∧ '\n' ∈ stream_text (lines.flatten ++ (if lines.isEmpty then ["???\n"] else []))) := by
  refine ⟨?_, ?_, ?_, ?_⟩
  · obtain ⟨s1, printed, h1, h2, h3⟩ := print_paths_one_lines fd E s hwf paths n
    exact ⟨s1, printed, h1, h2, h3, h3.trans (written_paths_ne_nil fd s paths n)⟩
  · intro path
    unfold XfstCompiler.passes_filter
    by_cases ho : s.var "obey-flags" = "ON"
    · rw [if_pos ho]
      cases hv : is_valid_string fd path with
      | none => simp [ho]
      | some b => cases b <;> simp [ho]
    · rw [if_neg ho]
      simp [ho]
  · unfold XfstCompiler.lookup_cutoff
    simp only []
    obtain ⟨s1, printed, h1, h2, h3⟩ := print_paths_one_lines fd E s hwf
      (if s.var "obey-flags" = "ON" then E.lookup_fd t (E.strstrip line) cutoff
       else E.lookup t (E.strstrip line) cutoff) (-1)
    rw [h1]
    have hend : ∀ l ∈ (s.written_paths fd
        (if s.var "obey-flags" = "ON" then E.lookup_fd t (E.strstrip line) cutoff
         else E.lookup t (E.strstrip line) cutoff) (-1)).map (s.print_path_line fd E),
        l.getLast? = some "\n" := by
      intro l hl
      obtain ⟨it, -, rfl⟩ := List.mem_map.1 hl
      exact List.getLast?_concat _
    refine ⟨_, _, rfl, rfl, ?_, lines_or_sentinel_end _ hend⟩
    rw [lookup_end_output, h2, List.flatMap_def]
    congr 1
    cases printed
    · have : s.written_paths fd
          (if s.var "obey-flags" = "ON" then E.lookup_fd t (E.strstrip line) cutoff
           else E.lookup t (E.strstrip line) cutoff) (-1) = [] := by
        by_contra hne
        have := h3.2 hne
        cases this
      simp [this]
    · have : s.written_paths fd
          (if s.var "obey-flags" = "ON" then E.lookup_fd t (E.strstrip line) cutoff
           else E.lookup t (E.strstrip line) cutoff) (-1) ≠ [] := h3.1 rfl
      simp [this]
  · unfold XfstCompiler.lookup
    simp only []
    obtain ⟨s', lines, h1, h2, h3⟩ := lookup_print_lines fd E
      (if (E.is_lookup_infinitely_ambiguous t
              (E.tokenize_one_level (E.get_input_symbols t) (E.strstrip line))
              (decide (s.var "obey-flags" = "ON")) && s.verbose_) = true then
        s.ERROR ("warning: lookup is infinitely ambiguous, limiting the number of cycles to "
          ++ toString (if E.is_lookup_infinitely_ambiguous t
              (E.tokenize_one_level (E.get_input_symbols t) (E.strstrip line))
              (decide (s.var "obey-flags" = "ON")) = true then
            string_to_size_t E.uninitialised_size_t (s.var "lookup-cycle-cutoff")
            else 2 ^ 64 - 1))
      else s) hwf
      (E.lookup_path t (E.tokenize_one_level (E.get_input_symbols t) (E.strstrip line))
        (if E.is_lookup_infinitely_ambiguous t
              (E.tokenize_one_level (E.get_input_symbols t) (E.strstrip line))
              (decide (s.var "obey-flags" = "ON")) = true then
            string_to_size_t E.uninitialised_size_t (s.var "lookup-cycle-cutoff")
            else 2 ^ 64 - 1)
        (if s.var "maximum-weight" = "OFF" then none
         else some (E.string_to_float (s.var "maximum-weight")))
        (decide (s.var "obey-flags" = "ON")))
    refine ⟨s', lines, ?_, h2, ?_, lines_or_sentinel_end _ h2⟩
    · rw [← h1]
      split <;> rfl
    · rw [h3]
      split <;> rfl

/-- C24, at a concrete session: the lookup of `ab` in an optimized-lookup
network without paths writes the sentinel. -/
theorem lookup_sentinel_witness :
    ∃ (s' : XfstCompiler Net) (lines : List (List String)),
      (session [Net.mk0 1]).lookup_cutoff fdOperation termEngine "ab" (Net.mk0 1) 5
        = Except.ok s'
      ∧ lines = ((session [Net.mk0 1]).written_paths fdOperation
          (if (session [Net.mk0 1]).var "obey-flags" = "ON" then
             termEngine.lookup_fd (Net.mk0 1) (termEngine.strstrip "ab") 5
           else termEngine.lookup (Net.mk0 1) (termEngine.strstrip "ab") 5) (-1)).map
          ((session [Net.mk0 1]).print_path_line fdOperation termEngine)
      ∧ s'.output_ = (session [Net.mk0 1]).output_ ++ lines.flatten
          ++ (if lines.isEmpty then ["???\n"] else [])
      ∧ '\n' ∈ stream_text (lines.flatten ++ (if lines.isEmpty then ["???\n"] else [])) :=
  (lookup_sentinel fdOperation termEngine (session [Net.mk0 1]) fdOperation_operator [] (-1)
    "ab" (Net.mk0 1) 5).2.2.1

theorem printed_symbols_cons (fd : FdOperation) (s : XfstCompiler T) (p : String)
    (rest : List String) :
    s.printed_symbols fd (p :: rest)
      = if s.get_print_symbol fd p = "" then s.printed_symbols fd rest
        else s.get_print_symbol fd p :: s.printed_symbols fd rest := by
  unfold XfstCompiler.printed_symbols
  by_cases hx : s.get_print_symbol fd p = ""
  · simp [List.filter, hx]
  · simp [List.filter, hx]

/-- The writes of the inner loop of the one-level `print_paths` that are not
empty: the non-empty images of the symbols, with one space between two of
them when `print-space` is `ON` (and one before the first when something was
printed before). -/
theorem print_path_filter (fd : FdOperation) (s : XfstCompiler T) (path : List String) :
    ∀ sp : Bool,
      (s.print_path fd path sp).filter (fun x => decide (x ≠ ""))
        = if s.var "print-space" = "ON" then
            (if sp = true ∧ s.printed_symbols fd path ≠ [] then [" "] else [])
              ++ (s.printed_symbols fd path).intersperse " "
          else s.printed_symbols fd path := by
  induction path with
  | nil =>
    intro sp
    simp [XfstCompiler.print_path, XfstCompiler.printed_symbols]
  | cons p rest ih =>
    intro sp
    rw [XfstCompiler.print_path, printed_symbols_cons]
    simp only [ne_eq, decide_not] at ih
    by_cases hx : s.get_print_symbol fd p = ""
    · simp [hx, ih, List.filter]
    · by_cases hon : s.var "print-space" = "ON"
      · cases sp <;> cases hr : s.printed_symbols fd rest <;>
          simp [hx, hon, ih, hr, List.filter, List.intersperse]
      · simp [hx, hon, ih, List.filter]

theorem stream_text_filter (writes : List String) :
    stream_text (writes.filter (fun x => decide (x ≠ ""))) = stream_text writes := by
  induction writes with
  | nil => rfl
  | cons w rest ih =>
    unfold stream_text at ih ⊢
    by_cases hw : w = ""
    · simpa [List.filter, hw] using ih
    · simpa [List.filter, hw] using ih

/-- C25: with `print-weight` not `ON`, the line the one-level `print_paths`
writes for a path consists, empty writes aside, of the non-empty images of
the path's symbols under `get_print_symbol`, in order, with exactly one space
between two neighbours when `print-space` is `ON` and nothing between them
otherwise, and of the line end; the text of the line is the text of that
sequence. A flag diacritic has the empty image when `show-flags` is `OFF`,
epsilon has the empty image, unknown and identity have the image `?`, and
every other symbol is its own image. What `print_paths` writes is the
sequence of these lines for the written paths. -/
theorem print_path_line_format {T : Type} (fd : FdOperation) (E : Engine T)
    (s : XfstCompiler T) (it : Weight × List String) (hw : s.var "print-weight" ≠ "ON") :
    (s.print_path_line fd E it).filter (fun x => decide (x ≠ ""))
        = (if s.var "print-space" = "ON" then (s.printed_symbols fd it.2).intersperse " "
           else s.printed_symbols fd it.2) ++ ["\n"]
      ∧ stream_text (s.print_path_line fd E it)
        = stream_text ((if s.var "print-space" = "ON" then
              (s.printed_symbols fd it.2).intersperse " "
            else s.printed_symbols fd it.2) ++ ["\n"])
      ∧ s.printed_symbols fd it.2
        = (it.2.map (s.get_print_symbol fd)).filter (fun x => decide (x ≠ ""))
      ∧ (∀ sym, s.var "show-flags" = "OFF" → fd.is_diacritic sym = true →
          s.get_print_symbol fd sym = "")
      ∧ s.get_print_symbol fd internal_epsilon = ""
      ∧ (∀ sym, ¬ (s.var "show-flags" = "OFF" ∧ fd.is_diacritic sym = true) →
          (sym = internal_unknown ∨ sym = internal_identity) → s.get_print_symbol fd sym = "?")
      ∧ (∀ sym, ¬ (s.var "show-flags" = "OFF" ∧ fd.is_diacritic sym = true) →
          sym ≠ internal_epsilon → sym ≠ internal_unknown → sym ≠ internal_identity →
          s.get_print_symbol fd sym = sym)
      ∧ (∀ paths n r, s.print_paths_one_loop fd E paths n false = some r →
          r.1 = (s.written_paths fd paths n).flatMap (s.print_path_line fd E)) := by
  have h1 : (s.print_path_line fd E it).filter (fun x => decide (x ≠ ""))
      = (if s.var "print-space" = "ON" then (s.printed_symbols fd it.2).intersperse " "
         else s.printed_symbols fd it.2) ++ ["\n"] := by
    unfold XfstCompiler.print_path_line
    rw [if_neg hw, List.append_nil, List.filter_append, print_path_filter]
    simp [List.filter]
  refine ⟨h1, ?_, rfl, ?_, ?_, ?_, ?_, ?_⟩
  · rw [← h1, stream_text_filter]
  · intro sym h1 h2
    unfold XfstCompiler.get_print_symbol
    rw [if_pos ⟨h1, h2⟩]
  · unfold XfstCompiler.get_print_symbol
    split
    · rfl
    · rw [if_pos rfl]
  · intro sym h1 h2
    unfold XfstCompiler.get_print_symbol
    rw [if_neg h1]
    rcases h2 with h2 | h2
    · rw [h2]
      decide
    · rw [h2]
      decide
  · intro sym h1 h2 h3 h4
    unfold XfstCompiler.get_print_symbol
    rw [if_neg h1, if_neg (Ne.symm h2), if_neg]
    rintro (h | h)
    · exact h3 h.symm
    · exact h4 h.symm
  · intro paths n r hr
    rw [print_paths_one_loop_eq fd E s paths n false r hr]

/-- C25, at a concrete path: epsilon and the flag diacritic are dropped. -/
theorem print_path_line_format_witness :
    ((session []).print_path_line fdOperation termEngine
        ({ bits := 0 }, ["a", "@_EPSILON_SYMBOL_@", "@P.F.x@", "b"])).filter
        (fun x => decide (x ≠ ""))
      = (if (session []).var "print-space" = "ON" then
          ((session []).printed_symbols fdOperation
            ["a", "@_EPSILON_SYMBOL_@", "@P.F.x@", "b"]).intersperse " "
         else (session []).printed_symbols fdOperation
            ["a", "@_EPSILON_SYMBOL_@", "@P.F.x@", "b"]) ++ ["\n"] :=
  (print_path_line_format fdOperation termEngine (session [])
    ({ bits := 0 }, ["a", "@_EPSILON_SYMBOL_@", "@P.F.x@", "b"]) (by decide)).1

end printing

/-! ## Compile-replace -/

/-- The loops over the replacements stop with an error as soon as one
synthesized expression does not compile. -/
theorem insert_replacements_fails {T : Type} (E : Engine T) (defs : StrMap T)
    (lists : StrMap (List String)) (level : Level) (retokenize : Bool)
    (l : List (Nat × Nat × List (String × String))) :
    ∀ fsm : T,
      (∃ x ∈ l, E.xre_compile defs lists (cross_product_regexp level retokenize x.2.2) = none) →
      ∃ regexp, insert_replacements E defs lists level retokenize l fsm = Except.error regexp := by
  induction l with
  | nil =>
    intro fsm h
    obtain ⟨x, hx, -⟩ := h
    cases hx
  | cons y rest ih =>
    intro fsm h
    obtain ⟨start_state, end_state, path⟩ := y
    rw [insert_replacements]
    cases hc : E.xre_compile defs lists (cross_product_regexp level retokenize path) with
    | none => exact ⟨_, rfl⟩
    | some replacement =>
      simp only []
      apply ih
      obtain ⟨x, hx, hx2⟩ := h
      rcases List.mem_cons.1 hx with hx | hx
      · subst hx
        rw [hc] at hx2
        cases hx2
      · exact ⟨x, hx, hx2⟩

/-- C23: `compile_replace_net` on the upper or the lower level, with a
network on top of the stack that `top` hands out and whose projection to the
chosen side succeeds, returns with the stack exactly as it was when that side
is not well-formed for compile-replace, and also when it is well-formed but
the compiler fails on the cross-product expression synthesized for one of
the replacements found. -/
theorem compile_replace_net_aborts {T : Type} (E : Engine T) (s : XfstCompiler T)
    (level : Level) (tmp tmp_cp : T) (rest : List T)
    (hlevel : level ≠ Level.BOTH_LEVELS) (hstack : s.stack_ = tmp :: rest)
    (h1 : E.get_type tmp ≠ ImplementationType.HFST_OL_TYPE)
    (h2 : E.get_type tmp ≠ ImplementationType.HFST_OLW_TYPE)
    (hproj : (if level = Level.UPPER_LEVEL then E.input_project tmp else E.output_project tmp)
      = Except.ok tmp_cp)
    (hfail : (∃ defs, is_well_formed_for_compile_replace E s.xre_definitions_ s.xre_lists_
          tmp_cp = Except.ok (false, defs))
      ∨ (∃ defs m, is_well_formed_for_compile_replace E s.xre_definitions_ s.xre_lists_ tmp_cp
            = Except.ok (true, defs)
          ∧ E.find_replacements tmp (decide (level = Level.UPPER_LEVEL)) = Except.ok m
          ∧ ∃ x ∈ replacement_list m, E.xre_compile defs s.xre_lists_
              (cross_product_regexp level (decide (s.var "retokenize" = "ON")) x.2.2) = none)) :
    ∃ s', s.compile_replace_net E level = Except.ok s' ∧ s'.stack_ = s.stack_
      ∧ s'.stack_ = tmp :: rest := by
  rcases hfail with ⟨defs, hwf⟩ | ⟨defs, m, hwf, hfind, hex⟩
  · unfold XfstCompiler.compile_replace_net
    rw [if_neg hlevel, top_some E s tmp rest hstack h1 h2]
    simp only []
    rw [hproj]
    simp only []
    rw [hwf]
    simp only []
    refine ⟨_, rfl, ?_⟩
    rw [← hstack]
    simp
    split <;> simp
  · obtain ⟨regexp, hre⟩ := insert_replacements_fails E defs s.xre_lists_ level
      (decide (s.var "retokenize" = "ON")) (replacement_list m) tmp hex
    unfold XfstCompiler.compile_replace_net
    rw [if_neg hlevel, top_some E s tmp rest hstack h1 h2]
    simp only []
    rw [hproj]
    simp only []
    rw [hwf]
    simp only []
    rw [hfind]
    simp only []
    by_cases hv : s.verbose_ = true
    · rw [if_pos hv]
      dsimp only [XfstCompiler.ERROR, XfstCompiler.var]
      dsimp only [XfstCompiler.var] at hre
      rw [hre, ← hstack]
      refine ⟨_, rfl, ?_⟩
      simp
    · rw [if_neg hv]
      dsimp only [XfstCompiler.ERROR, XfstCompiler.var]
      dsimp only [XfstCompiler.var] at hre
      rw [hre, ← hstack]
      refine ⟨_, rfl, ?_⟩
      simp

/-- C23, at concrete sessions: a network that is not well-formed under the
term engine, and a well-formed one whose replacement does not compile. -/
theorem compile_replace_net_aborts_witness :
    (∃ s', (session [Net.mk0 1, Net.mk0 2]).compile_replace_net termEngine Level.UPPER_LEVEL
        = Except.ok s'
      ∧ s'.stack_ = (session [Net.mk0 1, Net.mk0 2]).stack_
      ∧ s'.stack_ = [Net.mk0 1, Net.mk0 2])
    ∧ (∃ s', (session [Net.mk0 1, Net.mk0 2]).compile_replace_net replacingEngine
        Level.LOWER_LEVEL = Except.ok s'
      ∧ s'.stack_ = (session [Net.mk0 1, Net.mk0 2]).stack_
      ∧ s'.stack_ = [Net.mk0 1, Net.mk0 2]) :=
  ⟨compile_replace_net_aborts termEngine (session [Net.mk0 1, Net.mk0 2]) Level.UPPER_LEVEL
      (Net.mk0 1) ((Net.mk0 1).un "input_project") [Net.mk0 2] (by decide) rfl (by decide)
      (by decide) rfl (Or.inl ⟨_, rfl⟩),
    compile_replace_net_aborts replacingEngine (session [Net.mk0 1, Net.mk0 2])
      Level.LOWER_LEVEL (Net.mk0 1) ((Net.mk0 1).un "output_project") [Net.mk0 2] (by decide) rfl
      (by decide) (by decide) rfl
      (Or.inr ⟨_, _, rfl, rfl, (0, 1, [("a", "b")]), by decide, by decide⟩)⟩

/-! ## The fail flag and `quit-on-fail` -/

section quit_on_fail

variable {T : Type}

/-- A change of the stack extends a step. -/
theorem fs_stack {s t : XfstCompiler T} (stack : List T) (h : s.fail_step t) :
    s.fail_step { t with stack_ := stack } := fail_step_fields h rfl rfl

theorem fs_apply_unary_operation (E : Engine T) (s s' : XfstCompiler T) (op : UnaryOperation)
    (hr : s.apply_unary_operation E op = Except.ok s') : s.fail_step s' := by
  unfold XfstCompiler.apply_unary_operation at hr
  have ht := fs_top E false (fail_step_refl s)
  split at hr
  · rename_i s1 heq
    rw [heq] at ht
    injection hr with hr
    rw [← hr]
    exact fs_xfst_lesser_fail ht
  · rename_i s1 result heq
    rw [heq] at ht
    have ht' : s.fail_step s1 := ht
    simp only [] at hr
    split at hr
    · injection hr with hr
      rw [← hr]
      exact fs_prompt (fs_print_transducer_info E (fs_stack _ (fs_pop ht')))
    · injection hr with hr
      rw [← hr]
      exact fs_prompt (fs_stack _ (fs_xfst_fail (fs_ERROR _ (fs_pop ht'))))
    · cases hr

theorem fs_apply_binary_operation (E : Engine T) (s s' : XfstCompiler T)
    (op : BinaryOperation) (hr : s.apply_binary_operation E op = Except.ok s') :
    s.fail_step s' := by
  have h0 := fail_step_refl s
  unfold XfstCompiler.apply_binary_operation at hr
  split at hr
  · simp only [] at hr
    split at hr
    · split at hr
      · injection hr with hr
        rw [← hr]
        exact fs_prompt (fs_print_transducer_info E (fs_stack _ (fs_stack _ h0)))
      · cases hr
    · split at hr
      · injection hr with hr
        rw [← hr]
        exact fs_prompt (fs_print_transducer_info E (fs_stack _ (fs_stack _ h0)))
      · cases hr
    · split at hr
      · injection hr with hr
        rw [← hr]
        exact fs_prompt (fs_print_transducer_info E (fs_stack _ (fs_stack _ h0)))
      · injection hr with hr
        rw [← hr]
        exact fs_prompt (fs_stack _ (fs_xfst_fail (fs_ERROR _ (fs_stack _ h0))))
      · cases hr
    · injection hr with hr
      rw [← hr]
      exact fs_prompt (fs_print_transducer_info E (fs_stack _
        (fs_xfst_fail (fs_ERROR _ (fs_stack _ h0)))))
  · injection hr with hr
    rw [← hr]
    exact fs_xfst_lesser_fail (fs_ERROR _ h0)

/-- The loop of the fold is a step, however it is left. -/
theorem fs_fold_loop (E : Engine T) (op : BinaryOperation) (s0 : XfstCompiler T) :
    ∀ (stk : List T) (s : XfstCompiler T) (result : T), s0.fail_step s →
      (∀ s1 r, fold_loop E op s result stk = Except.ok (FoldExit.done s1 r) →
          s0.fail_step s1)
        ∧ (∀ s1, fold_loop E op s result stk = Except.ok (FoldExit.returned s1) →
          s0.fail_step s1) := by
  intro stk
  induction stk with
  | nil =>
    intro s result h
    constructor
    · intro s1 r hr
      simp only [fold_loop] at hr
      injection hr with hr
      injection hr with hr _
      rw [← hr]
      exact fail_step_fields h rfl rfl
    · intro s1 hr
      simp only [fold_loop] at hr
      injection hr with hr
      cases hr
  | cons t rest ih =>
    intro s result h
    have hE : ∀ x : String, s0.fail_step (s.ERROR x) := fun x => fs_ERROR x h
    by_cases hty : E.get_type t ≠ E.get_type result
    · constructor
      · intro s1 r hr
        simp only [fold_loop] at hr
        rw [if_pos hty] at hr
        injection hr with hr
        injection hr with hr _
        rw [← hr]
        exact fs_xfst_lesser_fail (fs_ERROR _ (fs_stack _ h))
      · intro s1 hr
        simp only [fold_loop] at hr
        rw [if_pos hty] at hr
        injection hr with hr
        cases hr
    · cases op with
      | COMPOSE_NET =>
        rw [fold_loop, if_neg hty]
        simp only []
        split
        · split
          · exact ih _ _ (hE _)
          · exact ih _ _ h
        · constructor
          · intro s1 r hr
            injection hr with hr
            cases hr
          · intro s1 hr
            injection hr with hr
            injection hr with hr
            rw [← hr]
            apply fs_prompt
            apply fs_xfst_lesser_fail
            apply fs_ERROR
            apply fs_ERROR
            apply fs_ERROR
            apply fs_stack
            split
            · exact hE _
            · exact h
        · exact ⟨fun _ _ hr => (by cases hr), fun _ hr => (by cases hr)⟩
      | MINUS_NET =>
        simp only [fold_loop]
        rw [if_neg hty]
        exact ih _ _ (hE _)
      | CROSSPRODUCT_NET =>
        simp only [fold_loop]
        rw [if_neg hty]
        exact ih _ _ (hE _)
      | INTERSECT_NET =>
        rw [fold_loop, if_neg hty]
        split
        · exact ih _ _ h
        · exact ⟨fun _ _ hr => (by cases hr), fun _ hr => (by cases hr)⟩
      | IGNORE_NET =>
        rw [fold_loop, if_neg hty]
        split
        · exact ih _ _ h
        · exact ⟨fun _ _ hr => (by cases hr), fun _ hr => (by cases hr)⟩
      | CONCATENATE_NET =>
        rw [fold_loop, if_neg hty]
        split
        · exact ih _ _ h
        · exact ⟨fun _ _ hr => (by cases hr), fun _ hr => (by cases hr)⟩
      | UNION_NET =>
        rw [fold_loop, if_neg hty]
        split
        · exact ih _ _ h
        · exact ⟨fun _ _ hr => (by cases hr), fun _ hr => (by cases hr)⟩
      | SHUFFLE_NET =>
        rw [fold_loop, if_neg hty]
        split
        · exact ih _ _ h
        · exact ⟨fun _ _ hr => (by cases hr), fun _ hr => (by cases hr)⟩

theorem fs_apply_binary_operation_iteratively (E : Engine T) (s s' : XfstCompiler T)
    (op : BinaryOperation) (hr : s.apply_binary_operation_iteratively E op = Except.ok s') :
    s.fail_step s' := by
  unfold XfstCompiler.apply_binary_operation_iteratively at hr
  split at hr
  · rename_i result t rest heq
    have hl := fs_fold_loop E op s (t :: rest) s result (fail_step_refl s)
    split at hr
    · rename_i s1 r1 hf
      injection hr with hr
      rw [← hr]
      exact fs_prompt (fs_print_transducer_info E (fs_stack _ (hl.1 s1 r1 hf)))
    · rename_i s1 hf
      injection hr with hr
      rw [← hr]
      exact hl.2 s1 hf
    · cases hr
  · injection hr with hr
    rw [← hr]
    exact fs_xfst_lesser_fail (fs_ERROR _ (fail_step_refl s))

theorem fs_test_eq (E : Engine T) (s : XfstCompiler T) (assertion : Bool) :
    s.fail_step (s.test_eq E assertion) := by
  unfold XfstCompiler.test_eq
  split
  · exact fs_MAYBE_ASSERT _ _ (fs_stack _ (fs_OUTPUT _ (fs_stack _ (fail_step_refl s))))
  · exact fs_xfst_lesser_fail (fs_ERROR _ (fs_ERROR _ (fail_step_refl s)))

theorem fs_define (E : Engine T) (s : XfstCompiler T) (name : String) :
    s.fail_step (s.define E name) := by
  unfold XfstCompiler.define
  have ht := fs_top E false (fail_step_refl s)
  split
  · rename_i s1 heq
    rw [heq] at ht
    exact fs_xfst_lesser_fail ht
  · rename_i s1 top heq
    rw [heq] at ht
    have ht' : s.fail_step s1 := ht
    apply fs_prompt
    simp only []
    split
    · exact fail_step_fields ht' rfl rfl
    · exact fail_step_fields ht' rfl rfl

theorem fs_define_xre (E : Engine T) (s : XfstCompiler T) (name xre : String) :
    s.fail_step (s.define_xre E name xre) := by
  have h0 := fail_step_refl s
  unfold XfstCompiler.define_xre
  split
  · exact fs_prompt (fs_MAYBE_QUIT (fs_ERROR _ h0))
  · split
    · apply fs_prompt
      have h1 : s.fail_step (match E.xre_compile s.xre_definitions_ s.xre_lists_ xre with
          | some compiled => { s with xre_definitions_ := s.xre_definitions_.set name compiled }
          | none => (s.ERROR ("Could not define variable '" ++ name ++ "'")).xfst_fail) := by
        split
        · exact fail_step_fields h0 rfl rfl
        · exact fs_xfst_fail (fs_ERROR _ h0)
      simp only []
      split
      · exact fail_step_fields h1 rfl rfl
      · exact fail_step_fields h1 rfl rfl
    · exact fs_prompt (fs_xfst_fail (fs_ERROR _ h0))

theorem fs_define_list (s : XfstCompiler T) (name values : String) :
    s.fail_step (s.define_list name values) := by
  unfold XfstCompiler.define_list
  split
  · exact fs_prompt (fs_MAYBE_QUIT (fs_ERROR _ (fail_step_refl s)))
  · exact fs_prompt (fail_step_fields (fail_step_refl s) rfl rfl)

theorem fs_define_list_range (s : XfstCompiler T) (name start end_ : String) :
    s.fail_step (s.define_list_range name start end_) := by
  unfold XfstCompiler.define_list_range
  simp only []
  split
  · exact fail_step_fields (fail_step_refl s) rfl rfl
  · exact fail_step_fields (fail_step_refl s) rfl rfl

theorem fs_undefine_loop (names : List String) :
    ∀ s0 s : XfstCompiler T, s0.fail_step s → s0.fail_step (s.undefine_loop names) := by
  induction names with
  | nil => intro s0 s h; exact h
  | cons n rest ih =>
    intro s0 s h
    rw [XfstCompiler.undefine_loop]
    apply ih
    split
    · exact fail_step_fields h rfl rfl
    · exact h

theorem fs_undefine (s : XfstCompiler T) (name_list : String) :
    s.fail_step (s.undefine name_list) :=
  fs_prompt (fs_undefine_loop _ s s (fail_step_refl s))

theorem fs_unlist (s : XfstCompiler T) (name : String) : s.fail_step (s.unlist name) := by
  unfold XfstCompiler.unlist
  apply fs_prompt
  split
  · exact fail_step_fields (fail_step_refl s) rfl rfl
  · exact fail_step_refl s

theorem fs_add_loaded_definition (E : Engine T) (s : XfstCompiler T) (t : T) :
    s.fail_step (s.add_loaded_definition E t) := by
  unfold XfstCompiler.add_loaded_definition
  simp only []
  split
  · exact fs_ERROR _ (fail_step_refl s)
  · split
    · exact fail_step_fields (fail_step_refl s) rfl rfl
    · exact fail_step_fields (fail_step_refl s) rfl rfl

theorem fs_print_words (fd : FdOperation) (E : Engine T) (s s' : XfstCompiler T)
    (name : Option String) (number : Nat) (level : Level)
    (hr : s.print_words fd E name number level = Except.ok s') : s.fail_step s' := by
  unfold XfstCompiler.print_words at hr
  simp only [] at hr
  have hfound : s.fail_step (match name with
      | none => s.top E false
      | some nm =>
        match s.definitions_.find? nm with
        | none => ((s.OUTPUT ("no such definition '" ++ nm ++ "'")).prompt, none)
        | some t => (s, some t)).1 := by
    split
    · exact fs_top E false (fail_step_refl s)
    · split
      · exact fs_prompt (fs_OUTPUT _ (fail_step_refl s))
      · exact fail_step_refl s
  split at hr
  · rename_i s1 heq
    rw [heq] at hfound
    injection hr with hr
    rw [← hr]
    exact hfound
  · rename_i s1 temp0 heq
    rw [heq] at hfound
    have hfound' : s.fail_step s1 := hfound
    split at hr
    · cases hr
    · split at hr
      · split at hr
        · rename_i r hp
          injection hr with hr
          rw [← hr]
          exact fs_prompt (fs_print_paths fd E _ _ r hfound' hp)
        · cases hr
      · split at hr
        · split at hr
          · rename_i r hp
            injection hr with hr
            rw [← hr]
            exact fs_prompt (fs_print_paths fd E _ _ r (fs_ERROR _ hfound') hp)
          · cases hr
        · cases hr
      · cases hr

theorem set_fail (s : XfstCompiler T) (name text : String) :
    (s.set name text).fail_flag_ = s.fail_flag_ := by
  unfold XfstCompiler.set
  split
  · split
    · simp only [prompt_fail]
      split <;> rfl
    · simp
  · simp only [prompt_fail]
    split <;> split <;> (try split) <;> (try split) <;> rfl

theorem set_number_fail (s : XfstCompiler T) (name : String) (number : Nat) :
    (s.set_number name number).fail_flag_ = s.fail_flag_ := by
  unfold XfstCompiler.set_number
  split <;> simp

/-- Without `quit-on-fail`, `substitute_symbol` leaves the fail flag as it
is unless the compiler fails on its substitution. -/
theorem substitute_symbol_quiet (E : Engine T) (s : XfstCompiler T) (list target : String)
    (hq : s.var "quit-on-fail" ≠ "ON") (hs : s.substitution_fails E list target = false) :
    (s.substitute_symbol E list target).fail_flag_ = s.fail_flag_ := by
  unfold XfstCompiler.substitution_fails at hs
  unfold XfstCompiler.substitute_symbol
  have ht := fs_top E false (fail_step_refl s)
  split
  · rename_i s1 heq
    rw [heq] at ht
    exact fail_step_quiet (fs_xfst_lesser_fail ht) hq
  · rename_i s1 top heq
    rw [heq] at ht hs
    have ht' : s.fail_step s1 := ht
    simp only [] at hs
    split
    · exact fail_step_quiet (fs_prompt (fs_MAYBE_QUIT (fs_ERROR _ ht'))) hq
    · rename_i hmem
      simp only []
      split
      · exact fail_step_quiet (fs_prompt (fs_print_transducer_info E
          (fail_step_fields ht' rfl rfl))) hq
      · rename_i hnone
        exfalso
        have hmem' : target ∈ E.get_alphabet top := by
          by_contra hc
          exact hmem hc
        simp only [hmem', decide_True, Bool.true_and] at hs
        change (E.xre_compile (s1.xre_definitions_.set "TempXfstTransducerName" top)
          s1.xre_lists_ (subst_regex list target)) = none at hnone
        rw [hnone] at hs
        cases hs

/-- When the compiler fails on its substitution, `substitute_symbol` sets the
fail flag, whatever `quit-on-fail` is. -/
theorem substitute_symbol_fatal (E : Engine T) (s : XfstCompiler T) (list target : String)
    (hs : s.substitution_fails E list target = true) :
    (s.substitute_symbol E list target).fail_flag_ = true := by
  unfold XfstCompiler.substitution_fails at hs
  unfold XfstCompiler.substitute_symbol
  split
  · rename_i s1 heq
    rw [heq] at hs
    cases hs
  · rename_i s1 top heq
    rw [heq] at hs
    simp only [Bool.and_eq_true, decide_eq_true_eq, Option.isNone_iff_eq_none] at hs
    rw [if_neg (not_not.2 hs.1)]
    simp only []
    have hnone : E.xre_compile (({ s1 with stack_ := s1.stack_.tail }).xre_definitions_.set
        "TempXfstTransducerName" top) ({ s1 with stack_ := s1.stack_.tail }).xre_lists_
        (subst_regex list target) = none := hs.2
    rw [hnone]
    simp only [prompt_fail]

/-- Without `quit-on-fail` an operation that returns leaves the fail flag as
it is, unless it is a `substitute_symbol` on whose substitution the compiler
fails. -/
theorem Command.run_quiet (fd : FdOperation) (E : Engine T) (c : Command T)
    (s s' : XfstCompiler T) (hq : s.var "quit-on-fail" ≠ "ON")
    (hs : c.fatal_substitution E s = false) (hr : c.run fd E s = Except.ok s') :
    s'.fail_flag_ = s.fail_flag_ := by
  cases c with
  | apply_unary_operation op => exact fail_step_quiet (fs_apply_unary_operation E s s' op hr) hq
  | apply_binary_operation op =>
    exact fail_step_quiet (fs_apply_binary_operation E s s' op hr) hq
  | apply_binary_operation_iteratively op =>
    exact fail_step_quiet (fs_apply_binary_operation_iteratively E s s' op hr) hq
  | compose_net => exact fail_step_quiet (fs_apply_binary_operation_iteratively E s s' _ hr) hq
  | test_eq a => injection hr with hr; rw [← hr]; exact fail_step_quiet (fs_test_eq E s a) hq
  | define n => injection hr with hr; rw [← hr]; exact fail_step_quiet (fs_define E s n) hq
  | define_xre n x =>
    injection hr with hr; rw [← hr]; exact fail_step_quiet (fs_define_xre E s n x) hq
  | define_list n v =>
    injection hr with hr; rw [← hr]; exact fail_step_quiet (fs_define_list s n v) hq
  | define_list_range n a b =>
    injection hr with hr; rw [← hr]; exact fail_step_quiet (fs_define_list_range s n a b) hq
  | undefine n => injection hr with hr; rw [← hr]; exact fail_step_quiet (fs_undefine s n) hq
  | unlist n => injection hr with hr; rw [← hr]; exact fail_step_quiet (fs_unlist s n) hq
  | add_loaded_definition t =>
    injection hr with hr; rw [← hr]; exact fail_step_quiet (fs_add_loaded_definition E s t) hq
  | set n x => injection hr with hr; rw [← hr]; exact set_fail s n x
  | set_number n x => injection hr with hr; rw [← hr]; exact set_number_fail s n x
  | print_words n k l => exact fail_step_quiet (fs_print_words fd E s s' n k l hr) hq
  | print_sigma p =>
    injection hr with hr; rw [← hr]
    exact fail_step_quiet (fs_print_sigma E p (fail_step_refl s)) hq
  | print_transducer_info =>
    injection hr with hr; rw [← hr]
    exact fail_step_quiet (fs_print_transducer_info E (fail_step_refl s)) hq
  | pop => injection hr with hr; rw [← hr]; exact fail_step_quiet (fs_pop (fail_step_refl s)) hq
  | prompt =>
    injection hr with hr; rw [← hr]; exact fail_step_quiet (fs_prompt (fail_step_refl s)) hq
  | xfst_fail =>
    injection hr with hr; rw [← hr]; exact fail_step_quiet (fs_xfst_fail (fail_step_refl s)) hq
  | xfst_lesser_fail =>
    injection hr with hr; rw [← hr]
    exact fail_step_quiet (fs_xfst_lesser_fail (fail_step_refl s)) hq
  | substitute_symbol l t =>
    injection hr with hr; rw [← hr]; exact substitute_symbol_quiet E s l t hq hs
  | define_function p x =>
    injection hr with hr; rw [← hr]; exact fail_step_quiet (fs_define_function E s p x) hq
  | turn => injection hr with hr; rw [← hr]; exact fail_step_quiet (fs_turn E s) hq
  | rotate => injection hr with hr; rw [← hr]; exact fail_step_quiet (fs_rotate E s) hq
  | apply_down_line line => exact fail_step_quiet (fs_apply_down_line fd E s s' line hr) hq
  | compile_replace_net level =>
    exact fail_step_quiet (fs_compile_replace_net E s s' level hr) hq

end quit_on_fail

/-- Without `quit-on-fail` a statement other than the assignment of
`substitute_symbol` leaves the fail flag as it is. -/
theorem flag_statement_quiet {T : Type} (statement : FlagStatement T) (s : XfstCompiler T)
    (hq : s.var "quit-on-fail" ≠ "ON") (hf : statement.is_fatal_assignment = false) :
    (statement.run s).fail_flag_ = s.fail_flag_ := by
  cases statement with
  | xfst_fail => exact fail_step_quiet (fs_xfst_fail (fail_step_refl s)) hq
  | xfst_lesser_fail => exact fail_step_quiet (fs_xfst_lesser_fail (fail_step_refl s)) hq
  | MAYBE_QUIT => exact fail_step_quiet (fs_MAYBE_QUIT (fail_step_refl s)) hq
  | MAYBE_ASSERT assertion value =>
    exact fail_step_quiet (fs_MAYBE_ASSERT assertion value (fail_step_refl s)) hq
  | IF_NULL_PROMPT_AND_RETURN_THIS => exact fail_step_quiet (fs_IF_NULL (fail_step_refl s)) hq
  | fatal_assignment => cases hf
  | other f => rfl

/-- An operation that returns from a quiet run leaves the fail flag as it
is. -/
theorem operation_quiet {T : Type} (op : Operation T) :
    ∀ s s' : XfstCompiler T, op.quiet s → op.run s = Except.ok s' →
      s'.fail_flag_ = s.fail_flag_ := by
  induction op with
  | done =>
    intro s s' _ hr
    injection hr with hr
    rw [← hr]
  | raise e =>
    intro s s' _ hr
    cases hr
  | step statement next ih =>
    intro s s' hq hr
    rw [Operation.run] at hr
    rw [Operation.quiet] at hq
    rw [ih (statement.run s) (statement.run s) s' hq.2.2 hr]
    exact flag_statement_quiet statement s hq.1 hq.2.1

theorem length_eq_count_add_filter (a : Nat) (l : List Nat) :
    l.length = l.count a + (l.filter (fun q => decide (q ≠ a))).length := by
  induction l with
  | nil => rfl
  | cons b rest ih =>
    by_cases h : b = a
    · subst h
      simp [List.filter] at ih ⊢
      omega
    · simp [List.filter, h, List.count_cons] at ih ⊢
      omega

/-- A list over the states `S` in which no state occurs more than `c` times
has at most `c` times the length of `S`. -/
theorem length_le_of_count_le (c : Nat) (S : List Nat) :
    ∀ l : List Nat, (∀ q ∈ l, q ∈ S) → (∀ q, l.count q ≤ c) → l.length ≤ c * S.length := by
  induction S with
  | nil =>
    intro l hmem _
    cases l with
    | nil => simp
    | cons q rest => exact absurd (hmem q (List.mem_cons_self q rest)) (List.not_mem_nil q)
  | cons a S ih =>
    intro l hmem hcount
    have h1 := length_eq_count_add_filter a l
    have h2 : (l.filter (fun q => decide (q ≠ a))).length ≤ c * S.length := by
      apply ih
      · intro q hq
        rw [List.mem_filter] at hq
        have hne : q ≠ a := by simpa using hq.2
        rcases List.mem_cons.1 (hmem q hq.1) with h | h
        · exact absurd h hne
        · exact h
      · intro q
        exact Nat.le_trans (List.Sublist.count_le (List.filter_sublist l) q) (hcount q)
    have h3 := hcount a
    simp only [List.length_cons, Nat.mul_succ]
    omega

theorem collect_results_some {α : Type} (l : List (Option (List α)))
    (h : ∀ o ∈ l, ∃ x, o = some x) : ∃ r, collect_results l = some r := by
  induction l with
  | nil => exact ⟨[], rfl⟩
  | cons o rest ih =>
    obtain ⟨x, hx⟩ := h o (List.mem_cons_self o rest)
    obtain ⟨y, hy⟩ := ih (fun o' ho' => h o' (List.mem_cons_of_mem o ho'))
    subst hx
    rw [collect_results, hy]
    exact ⟨_, rfl⟩

theorem collect_results_mem {α : Type} (l : List (Option (List α))) :
    ∀ (rs : List α) (r : α), collect_results l = some rs → r ∈ rs →
      ∃ x, some x ∈ l ∧ r ∈ x := by
  induction l with
  | nil =>
    intro rs r h hr
    rw [collect_results] at h
    injection h with h
    rw [← h] at hr
    cases hr
  | cons o rest ih =>
    intro rs r h hr
    cases o with
    | none =>
      rw [collect_results] at h
      cases h
    | some x =>
      rw [collect_results] at h
      split at h
      · cases h
      · rename_i y hy
        injection h with h
        rw [← h] at hr
        rcases List.mem_append.1 hr with hr | hr
        · exact ⟨x, List.mem_cons_self _ _, hr⟩
        · obtain ⟨x', hx', hr'⟩ := ih y r hy hr
          exact ⟨x', List.mem_cons_of_mem _ hx', hr'⟩

/-- The search of the modelled lookup never runs out of fuel: with the
states entered since the last input symbol bounded by the cutoff, it returns
as soon as the fuel covers the input positions left. -/
theorem lookup_from_returns (t : Fst) (cutoff : Nat) :
    ∀ (fuel state : Nat) (input : List String) (visits : List Nat)
      (path : List (String × String)),
      (∀ q ∈ visits, q ∈ t.states) → (∀ q, visits.count q ≤ cutoff + 1) →
      input.length * ((cutoff + 1) * t.states.length + 1)
          + ((cutoff + 1) * t.states.length + 1 - visits.length) ≤ fuel →
      ∃ r, t.lookup_from cutoff fuel state input visits path = some r := by
  intro fuel
  induction fuel with
  | zero =>
    intro state input visits path hmem hcount hfuel
    have hlen := length_le_of_count_le (cutoff + 1) t.states visits hmem hcount
    omega
  | succ fuel ih =>
    intro state input visits path hmem hcount hfuel
    have hlen := length_le_of_count_le (cutoff + 1) t.states visits hmem hcount
    rw [Fst.lookup_from]
    have hmoves : ∀ o ∈ (t.transitions.filter (fun tr => decide (tr.source = state))).map
        (fun tr =>
          if tr.input = internal_epsilon then
            if visits.count tr.target ≤ cutoff then
              t.lookup_from cutoff fuel tr.target input (tr.target :: visits)
                (path ++ [(tr.input, tr.output)])
            else some []
          else
            match input with
            | [] => some []
            | sym :: rest =>
              if tr.input = sym then
                t.lookup_from cutoff fuel tr.target rest [tr.target]
                  (path ++ [(tr.input, tr.output)])
              else some []), ∃ x, o = some x := by
      intro o ho
      obtain ⟨tr, htr, rfl⟩ := List.mem_map.1 ho
      have htarget : tr.target ∈ t.states := by
        unfold Fst.states
        exact List.mem_cons_of_mem _ (List.mem_map.2 ⟨tr, (List.mem_filter.1 htr).1, rfl⟩)
      by_cases heps : tr.input = internal_epsilon
      · rw [if_pos heps]
        by_cases hc : visits.count tr.target ≤ cutoff
        · rw [if_pos hc]
          apply ih
          · intro q hq
            rcases List.mem_cons.1 hq with h | h
            · rw [h]
              exact htarget
            · exact hmem q h
          · intro q
            rw [List.count_cons]
            by_cases hq : tr.target = q
            · subst hq
              simp
              omega
            · have := hcount q
              simp [hq]
              omega
          · simp only [List.length_cons]
            omega
        · rw [if_neg hc]
          exact ⟨_, rfl⟩
      · rw [if_neg heps]
        cases input with
        | nil => exact ⟨_, rfl⟩
        | cons sym rest =>
          simp only []
          by_cases hs : tr.input = sym
          · rw [if_pos hs]
            apply ih
            · intro q hq
              rw [List.mem_singleton.1 hq]
              exact htarget
            · intro q
              rw [List.count_cons]
              by_cases hq : tr.target = q
              · simp [hq]
              · simp [hq]
            · simp only [List.length_cons, List.length_nil, Nat.succ_mul] at hfuel ⊢
              omega
          · rw [if_neg hs]
            exact ⟨_, rfl⟩
    obtain ⟨found, hfound⟩ := collect_results_some _ hmoves
    rw [hfound]
    exact ⟨_, rfl⟩

/-- The paths the modelled lookup finds are not longer than the path so far
and the fuel together. -/
theorem lookup_from_bounded (t : Fst) (cutoff : Nat) :
    ∀ (fuel state : Nat) (input : List String) (visits : List Nat)
      (path : List (String × String)) (rs : List (List (String × String))),
      t.lookup_from cutoff fuel state input visits path = some rs →
      ∀ r ∈ rs, r.length ≤ path.length + fuel := by
  intro fuel
  induction fuel with
  | zero =>
    intro state input visits path rs h
    rw [Fst.lookup_from] at h
    cases h
  | succ fuel ih =>
    intro state input visits path rs h r hr
    rw [Fst.lookup_from] at h
    split at h
    · cases h
    · rename_i found hfound
      injection h with h
      rw [← h] at hr
      rcases List.mem_append.1 hr with hr | hr
      · split at hr
        · rw [List.mem_singleton.1 hr]
          omega
        · cases hr
      · obtain ⟨x, hx, hrx⟩ := collect_results_mem _ found r hfound hr
        obtain ⟨tr, -, htr⟩ := List.mem_map.1 hx
        split at htr
        · split at htr
          · have := ih _ _ _ _ _ htr r hrx
            simp only [List.length_append, List.length_singleton] at this
            omega
          · injection htr with htr
            rw [← htr] at hrx
            cases hrx
        · split at htr
          · injection htr with htr
            rw [← htr] at hrx
            cases hrx
          · split at htr
            · have := ih _ _ _ _ _ htr r hrx
              simp only [List.length_append, List.length_singleton] at this
              omega
            · injection htr with htr
              rw [← htr] at hrx
              cases hrx

/-- The lookup in an iterable network returns under a decoder that yields
one of the six operators on every diacritic: it appends lines to the output,
or the sentinel when there is no line. -/
theorem lookup_returns {T : Type} (fd : FdOperation) (E : Engine T) (s : XfstCompiler T)
    (hwf : ∀ sym, fd.is_diacritic sym = true →
      ∃ op, (fd.get_operator sym).data = [op] ∧ op ∈ ['P', 'N', 'R', 'D', 'C', 'U'])
    (line : String) (t : T) :
    ∃ (s' : XfstCompiler T) (lines : List (List String)), s.lookup fd E line t = Except.ok s'
      ∧ (∀ l ∈ lines, l.getLast? = some "\n")
      ∧ s'.output_ = s.output_ ++ lines.flatten
          ++ (if lines.isEmpty then ["???\n"] else []) := by
  unfold XfstCompiler.lookup
  simp only []
  obtain ⟨s', lines, h1, h2, h3⟩ := lookup_print_lines fd E
    (if (E.is_lookup_infinitely_ambiguous t
            (E.tokenize_one_level (E.get_input_symbols t) (E.strstrip line))
            (decide (s.var "obey-flags" = "ON")) && s.verbose_) = true then
      s.ERROR ("warning: lookup is infinitely ambiguous, limiting the number of cycles to "
        ++ toString (if E.is_lookup_infinitely_ambiguous t
            (E.tokenize_one_level (E.get_input_symbols t) (E.strstrip line))
            (decide (s.var "obey-flags" = "ON")) = true then
          string_to_size_t E.uninitialised_size_t (s.var "lookup-cycle-cutoff")
          else 2 ^ 64 - 1))
    else s) hwf
    (E.lookup_path t (E.tokenize_one_level (E.get_input_symbols t) (E.strstrip line))
      (if E.is_lookup_infinitely_ambiguous t
            (E.tokenize_one_level (E.get_input_symbols t) (E.strstrip line))
            (decide (s.var "obey-flags" = "ON")) = true then
          string_to_size_t E.uninitialised_size_t (s.var "lookup-cycle-cutoff")
          else 2 ^ 64 - 1)
      (if s.var "maximum-weight" = "OFF" then none
       else some (E.string_to_float (s.var "maximum-weight")))
      (decide (s.var "obey-flags" = "ON")))
  refine ⟨s', lines, ?_, h2, ?_⟩
  · rw [← h1]
    split <;> rfl
  · rw [h3]
    split <;> rfl

theorem written_pair_paths_nil {T : Type} (fd : FdOperation) (s : XfstCompiler T) (n : Int) :
    s.written_pair_paths fd [] n = [] := by
  unfold XfstCompiler.written_pair_paths
  split <;> simp

theorem written_pair_paths_zero {T : Type} (fd : FdOperation) (s : XfstCompiler T)
    (paths : HfstTwoLevelPaths) : s.written_pair_paths fd paths 0 = [] := by
  unfold XfstCompiler.written_pair_paths
  simp

theorem written_pair_paths_skip {T : Type} (fd : FdOperation) (s : XfstCompiler T)
    (it : Weight × List (String × String)) (rest : HfstTwoLevelPaths) (n : Int)
    (h : s.passes_filter fd (it.2.map Prod.fst) = false) :
    s.written_pair_paths fd (it :: rest) n = s.written_pair_paths fd rest n := by
  unfold XfstCompiler.written_pair_paths
  simp [List.filter, h]

theorem written_pair_paths_take {T : Type} (fd : FdOperation) (s : XfstCompiler T)
    (it : Weight × List (String × String)) (rest : HfstTwoLevelPaths) (n : Int)
    (h : s.passes_filter fd (it.2.map Prod.fst) = true) (hn : n ≠ 0) :
    s.written_pair_paths fd (it :: rest) n = it :: s.written_pair_paths fd rest (n - 1) := by
  unfold XfstCompiler.written_pair_paths
  by_cases hneg : n < 0
  · have h1 : n - 1 < 0 := by omega
    simp [List.filter, h, hneg, h1]
  · have h1 : ¬ n - 1 < 0 := by omega
    obtain ⟨k, hk⟩ : ∃ k : Nat, n.toNat = k + 1 := ⟨n.toNat - 1, by omega⟩
    have h2 : (n - 1).toNat = k := by omega
    simp [List.filter, h, hneg, h1, hk, h2]

/-- What the outer loop of the two-level `print_paths` writes and returns,
when it returns: the lines of the written paths, and whether it had `retval`
set before or wrote a path. -/
theorem print_paths_loop_eq {T : Type} (fd : FdOperation) (E : Engine T) (s : XfstCompiler T)
    (paths : HfstTwoLevelPaths) :
    ∀ (n : Int) (retval : Bool) (r : List String × Bool),
      s.print_paths_loop fd E paths n retval = some r →
      r = ((s.written_pair_paths fd paths n).flatMap (s.print_pair_path_line fd E),
            retval || !(s.written_pair_paths fd paths n).isEmpty) := by
  induction paths with
  | nil =>
    intro n retval r h
    rw [XfstCompiler.print_paths_loop] at h
    injection h with h
    rw [← h, written_pair_paths_nil]
    simp
  | cons it rest ih =>
    intro n retval r h
    rw [XfstCompiler.print_paths_loop] at h
    by_cases hn : n = 0
    · rw [if_pos hn] at h
      injection h with h
      rw [← h, hn, written_pair_paths_zero]
      simp
    · rw [if_neg hn] at h
      simp only [] at h
      split at h
      · cases h
      · rename_i hv
        have hp : s.passes_filter fd (it.2.map Prod.fst) = false := by
          unfold XfstCompiler.passes_filter
          split at hv
          · rename_i ho
            rw [if_pos ho, hv]
            rfl
          · cases hv
        rw [written_pair_paths_skip fd s it rest n hp]
        exact ih n retval r h
      · rename_i hv
        have hp : s.passes_filter fd (it.2.map Prod.fst) = true := by
          unfold XfstCompiler.passes_filter
          split at hv
          · rename_i ho
            rw [if_pos ho, hv]
            rfl
          · rename_i ho
            rw [if_neg ho]
        rw [written_pair_paths_take fd s it rest n hp hn]
        split at h
        · cases h
        · rename_i r1 h1
          injection h with h
          have := ih (n - 1) true r1 h1
          rw [← h, this]
          simp [XfstCompiler.print_pair_path_line]

/-- The end of both lookups after a printing that wrote the given lines and
returned whether there was one: the lines, or the sentinel. -/
theorem lookup_end_eq {T : Type} {α : Type} (s : XfstCompiler T) (written : List α)
    (f : α → List String) :
    XfstCompiler.lookup_end
        ({ s with output_ := s.output_ ++ (written.map f).flatten },
          false || !written.isEmpty)
      = { s with output_ := s.output_ ++ (written.map f).flatten
            ++ (if (written.map f).isEmpty then ["???\n"] else []) } := by
  unfold XfstCompiler.lookup_end
  cases written with
  | nil => simp [XfstCompiler.OUTPUT]
  | cons l ls => simp

/-- The printing at the end of the lookup in an iterable network, under a
decoder that yields one of the six operators on every diacritic: it returns
the session with the lines of the results appended to the output, or the
sentinel when there is no line. -/
theorem lookup_print_eq {T : Type} (fd : FdOperation) (E : Engine T) (s : XfstCompiler T)
    (hwf : ∀ sym, fd.is_diacritic sym = true →
      ∃ op, (fd.get_operator sym).data = [op] ∧ op ∈ ['P', 'N', 'R', 'D', 'C', 'U'])
    (results : HfstTwoLevelPaths) :
    s.lookup_print fd E results
      = Except.ok { s with output_ := s.output_ ++ (s.lookup_lines fd E results).flatten
          ++ (if (s.lookup_lines fd E results).isEmpty then ["???\n"] else []) } := by
  unfold XfstCompiler.lookup_print XfstCompiler.lookup_lines
  simp only []
  by_cases hp : s.var "print-pairs" = "OFF"
  · rw [if_pos hp, if_pos hp]
    obtain ⟨r, hr⟩ := print_paths_one_loop_returns fd E s hwf (extract_output_paths results)
      (-1) false
    have heq := print_paths_one_loop_eq fd E s _ (-1) false r hr
    unfold XfstCompiler.print_paths_one
    rw [hr, heq]
    simp only [List.flatMap_def]
    rw [lookup_end_eq]
  · rw [if_neg hp, if_neg hp]
    obtain ⟨r, hr⟩ := print_paths_loop_returns fd E s hwf results (-1) false
    have heq := print_paths_loop_eq fd E s _ (-1) false r hr
    unfold XfstCompiler.print_paths
    rw [hr, heq]
    simp only [List.flatMap_def]
    rw [lookup_end_eq]

/-- The lookup in a network of a lookup format, under a decoder that yields
one of the six operators on every diacritic: it returns the session with the
lines of the paths of the engine appended to the output, or the sentinel when
there is no line. -/
theorem lookup_cutoff_eq {T : Type} (fd : FdOperation) (E : Engine T) (s : XfstCompiler T)
    (hwf : ∀ sym, fd.is_diacritic sym = true →
      ∃ op, (fd.get_operator sym).data = [op] ∧ op ∈ ['P', 'N', 'R', 'D', 'C', 'U'])
    (line : String) (t : T) (cutoff : Nat) (paths : HfstOneLevelPaths)
    (hpaths : paths = (if s.var "obey-flags" = "ON" then E.lookup_fd t (E.strstrip line) cutoff
        else E.lookup t (E.strstrip line) cutoff)) :
    s.lookup_cutoff fd E line t cutoff
      = Except.ok { s with output_ := s.output_
          ++ ((s.written_paths fd paths (-1)).map (s.print_path_line fd E)).flatten
          ++ (if ((s.written_paths fd paths (-1)).map (s.print_path_line fd E)).isEmpty
              then ["???\n"] else []) } := by
  unfold XfstCompiler.lookup_cutoff
  simp only []
  rw [← hpaths]
  obtain ⟨r, hr⟩ := print_paths_one_loop_returns fd E s hwf paths (-1) false
  have heq := print_paths_one_loop_eq fd E s _ (-1) false r hr
  unfold XfstCompiler.print_paths_one
  rw [hr, heq]
  simp only [List.flatMap_def]
  rw [lookup_end_eq]

end Xfst
